import Mathlib

/-!
# libblkid ZFS member probe (`libblkid/src/superblocks/zfs.c`)

A shallow embedding of `find_uberblocks`, `zfs_extract_guid_name` and `probe_zfs`.

Conventions of the embedding.

* Memory behind a C pointer is a function from byte offsets to bytes (`Mem`); every byte that is
  loaded is reduced modulo 256.
* The decoder works on its private array `buff[4096]`.  Every access to `buff` is bounds checked
  by the embedding: an access at an index outside `0 .. 4095` is undefined behaviour in C and is
  reported as `Except.error idx`, where `idx` is the first offending byte index.
* `uint32_t`/`uint64_t` values are naturals below `2^32`/`2^64`; `int` values are integers obtained
  through `int32` (two's complement truncation).  Pointer differences are integers.
* The byte order of the host is the parameter `le` (`true` on a little-endian host).
-/

namespace Zfs

/-! ## Constants of the source file -/

abbrev VDEV_LABEL_UBERBLOCK : Nat := 128 * 1024
abbrev VDEV_LABEL_NVPAIR : Nat := 16 * 1024
abbrev VDEV_LABEL_SIZE : Nat := 256 * 1024
abbrev UBERBLOCK_SIZE : Nat := 1024
abbrev UBERBLOCKS_COUNT : Nat := 128
abbrev UBERBLOCK_MAGIC : Nat := 0x00bab10c
abbrev ZFS_WANT : Nat := 4
abbrev DATA_TYPE_UINT64 : Nat := 8
abbrev DATA_TYPE_STRING : Nat := 9
/-- The value of `sizeof(struct nvpair)`: three `uint32_t` and a zero-length array. -/
abbrev SIZEOF_NVPAIR : Nat := 12
/-- The value of `offsetof(struct nvlist, nvl_nvpair)`: the three `uint32_t` of `nvl_unknown`. -/
abbrev OFFSETOF_NVL_NVPAIR : Nat := 12
/-- The value of `sizeof(struct nvstring)`. -/
abbrev SIZEOF_NVSTRING : Nat := 12
/-- The value of `sizeof(struct nvuint64)`. -/
abbrev SIZEOF_NVUINT64 : Nat := 16
/-- The value of `sizeof(buff)` in `zfs_extract_guid_name`. -/
abbrev SIZEOF_BUFF : Nat := 4096
abbrev UINT_MAX : Nat := 4294967295
/-- The minimum device size of `zfs_idinfo` (`.minsz`). -/
abbrev ZFS_MINSZ : Nat := 64 * 1024 * 1024

/-! ## Bytes, words and byte order -/

/-- Memory behind a pointer: byte offset to byte. -/
abbrev Mem := Nat → Nat

/-- Little-endian composition of four bytes. -/
def le32 (b0 b1 b2 b3 : Nat) : Nat := b0 + 256 * b1 + 65536 * b2 + 16777216 * b3

/-- Big-endian composition of four bytes. -/
def be32 (b0 b1 b2 b3 : Nat) : Nat := le32 b3 b2 b1 b0

/-- A `uint32_t` as the host sees four consecutive bytes. -/
def host32 (le : Bool) (b0 b1 b2 b3 : Nat) : Nat :=
  if le then le32 b0 b1 b2 b3 else be32 b0 b1 b2 b3

/-- Byte `k` (0 = least significant) of a machine word. -/
def byteOf (v k : Nat) : Nat := v / 256 ^ k % 256

/-- The function `swab32`: reverses the four bytes of a `uint32_t`. -/
def swab32 (v : Nat) : Nat := le32 (byteOf v 3) (byteOf v 2) (byteOf v 1) (byteOf v 0)

/-- The function `be32_to_cpu`: a byte swap on a little-endian host, the identity otherwise. -/
def be32_to_cpu (le : Bool) (v : Nat) : Nat := if le then swab32 v else v

/-- Little-endian composition of eight bytes. -/
def le64 (b : Nat → Nat) : Nat :=
  b 0 + 256 * b 1 + 256 ^ 2 * b 2 + 256 ^ 3 * b 3 + 256 ^ 4 * b 4 + 256 ^ 5 * b 5
    + 256 ^ 6 * b 6 + 256 ^ 7 * b 7

/-- A `uint64_t` as the host sees eight consecutive bytes `b 0 .. b 7`. -/
def host64 (le : Bool) (b : Nat → Nat) : Nat :=
  if le then le64 b else le64 (fun k => b (7 - k))

/-- The function `swab64`: reverses the eight bytes of a `uint64_t`. -/
def swab64 (v : Nat) : Nat := le64 (fun k => byteOf v (7 - k))

/-- The function `be64_to_cpu`. -/
def be64_to_cpu (le : Bool) (v : Nat) : Nat := if le then swab64 v else v

/-- Conversion of an integer to `int` (32 bit, two's complement). -/
def int32 (z : Int) : Int := (z + 2147483648) % 4294967296 - 2147483648

/-- The `printf` conversion `"%" PRIu64`. -/
def fmt_u64 (v : Nat) : String := Nat.repr v

/-- The bytes of a C string literal, without the terminating NUL. -/
def cstr (s : String) : List Nat := s.data.map Char.toNat

/-! ## Access to `buff[4096]` -/

/-- Load of `buff[a]`; an index outside the array is reported as an error. -/
def ld8 (m : Mem) (a : Int) : Except Int Nat :=
  if 0 ≤ a ∧ a < 4096 then .ok (m a.toNat % 256) else .error a

/-- Load of a `uint32_t` field at `buff + a`, in host order. -/
def ld32 (le : Bool) (m : Mem) (a : Int) : Except Int Nat := do
  let b0 ← ld8 m a
  let b1 ← ld8 m (a + 1)
  let b2 ← ld8 m (a + 2)
  let b3 ← ld8 m (a + 3)
  pure (host32 le b0 b1 b2 b3)

/-- Load of eight bytes at `buff + a` into a `uint64_t` (`memcpy`), in host order. -/
def ld64 (le : Bool) (m : Mem) (a : Int) : Except Int Nat := do
  let b0 ← ld8 m a
  let b1 ← ld8 m (a + 1)
  let b2 ← ld8 m (a + 2)
  let b3 ← ld8 m (a + 3)
  let b4 ← ld8 m (a + 4)
  let b5 ← ld8 m (a + 5)
  let b6 ← ld8 m (a + 6)
  let b7 ← ld8 m (a + 7)
  pure (host64 le (fun k => [b0, b1, b2, b3, b4, b5, b6, b7].getD k 0))

/-- Store of a `uint32_t` at `buff + a`, in host order.  It is only used on an address that was
loaded successfully just before, which is therefore inside the array. -/
def st32 (le : Bool) (m : Mem) (a : Int) (v : Nat) : Mem :=
  fun i =>
    if a ≤ (i : Int) ∧ (i : Int) < a + 4 then
      (if le then byteOf v (i - a.toNat) else byteOf v (3 - (i - a.toNat)))
    else m i

/-- Load of `n` consecutive bytes starting at `buff + a`. -/
def ldbytes (m : Mem) (a : Int) : Nat → Except Int (List Nat)
  | 0 => .ok []
  | n + 1 => do
    let b ← ld8 m a
    let r ← ldbytes m (a + 1) n
    pure (b :: r)

/-- The test `strncmp(buff + a, lit, n) == 0` for a string literal `lit` (given without its
terminating NUL, all of its bytes non-zero).  Bytes are compared one at a time; the comparison
ends after `n` bytes, at the first difference, or when both strings end. -/
def strncmp_eq (m : Mem) : Int → List Nat → Nat → Except Int Bool
  | _, _, 0 => .ok true
  | a, [], _ + 1 => do
    let c ← ld8 m a
    pure (c == 0)
  | a, c :: cs, n + 1 => do
    let c1 ← ld8 m a
    if c1 = c then strncmp_eq m (a + 1) cs n else pure false

/-! ## The values a probe records -/

/-- The values recorded on the probe by the result setters. -/
structure Vals where
  /-- The value set by `blkid_probe_sprintf_version`. -/
  version : Option String := none
  /-- The value set by `blkid_probe_set_label`: the bytes of the label. -/
  label : Option (List Nat) := none
  /-- The value `UUID_SUB`, set by `blkid_probe_sprintf_value`. -/
  uuid_sub : Option String := none
  /-- The value set by `blkid_probe_sprintf_uuid`. -/
  uuid : Option String := none
  /-- The value set by `blkid_probe_set_magic`: device offset, length and bytes of the magic. -/
  magic : Option (Nat × Nat × List Nat) := none
deriving DecidableEq, Repr

/-- Modelled from the spec: `blkid_probe_set_label(pr, label, len)` is not part of this source
file; the spec says the string bytes are copied out as the volume-name field. -/
def blkid_probe_set_label (v : Vals) (bytes : List Nat) : Vals := { v with label := some bytes }

/-- Modelled from the spec: `blkid_probe_sprintf_value(pr, "UUID_SUB", "%" PRIu64, x)` is not
part of this source file; the spec says the decimal rendering becomes the sub-identifier. -/
def blkid_probe_sprintf_value_UUID_SUB (v : Vals) (x : Nat) : Vals :=
  { v with uuid_sub := some (fmt_u64 x) }

/-- Modelled from the spec: `blkid_probe_sprintf_uuid(pr, &x, 8, "%" PRIu64, x)` is not part of
this source file; the spec says the decimal rendering becomes the pool identifier. -/
def blkid_probe_sprintf_uuid (v : Vals) (x : Nat) : Vals := { v with uuid := some (fmt_u64 x) }

/-- Modelled from the spec: `blkid_probe_sprintf_version(pr, "%" PRIu64, x)` is not part of this
source file; the spec says the version is the string-rendered integer. -/
def blkid_probe_sprintf_version (v : Vals) (x : Nat) : Vals :=
  { v with version := some (fmt_u64 x) }

/-! ## `zfs_extract_guid_name` -/

/-- The local state of the decode loop of `zfs_extract_guid_name`. -/
structure NvState where
  /-- The private copy `buff`, modified in place by the byte-order conversions. -/
  buff : Mem
  /-- The cursor `nvp`, as a byte offset into `buff`. -/
  nvp : Nat
  /-- The countdown `left`. -/
  left : Nat
  /-- The counter `found`. -/
  found : Nat
  /-- The values recorded so far. -/
  vals : Vals

/-- The state after lines 160-164, for the value `size` of `nvp->nvp_size`. -/
def nvp_next (s : NvState) (buff : Mem) (vals : Vals) (found size : Nat) : NvState :=
  { buff := buff, nvp := s.nvp + size, left := if s.left > size then s.left - size else 0,
    found := found, vals := vals }

/-- Lines 160-164: the cursor advances by `nvp->nvp_size`, read again from `buff`. -/
def nvp_advance (le : Bool) (s : NvState) (buff : Mem) (vals : Vals) (found : Nat) :
    Except Int (Option NvState) := do
  let size ← ld32 le buff s.nvp
  pure (some (nvp_next s buff vals found size))

/-- The statement `x = be32_to_cpu(x)` for a `uint32_t` field `x` at `buff + a`: the converted
value, and `buff` after the store. -/
def be32_to_cpu_inplace (le : Bool) (m : Mem) (a : Int) : Except Int (Nat × Mem) := do
  let raw ← ld32 le m a
  let v := be32_to_cpu le raw
  pure (v, st32 le m a v)

/-- The `"name"` branch (lines 114-126). -/
def nvs_branch (le : Bool) (s : NvState) (buff : Mem) (nvs : Int) (avail : Int) :
    Except Int (Option NvState) := do
  let (nvs_type, buff) ← be32_to_cpu_inplace le buff nvs
  let (nvs_strlen, buff) ← be32_to_cpu_inplace le buff (nvs + 8)
  if nvs_strlen > UINT_MAX - SIZEOF_NVSTRING then .ok none else do
  let avail := int32 (avail - ((nvs_strlen : Int) + SIZEOF_NVSTRING))
  if nvs_type = DATA_TYPE_STRING ∧ avail ≥ 0 then do
    let bytes ← ldbytes buff (nvs + 12) nvs_strlen
    nvp_advance le s buff (blkid_probe_set_label s.vals bytes) (s.found + 1)
  else
    nvp_advance le s buff s.vals (s.found + 1)

/-- The body shared by the `"guid"` and `"pool_guid"` branches (lines 129-141 and 144-158),
with the result setter as a parameter. -/
def nvu_branch (le : Bool) (s : NvState) (buff : Mem) (nvu : Int) (avail : Int)
    (setter : Vals → Nat → Vals) : Except Int (Option NvState) := do
  let raw_value ← ld64 le buff (nvu + 8)
  let (nvu_type, buff) ← be32_to_cpu_inplace le buff nvu
  let nvu_value := be64_to_cpu le raw_value
  let avail := int32 (avail - SIZEOF_NVUINT64)
  let vals := if nvu_type = DATA_TYPE_UINT64 ∧ avail ≥ 0 then setter s.vals nvu_value else s.vals
  nvp_advance le s buff vals (s.found + 1)

/-- The value of `(nvp->nvp_namelen + 3) & ~3`, computed in `uint32_t` and stored in an `int`. -/
def namesize_of (nvp_namelen : Nat) : Int :=
  int32 ((((nvp_namelen + 3) % 4294967296) &&& 4294967292 : Nat) : Int)

/-- The value of `nvp->nvp_size - nvp->nvp_namelen - sizeof(*nvp)`, stored in an `int`. -/
def avail_of (nvp_size nvp_namelen : Nat) : Int :=
  int32 ((nvp_size : Int) - nvp_namelen - SIZEOF_NVPAIR)

/-- The three key comparisons and their branches (lines 113-159), after the size checks.  The
name `nvp->nvp_name` starts `sizeof(*nvp)` = 12 bytes after `nvp`. -/
def nvpair_dispatch (le : Bool) (s : NvState) (buff : Mem) (nvp_namelen : Nat) (avail : Int) :
    Except Int (Option NvState) := do
  let namesize := namesize_of nvp_namelen
  let nvp_name : Int := s.nvp + 12
  let value : Int := nvp_name + namesize
  if ← strncmp_eq buff nvp_name (cstr "name") nvp_namelen then
    nvs_branch le s buff value avail
  else if ← strncmp_eq buff nvp_name (cstr "guid") nvp_namelen then
    nvu_branch le s buff value avail blkid_probe_sprintf_value_UUID_SUB
  else if ← strncmp_eq buff nvp_name (cstr "pool_guid") nvp_namelen then
    nvu_branch le s buff value avail blkid_probe_sprintf_uuid
  else
    nvp_advance le s buff s.vals s.found

/-- One evaluation of the loop condition and, when it holds, of the loop body (lines 96-165).
The result is `none` when the loop ends (condition false or `break`), the next state otherwise,
and an error when an access leaves `buff`. -/
def nvpair_step (le : Bool) (s : NvState) : Except Int (Option NvState) :=
  if ¬ s.left > SIZEOF_NVPAIR then .ok none else do
  let raw_size ← ld32 le s.buff s.nvp
  if raw_size = 0 then .ok none else
  if ¬ s.found < 3 then .ok none else do
  let (nvp_size, buff) ← be32_to_cpu_inplace le s.buff s.nvp
  let (nvp_namelen, buff) ← be32_to_cpu_inplace le buff (s.nvp + 8)
  let avail := avail_of nvp_size nvp_namelen
  if s.left < nvp_size ∨ avail < 0 then .ok none else
  nvpair_dispatch le s buff nvp_namelen avail

/-- The `while` loop of `zfs_extract_guid_name`, with a bound `fuel` on the number of
evaluations of the loop condition.  The result is the recorded values together with the index
of the out-of-bounds access that ended the run, if there was one. -/
def nvpair_loop (le : Bool) : Nat → NvState → Vals × Option Int
  | 0, s => (s.vals, none)
  | fuel + 1, s =>
    match nvpair_step le s with
    | .error a => (s.vals, some a)
    | .ok none => (s.vals, none)
    | .ok (some s') => nvpair_loop le fuel s'

/-! ## The device, as the probe sees it -/

/-- The outcome of `blkid_probe_get_buffer`: a pointer to the bytes, or `NULL` with the value
left in `errno`. -/
inductive BufRes where
  | ptr (p : Mem)
  | null (errno : Int)

/-- Modelled from the spec: the probe handle `blkid_probe` is not part of this source file.  It
supplies the device size `pr->size`, the bounds-checked read `blkid_probe_get_buffer(pr, off,
len)` (stateless per offset and length), and the outcome of the signature-location write
`blkid_probe_set_magic` (non-zero on failure). -/
structure Probe where
  size : Nat
  get_buffer : Nat → Nat → BufRes
  set_magic_rc : Int

/-- Line 79: `(offset & ~(VDEV_LABEL_SIZE - 1)) + VDEV_LABEL_NVPAIR`, in 64-bit arithmetic. -/
def nvlist_offset (offset : Nat) : Nat :=
  ((offset &&& (18446744073709551615 - (VDEV_LABEL_SIZE - 1))) + VDEV_LABEL_NVPAIR)
    % 18446744073709551616

/-- The initial state of the decode loop on the window `p` (lines 76-95). -/
def nv_init (p : Mem) (vals : Vals) : NvState :=
  { buff := p, nvp := OFFSETOF_NVL_NVPAIR, left := SIZEOF_BUFF, found := 0, vals := vals }

/-- The function `zfs_extract_guid_name(pr, offset)`: the values recorded after the call, the
index of an out-of-bounds access to `buff` if one happened, and the reads issued.  The loop is
run with `sizeof(buff)` as the bound on its number of steps, which is never exhausted
(`nvpair_loop_total`). -/
def zfs_extract_guid_name (le : Bool) (pr : Probe) (offset : Nat) (vals : Vals) :
    Vals × Option Int × List (Nat × Nat) :=
  let left := SIZEOF_BUFF
  let offset := nvlist_offset offset
  match pr.get_buffer offset left with
  | .null _ => (vals, none, [(offset, left)])
  | .ptr p =>
    let r := nvpair_loop le SIZEOF_BUFF (nv_init p vals)
    (r.1, r.2, [(offset, left)])

/-! ## `find_uberblocks` -/

/-- Load of a `uint64_t` at `label + a`, in host order. -/
def label64 (le : Bool) (label : Mem) (a : Nat) : Nat :=
  host64 le (fun k => label (a + k) % 256)

/-- The locals of `find_uberblocks` that outlive an iteration: the two out-parameters and the
counter. -/
structure UbScan where
  ub_offset : Nat
  swap_endian : Int
  found : Nat
deriving DecidableEq, Repr

/-- The body of the `for` loop of `find_uberblocks` for the slot at `offset` (lines 179-193). -/
def find_uberblocks_body (le : Bool) (label : Mem) (offset : Nat) (s : UbScan) : UbScan :=
  let ub_magic := label64 le label offset
  let s := if ub_magic = UBERBLOCK_MAGIC then
      { ub_offset := offset, swap_endian := 0, found := s.found + 1 } else s
  if ub_magic = swab64 UBERBLOCK_MAGIC then
      { ub_offset := offset, swap_endian := 1, found := s.found + 1 } else s

/-- The `for` loop of `find_uberblocks` with `n` slots left, the next one at `offset`. -/
def find_uberblocks_loop (le : Bool) (label : Mem) : Nat → Nat → UbScan → UbScan
  | 0, _, s => s
  | n + 1, offset, s =>
    find_uberblocks_loop le label n (offset + UBERBLOCK_SIZE) (find_uberblocks_body le label offset s)

/-- The function `find_uberblocks(label, &ub_offset, &swap_endian)`; the result carries the
return value (`found`) and the final contents of the two out-parameters. -/
def find_uberblocks (le : Bool) (label : Mem) (ub_offset : Nat) (swap_endian : Int) : UbScan :=
  find_uberblocks_loop le label UBERBLOCKS_COUNT VDEV_LABEL_UBERBLOCK
    { ub_offset := ub_offset, swap_endian := swap_endian, found := 0 }

/-! ## `probe_zfs` -/

/-- The locals of `probe_zfs` during the label loop.  The pointer `ub` is `none` while it is
uninitialised, and otherwise the label it points into together with the offset inside it. -/
structure ScanState where
  swab_endian : Int
  ub : Option (Mem × Nat)
  offset : Nat
  ub_offset : Nat
  found : Nat
  reads : List (Nat × Nat)

/-- The `switch` of lines 214-227: the device offset of label `label_no`, computed in 64-bit
unsigned arithmetic.  For any other value of `label_no` the variable keeps its value. -/
def label_offset (size : Nat) (offset : Nat) (label_no : Nat) : Nat :=
  let blk_align := size % (256 * 1024)
  match label_no with
  | 0 => 0
  | 1 => VDEV_LABEL_SIZE
  | 2 => (size + 18446744073709551616 - 2 * VDEV_LABEL_SIZE - blk_align) % 18446744073709551616
  | 3 => (size + 18446744073709551616 - VDEV_LABEL_SIZE - blk_align) % 18446744073709551616
  | _ => offset

/-- How the label loop of `probe_zfs` ends: by the `return` of line 231, or by leaving the
loop (through `break` or because `label_no` reached 4). -/
inductive ScanEnd where
  | ret (rc : Int) (reads : List (Nat × Nat))
  | out (s : ScanState)

/-- The `for` loop of `probe_zfs` (lines 213-243) with `n` iterations left, the next one for
label `label_no`. -/
def probe_scan (le : Bool) (pr : Probe) : Nat → Nat → ScanState → ScanEnd
  | 0, _, s => .out s
  | n + 1, label_no, s =>
    let offset := label_offset pr.size s.offset label_no
    let reads := s.reads ++ [(offset, VDEV_LABEL_SIZE)]
    match pr.get_buffer offset VDEV_LABEL_SIZE with
    | .null errno => .ret (if errno ≠ 0 then -errno else 1) reads
    | .ptr label =>
      let r := find_uberblocks le label s.ub_offset s.swab_endian
      if r.found > 0 then
        let found := s.found + r.found
        let s' : ScanState :=
          { swab_endian := r.swap_endian, ub := some (label, r.ub_offset), offset := offset,
            ub_offset := (r.ub_offset + offset) % 18446744073709551616, found := found,
            reads := reads }
        if found ≥ ZFS_WANT then .out s' else probe_scan le pr n (label_no + 1) s'
      else
        probe_scan le pr n (label_no + 1)
          { s with swab_endian := r.swap_endian, ub_offset := r.ub_offset, offset := offset,
                   reads := reads }

/-- The initial locals of `probe_zfs`. -/
def scan_init : ScanState :=
  { swab_endian := 0, ub := none, offset := 0, ub_offset := 0, found := 0, reads := [] }

/-- What a call of `probe_zfs` leaves behind: the return value (`none` when the run left
defined behaviour), the index of the out-of-bounds access to `buff` if there was one, the
values recorded, and the reads issued, in order. -/
structure ProbeResult where
  rc : Option Int
  fault : Option Int
  vals : Vals
  reads : List (Nat × Nat)
deriving DecidableEq, Repr

/-- Lines 250-260 of `probe_zfs`, for `ub` pointing at offset `off` of `label`. -/
def probe_tail (le : Bool) (pr : Probe) (s : ScanState) (label : Mem) (off : Nat) :
    ProbeResult :=
  let ub_version := label64 le label (off + 8)
  let vals := blkid_probe_sprintf_version {}
    (if s.swab_endian ≠ 0 then swab64 ub_version else ub_version)
  let x := zfs_extract_guid_name le pr s.offset vals
  match x.2.1 with
  | some a => { rc := none, fault := some a, vals := x.1, reads := s.reads ++ x.2.2 }
  | none =>
    if pr.set_magic_rc ≠ 0 then
      { rc := some 1, fault := none, vals := x.1, reads := s.reads ++ x.2.2 }
    else
      { rc := some 0, fault := none,
        vals := { x.1 with
          magic := some (s.ub_offset, 8, (List.range 8).map (fun k => label (off + k) % 256)) },
        reads := s.reads ++ x.2.2 }

/-- The part of `probe_zfs` after the label loop (lines 245-260).  An uninitialised `ub` leaves
defined behaviour. -/
def probe_finish (le : Bool) (pr : Probe) (s : ScanState) : ProbeResult :=
  if s.found < ZFS_WANT then { rc := some 1, fault := none, vals := {}, reads := s.reads }
  else
    match s.ub with
    | none => { rc := none, fault := none, vals := {}, reads := s.reads }
    | some (label, off) => probe_tail le pr s label off

/-- The function `probe_zfs(pr, mag)`. -/
def probe_zfs (le : Bool) (pr : Probe) : ProbeResult :=
  match probe_scan le pr 4 0 scan_init with
  | .ret rc reads => { rc := some rc, fault := none, vals := {}, reads := reads }
  | .out s => probe_finish le pr s

/-! ## Vocabulary for stating properties -/

/-- The big-endian value of the four bytes at `buff + a`. -/
def be32At (m : Mem) (a : Int) : Nat :=
  be32 (m a.toNat % 256) (m (a + 1).toNat % 256) (m (a + 2).toNat % 256) (m (a + 3).toNat % 256)

/-- The big-endian value of the eight bytes at `buff + a`. -/
def be64At (m : Mem) (a : Int) : Nat :=
  le64 (fun k => m (a + (7 - k : Nat)).toNat % 256)

/-- The `n` bytes at `buff + a`. -/
def bytesAt (m : Mem) (a : Int) : Nat → List Nat
  | 0 => []
  | n + 1 => m a.toNat % 256 :: bytesAt m (a + 1) n

/-- A view of the outcome of one loop step without the array: `none` when the loop ends or an
access leaves `buff`, otherwise cursor, countdown, counter and values of the next state. -/
def step_view (le : Bool) (s : NvState) : Option (Nat × Nat × Nat × Vals) :=
  match nvpair_step le s with
  | .ok (some s') => some (s'.nvp, s'.left, s'.found, s'.vals)
  | _ => none

/-- The three kinds of entry the decoder looks for, with the value each one carries. -/
inductive Entry where
  | name (s : List Nat)
  | guid (g : Nat)
  | pool_guid (p : Nat)
deriving DecidableEq, Repr

/-- The key of an entry. -/
def Entry.key : Entry → List Nat
  | .name _ => cstr "name"
  | .guid _ => cstr "guid"
  | .pool_guid _ => cstr "pool_guid"

/-- A length rounded up to a multiple of 4. -/
def padded (n : Nat) : Nat := (n + 3) / 4 * 4

/-- The size of the value of an entry: `struct nvstring` with its string, or
`struct nvuint64`. -/
def Entry.valueSize : Entry → Nat
  | .name s => SIZEOF_NVSTRING + s.length
  | .guid _ => SIZEOF_NVUINT64
  | .pool_guid _ => SIZEOF_NVUINT64

/-- The total size of a well-formed entry: header, padded name, value. -/
def Entry.size (e : Entry) : Nat := SIZEOF_NVPAIR + padded e.key.length + e.valueSize

/-- The value of a well-formed entry is laid out at `buff + a`: a string (type tag 9, declared
length, bytes) or an integer (type tag 8, big-endian value). -/
def ValueAt (m : Mem) (a : Int) : Entry → Prop
  | .name s => be32At m a = DATA_TYPE_STRING ∧ be32At m (a + 8) = s.length
      ∧ bytesAt m (a + 12) s.length = s
  | .guid g => be32At m a = DATA_TYPE_UINT64 ∧ be64At m (a + 8) = g
  | .pool_guid p => be32At m a = DATA_TYPE_UINT64 ∧ be64At m (a + 8) = p

/-- A well-formed entry `e` is laid out at `buff + a`: big-endian total size, big-endian name
length, the key, and after the padded key the value. -/
def EntryAt (m : Mem) (a : Int) (e : Entry) : Prop :=
  be32At m a = e.size ∧ be32At m (a + 8) = e.key.length
    ∧ bytesAt m (a + 12) e.key.length = e.key
    ∧ ValueAt m (a + 12 + padded e.key.length) e

/-- The entries `es` are laid out contiguously from `buff + a` on. -/
def Layout (m : Mem) (a : Int) : List Entry → Prop
  | [] => True
  | e :: es => EntryAt m a e ∧ Layout m (a + e.size) es

/-- The total size of a list of entries. -/
def totalSize : List Entry → Nat
  | [] => 0
  | e :: es => e.size + totalSize es

/-- The value an entry is expected to leave on the probe. -/
def Entry.record (v : Vals) : Entry → Vals
  | .name s => blkid_probe_set_label v s
  | .guid g => blkid_probe_sprintf_value_UUID_SUB v g
  | .pool_guid p => blkid_probe_sprintf_uuid v p

instance ValueAt.dec (m : Mem) (a : Int) : (e : Entry) → Decidable (ValueAt m a e)
  | .name s => inferInstanceAs (Decidable (be32At m a = DATA_TYPE_STRING
      ∧ be32At m (a + 8) = s.length ∧ bytesAt m (a + 12) s.length = s))
  | .guid g => inferInstanceAs (Decidable (be32At m a = DATA_TYPE_UINT64 ∧ be64At m (a + 8) = g))
  | .pool_guid p =>
    inferInstanceAs (Decidable (be32At m a = DATA_TYPE_UINT64 ∧ be64At m (a + 8) = p))

instance EntryAt.dec (m : Mem) (a : Int) (e : Entry) : Decidable (EntryAt m a e) :=
  inferInstanceAs (Decidable (be32At m a = e.size ∧ be32At m (a + 8) = e.key.length
    ∧ bytesAt m (a + 12) e.key.length = e.key ∧ ValueAt m (a + 12 + padded e.key.length) e))

instance Layout.dec (m : Mem) : (a : Int) → (es : List Entry) → Decidable (Layout m a es)
  | _, [] => isTrue trivial
  | a, e :: es =>
    have := Layout.dec m (a + e.size) es
    inferInstanceAs (Decidable (EntryAt m a e ∧ Layout m (a + e.size) es))

/-- The offset of marker slot `i` inside a label. -/
def slot_offset (i : Nat) : Nat := VDEV_LABEL_UBERBLOCK + UBERBLOCK_SIZE * i

/-- Slot `i` of the label holds the magic `0x00bab10c` in one of the two byte orders. -/
def is_marker (le : Bool) (label : Mem) (i : Nat) : Bool :=
  label64 le label (slot_offset i) == UBERBLOCK_MAGIC
    || label64 le label (slot_offset i) == swab64 UBERBLOCK_MAGIC

/-- The number of marker slots of a label whose magic matches. -/
def marker_count (le : Bool) (label : Mem) : Nat :=
  (List.range UBERBLOCKS_COUNT).countP (is_marker le label)

/-- The device offset of label `label_no` (0 to 3) on a device of the given size. -/
def label_off (size label_no : Nat) : Nat := label_offset size 0 label_no

/-- The cumulative number of matching marker slots in the labels before label `k`. -/
def cum_count (le : Bool) (labels : Nat → Mem) : Nat → Nat
  | 0 => 0
  | k + 1 => cum_count le labels k + marker_count le (labels k)

/-- The locals of `probe_zfs` after lines 233-239 of an iteration that read `label` at
`offset`. -/
def scan_label (le : Bool) (s : ScanState) (offset : Nat) (label : Mem) : ScanState :=
  let r := find_uberblocks le label s.ub_offset s.swab_endian
  if r.found > 0 then
    { swab_endian := r.swap_endian, ub := some (label, r.ub_offset), offset := offset,
      ub_offset := (r.ub_offset + offset) % 18446744073709551616, found := s.found + r.found,
      reads := s.reads ++ [(offset, VDEV_LABEL_SIZE)] }
  else
    { s with swab_endian := r.swap_endian, ub_offset := r.ub_offset, offset := offset,
             reads := s.reads ++ [(offset, VDEV_LABEL_SIZE)] }

/-- Modelled from the spec: the device behind the probe is not part of this source file.  A
device image of `size` bytes with contents `bytes`: a read of `len` bytes at `off` succeeds
when the range lies inside the image and fails (with `errno` 0) otherwise; the
signature-location write succeeds. -/
def image_probe (size : Nat) (bytes : Mem) : Probe :=
  { size := size,
    get_buffer := fun off len =>
      if len ≠ 0 ∧ off + len ≤ size then .ptr (fun i => bytes (off + i)) else .null 0,
    set_magic_rc := 0 }

/-- The field `nvp->nvp_size` at `buff + a` holds a non-zero value. -/
def SizeNonzero (le : Bool) (m : Mem) (a : Int) : Prop :=
  ∃ x, ld32 le m a = .ok x ∧ x ≠ 0

/-- The invariant of the loop of `find_uberblocks` before slot `i`, for the initial contents
`o` and `e` of the two out-parameters. -/
def UbInv (le : Bool) (label : Mem) (o : Nat) (e : Int) (i : Nat) (s : UbScan) : Prop :=
  s.found = (List.range i).countP (is_marker le label)
    ∧ (s.found = 0 → s.ub_offset = o ∧ s.swap_endian = e)
    ∧ (0 < s.found → ∃ j, j < i ∧ is_marker le label j = true
        ∧ (∀ k, j < k → k < i → is_marker le label k = false)
        ∧ s.ub_offset = slot_offset j
        ∧ s.swap_endian = if label64 le label (slot_offset j) = swab64 UBERBLOCK_MAGIC then 1 else 0)

/-- The invariant of the label loop of `probe_zfs`: once a marker was found, `ub` points at a
matching slot of some label and `swab_endian` tells the byte order of that slot. -/
def ScanInv (le : Bool) (s : ScanState) : Prop :=
  0 < s.found → ∃ (label : Mem) (j : Nat), j < UBERBLOCKS_COUNT
    ∧ s.ub = some (label, slot_offset j) ∧ is_marker le label j = true
    ∧ s.swab_endian = if label64 le label (slot_offset j) = swab64 UBERBLOCK_MAGIC then 1 else 0

/-- The state after `n` iterations of the decode loop that all continue; `none` when the loop
ends, or an access leaves `buff`, before that. -/
def nvpair_steps (le : Bool) : Nat → NvState → Option NvState
  | 0, s => some s
  | n + 1, s =>
    match nvpair_step le s with
    | .ok (some s') => nvpair_steps le n s'
    | _ => none

/-- The loop condition of line 96 holds in state `s`, with its load inside `buff`: the loop
body is executed. -/
def enters_body (le : Bool) (s : NvState) : Bool :=
  decide (s.left > SIZEOF_NVPAIR) &&
    (match ld32 le s.buff s.nvp with
     | .ok raw_size => decide (raw_size ≠ 0) && decide (s.found < 3)
     | .error _ => false)

/-- The number of executions of the loop body in the run of the decode loop from `s`, with the
bound `fuel` on the number of evaluations of the loop condition. -/
def body_runs (le : Bool) : Nat → NvState → Nat
  | 0, _ => 0
  | fuel + 1, s =>
    if enters_body le s then
      match nvpair_step le s with
      | .ok (some s') => 1 + body_runs le fuel s'
      | _ => 1
    else 0

/-- The name of the entry at the cursor compares equal to the literal `lit` under `strncmp`
limited to the name length of the entry. -/
def key_matches (s : NvState) (lit : List Nat) : Prop :=
  strncmp_eq s.buff (s.nvp + 12) lit (be32At s.buff (s.nvp + 8)) = .ok true

/-- One of the three key comparisons of the decoder succeeds on the entry at the cursor. -/
def known_key (s : NvState) : Prop :=
  key_matches s (cstr "name") ∨ key_matches s (cstr "guid") ∨ key_matches s (cstr "pool_guid")

/-- A string entry keyed "name" with declared total size `z` and string `str` is laid out at
`buff + a`: big-endian total size, name length 4, the key, type tag 9, declared string length
and the bytes of the string. -/
def NameEntryAt (m : Mem) (a : Int) (z : Nat) (str : List Nat) : Prop :=
  be32At m a = z ∧ be32At m (a + 8) = 4 ∧ bytesAt m (a + 12) 4 = cstr "name"
    ∧ be32At m (a + 16) = DATA_TYPE_STRING ∧ be32At m (a + 24) = str.length
    ∧ bytesAt m (a + 28) str.length = str

instance NameEntryAt.dec (m : Mem) (a : Int) (z : Nat) (str : List Nat) :
    Decidable (NameEntryAt m a z str) :=
  inferInstanceAs (Decidable (be32At m a = z ∧ be32At m (a + 8) = 4
    ∧ bytesAt m (a + 12) 4 = cstr "name" ∧ be32At m (a + 16) = DATA_TYPE_STRING
    ∧ be32At m (a + 24) = str.length ∧ bytesAt m (a + 28) str.length = str))

/-! ## Concrete inputs -/

/-- A probe whose every read returns the bytes of the list `l` (zero beyond its end). -/
def window_probe (l : List Nat) : Probe :=
  { size := 0, get_buffer := fun _ _ => .ptr (fun i => l.getD i 0), set_magic_rc := 0 }

/-- A window with the entries `guid` = 123456789, `pool_guid` = 987654321 and `name` = "tank",
in this order, starting at byte 12. -/
def window_three : List Nat :=
  [0, 0, 0, 0, 0, 0, 0, 0, 0, 0, 0, 0,
   0, 0, 0, 32, 0, 0, 0, 0, 0, 0, 0, 4, 103, 117, 105, 100,
   0, 0, 0, 8, 0, 0, 0, 1, 0, 0, 0, 0, 7, 91, 205, 21,
   0, 0, 0, 40, 0, 0, 0, 0, 0, 0, 0, 9, 112, 111, 111, 108, 95, 103, 117, 105, 100, 0, 0, 0,
   0, 0, 0, 8, 0, 0, 0, 1, 0, 0, 0, 0, 58, 222, 104, 177,
   0, 0, 0, 32, 0, 0, 0, 0, 0, 0, 0, 4, 110, 97, 109, 101,
   0, 0, 0, 9, 0, 0, 0, 1, 0, 0, 0, 4, 116, 97, 110, 107]

/-- Byte `r` of a marker slot as a little-endian host writes it: magic `0x00bab10c` in native
order, version 5000, all other bytes zero. -/
def marker_byte (r : Nat) : Nat :=
  if r = 0 then 12 else if r = 1 then 177 else if r = 2 then 186
  else if r = 8 then 136 else if r = 9 then 19 else 0

/-- Byte `r` of a marker slot in the byte order opposite to a little-endian host: magic
`0x00bab10c` and version 5000 stored big-endian. -/
def swapped_marker_byte (r : Nat) : Nat :=
  if r = 5 then 186 else if r = 6 then 177 else if r = 7 then 12
  else if r = 14 then 19 else if r = 15 then 136 else 0

/-- A 64 MiB image with exactly three markers: slots 0 and 1 of label 0 and slot 0 of
label 3. -/
def image_three_markers : Mem := fun i =>
  if 131072 ≤ i ∧ i < 131072 + 2048 then marker_byte ((i - 131072) % 1024)
  else if 66977792 ≤ i ∧ i < 66977792 + 1024 then marker_byte (i - 66977792)
  else 0

/-- A probe whose every read fails and leaves the given value in `errno`. -/
def failing_probe (errno : Int) : Probe :=
  { size := 67108864, get_buffer := fun _ _ => .null errno, set_magic_rc := 0 }

/-- A probe whose reads of labels 0 and 1 return zero bytes and whose other reads fail with
`errno` 5. -/
def probe_fail_at_two : Probe :=
  { size := 67108864,
    get_buffer := fun off _ => if off < 524288 then .ptr (fun _ => 0) else .null 5,
    set_magic_rc := 0 }

/-- A 64 MiB image with four markers in the byte order opposite to a little-endian host, in
slots 0 to 3 of label 0, each with version 5000. -/
def image_swapped : Mem := fun i =>
  if 131072 ≤ i ∧ i < 131072 + 4096 then swapped_marker_byte ((i - 131072) % 1024) else 0

/-- A window whose first entry has total size 4083, name length 1 and name "x"; every other
byte is zero. -/
def window_tail : List Nat :=
  [0, 0, 0, 0, 0, 0, 0, 0, 0, 0, 0, 0,
   0, 0, 15, 243, 0, 0, 0, 0, 0, 0, 0, 1, 120]

/-- A window whose first entry has total size 32, name length `0xfffffff8` and name "guid";
the field before the name holds 8. -/
def window_namelen_wrap : List Nat :=
  [0, 0, 0, 0, 0, 0, 0, 0, 0, 0, 0, 0,
   0, 0, 0, 32, 0, 0, 0, 8, 255, 255, 255, 248, 103, 117, 105, 100, 0, 0, 0, 0]

/-- A window whose first entry is keyed "pool_guid" with an integer value 77 and declares the
total size 37. -/
def window_short_size : List Nat :=
  [0, 0, 0, 0, 0, 0, 0, 0, 0, 0, 0, 0,
   0, 0, 0, 37, 0, 0, 0, 0, 0, 0, 0, 9, 112, 111, 111, 108, 95, 103, 117, 105, 100, 0, 0, 0,
   0, 0, 0, 8, 0, 0, 0, 1, 0, 0, 0, 0, 0, 0, 0, 77]

/-- A window whose first entry (name "x") has total size 4076, so that the next entry starts
at index 4088; its size field, at 4088..4091, holds 32, and the rest of its header lies past
the end of the window. -/
def window_cut_header : List Nat :=
  [0, 0, 0, 0, 0, 0, 0, 0, 0, 0, 0, 0,
   0, 0, 15, 236, 0, 0, 0, 0, 0, 0, 0, 1, 120] ++ List.replicate 4063 0 ++ [0, 0, 0, 32]

/-- A window whose first entry (name "x") has total size 4080, so that the next entry starts
at index 4092; its size field, the last four bytes of the window, holds 4096. -/
def window_oversize_at_end : List Nat :=
  [0, 0, 0, 0, 0, 0, 0, 0, 0, 0, 0, 0,
   0, 0, 15, 240, 0, 0, 0, 0, 0, 0, 0, 1, 120] ++ List.replicate 4067 0 ++ [0, 0, 16, 0]

/-- A window whose first entry has total size 32, name length 1 and name "g", followed by an
integer value 5. -/
def window_prefix_key : List Nat :=
  [0, 0, 0, 0, 0, 0, 0, 0, 0, 0, 0, 0,
   0, 0, 0, 32, 0, 0, 0, 0, 0, 0, 0, 1, 103, 0, 0, 0,
   0, 0, 0, 8, 0, 0, 0, 1, 0, 0, 0, 0, 0, 0, 0, 5]

/-- A window whose first entry has total size 32, name length 3 and name "foo". -/
def window_foo : List Nat :=
  [0, 0, 0, 0, 0, 0, 0, 0, 0, 0, 0, 0,
   0, 0, 0, 32, 0, 0, 0, 0, 0, 0, 0, 3, 102, 111, 111, 0,
   0, 0, 0, 8, 0, 0, 0, 1, 0, 0, 0, 0, 0, 0, 0, 5]

/-- The memory holding the bytes of a list, zero beyond its end. -/
def mem_of (l : List Nat) : Mem := fun i => l.getD i 0

/-- A 64 MiB image with four native-order markers of version 5000 in slots 0 to 3 of label 0
(as a little-endian host writes them) and the window `window_cut_header` at offset 16 KiB. -/
def image_cut_header : Mem := fun i =>
  if 16384 ≤ i ∧ i < 16384 + 4096 then window_cut_header.getD (i - 16384) 0
  else if 131072 ≤ i ∧ i < 131072 + 4096 then marker_byte ((i - 131072) % 1024)
  else 0

/-- The entries `name` = "tank", `guid` = 123456789, `pool_guid` = 987654321. -/
def tank_entries : List Entry :=
  [.name (cstr "tank"), .guid 123456789, .pool_guid 987654321]

/-- A window holding `tank_entries` from byte 12 on. -/
def window_tank : List Nat :=
  [0, 0, 0, 0, 0, 0, 0, 0, 0, 0, 0, 0,
   0, 0, 0, 32, 0, 0, 0, 0, 0, 0, 0, 4, 110, 97, 109, 101,
   0, 0, 0, 9, 0, 0, 0, 1, 0, 0, 0, 4, 116, 97, 110, 107,
   0, 0, 0, 32, 0, 0, 0, 0, 0, 0, 0, 4, 103, 117, 105, 100,
   0, 0, 0, 8, 0, 0, 0, 1, 0, 0, 0, 0, 7, 91, 205, 21,
   0, 0, 0, 40, 0, 0, 0, 0, 0, 0, 0, 9, 112, 111, 111, 108, 95, 103, 117, 105, 100, 0, 0, 0,
   0, 0, 0, 8, 0, 0, 0, 1, 0, 0, 0, 0, 58, 222, 104, 177]

/-- A 64 MiB image with one native-order marker of version 5000 (as a little-endian host
writes it) in slot 0 of each 256 KiB block, and `window_tank` at device offset `dict`. -/
def image_one_marker_each (dict : Nat) : Mem := fun i =>
  if dict ≤ i ∧ i < dict + 4096 then window_tank.getD (i - dict) 0
  else if 131072 ≤ i % 262144 ∧ i % 262144 < 131072 + 1024 then marker_byte (i % 262144 - 131072)
  else 0

/-- The four labels of a device image. -/
def image_labels (size : Nat) (bytes : Mem) (k : Nat) : Mem := fun i => bytes (label_off size k + i)

/-- A window whose first entry is keyed "foo" with total size 32 and sixteen value bytes 255,
followed at byte 44 by a string entry keyed "name" with the string "zroot", padded to a
total size of 36. -/
def window_foo_name : List Nat :=
  [0, 0, 0, 0, 0, 0, 0, 0, 0, 0, 0, 0,
   0, 0, 0, 32, 0, 0, 0, 0, 0, 0, 0, 3, 102, 111, 111, 0,
   255, 255, 255, 255, 255, 255, 255, 255, 255, 255, 255, 255, 255, 255, 255, 255,
   0, 0, 0, 36, 0, 0, 0, 0, 0, 0, 0, 4, 110, 97, 109, 101,
   0, 0, 0, 9, 0, 0, 0, 1, 0, 0, 0, 5, 122, 114, 111, 111, 116, 0, 0, 0]

/-- A window with three string entries keyed "name" ("a", "b", "c") followed by an integer
entry keyed "guid" with value 5. -/
def window_three_names : List Nat :=
  [0, 0, 0, 0, 0, 0, 0, 0, 0, 0, 0, 0,
   0, 0, 0, 29, 0, 0, 0, 0, 0, 0, 0, 4, 110, 97, 109, 101,
   0, 0, 0, 9, 0, 0, 0, 1, 0, 0, 0, 1, 97,
   0, 0, 0, 29, 0, 0, 0, 0, 0, 0, 0, 4, 110, 97, 109, 101,
   0, 0, 0, 9, 0, 0, 0, 1, 0, 0, 0, 1, 98,
   0, 0, 0, 29, 0, 0, 0, 0, 0, 0, 0, 4, 110, 97, 109, 101,
   0, 0, 0, 9, 0, 0, 0, 1, 0, 0, 0, 1, 99,
   0, 0, 0, 32, 0, 0, 0, 0, 0, 0, 0, 4, 103, 117, 105, 100,
   0, 0, 0, 8, 0, 0, 0, 1, 0, 0, 0, 0, 0, 0, 0, 5]

/-- A window with three entries keyed "guid" that carry the type tag 9 of a string, followed
by an integer entry keyed "guid" (type tag 8) with value 5. -/
def window_wrong_tags : List Nat :=
  [0, 0, 0, 0, 0, 0, 0, 0, 0, 0, 0, 0,
   0, 0, 0, 32, 0, 0, 0, 0, 0, 0, 0, 4, 103, 117, 105, 100,
   0, 0, 0, 9, 0, 0, 0, 1, 0, 0, 0, 0, 0, 0, 0, 7,
   0, 0, 0, 32, 0, 0, 0, 0, 0, 0, 0, 4, 103, 117, 105, 100,
   0, 0, 0, 9, 0, 0, 0, 1, 0, 0, 0, 0, 0, 0, 0, 7,
   0, 0, 0, 32, 0, 0, 0, 0, 0, 0, 0, 4, 103, 117, 105, 100,
   0, 0, 0, 9, 0, 0, 0, 1, 0, 0, 0, 0, 0, 0, 0, 7,
   0, 0, 0, 32, 0, 0, 0, 0, 0, 0, 0, 4, 103, 117, 105, 100,
   0, 0, 0, 8, 0, 0, 0, 1, 0, 0, 0, 0, 0, 0, 0, 5]

/-! ## Lemmas on memory access -/

theorem ld8_ok (m : Mem) (a : Int) (h0 : 0 ≤ a) (h1 : a < 4096) :
    ld8 m a = .ok (m a.toNat % 256) := by
  simp [ld8, h0, h1]

theorem ld8_err (m : Mem) (a : Int) (h : a < 0 ∨ 4096 ≤ a) : ld8 m a = .error a := by
  unfold ld8
  rw [if_neg]
  omega

theorem ld32_ok (le : Bool) (m : Mem) (a : Int) (h0 : 0 ≤ a) (h1 : a + 4 ≤ 4096) :
    ld32 le m a = .ok (host32 le (m a.toNat % 256) (m (a + 1).toNat % 256)
      (m (a + 2).toNat % 256) (m (a + 3).toNat % 256)) := by
  unfold ld32
  rw [ld8_ok m a h0 (by omega), ld8_ok m (a + 1) (by omega) (by omega),
    ld8_ok m (a + 2) (by omega) (by omega), ld8_ok m (a + 3) (by omega) (by omega)]
  rfl

theorem be32_to_cpu_host32 (le : Bool) (b0 b1 b2 b3 : Nat) (h0 : b0 < 256) (h1 : b1 < 256)
    (h2 : b2 < 256) (h3 : b3 < 256) :
    be32_to_cpu le (host32 le b0 b1 b2 b3) = be32 b0 b1 b2 b3 := by
  cases le
  · simp [be32_to_cpu, host32]
  · simp only [be32_to_cpu, host32, swab32, be32, le32, byteOf, if_true]
    norm_num
    omega

theorem be32At_lt (m : Mem) (a : Int) : be32At m a < 4294967296 := by
  simp only [be32At, be32, le32]
  omega

theorem be32_to_cpu_inplace_ok (le : Bool) (m : Mem) (a : Int) (h0 : 0 ≤ a) (h1 : a + 4 ≤ 4096) :
    be32_to_cpu_inplace le m a = .ok (be32At m a, st32 le m a (be32At m a)) := by
  unfold be32_to_cpu_inplace
  rw [ld32_ok le m a h0 h1]
  have h := be32_to_cpu_host32 le (m a.toNat % 256) (m (a + 1).toNat % 256)
      (m (a + 2).toNat % 256) (m (a + 3).toNat % 256) (Nat.mod_lt _ (by norm_num))
      (Nat.mod_lt _ (by norm_num)) (Nat.mod_lt _ (by norm_num)) (Nat.mod_lt _ (by norm_num))
  simp only [bind, Except.bind, pure, Except.pure, h, be32At]

theorem st32_frame (le : Bool) (m : Mem) (a : Int) (v i : Nat) (h : (i : Int) < a ∨ a + 4 ≤ i) :
    st32 le m a v i = m i := by
  unfold st32
  rw [if_neg]
  omega

theorem st32_at (le : Bool) (m : Mem) (a : Int) (v k : Nat) (h0 : 0 ≤ a) (hk : k < 4) :
    st32 le m a v (a.toNat + k) = if le then byteOf v k else byteOf v (3 - k) := by
  unfold st32
  have hc : a ≤ ((a.toNat + k : Nat) : Int) ∧ ((a.toNat + k : Nat) : Int) < a + 4 := by omega
  have hs : a.toNat + k - a.toNat = k := by omega
  rw [if_pos hc, hs]

theorem host32_byteOf (le : Bool) (v : Nat) (hv : v < 4294967296) :
    host32 le ((if le then byteOf v 0 else byteOf v 3) % 256)
      ((if le then byteOf v 1 else byteOf v 2) % 256)
      ((if le then byteOf v 2 else byteOf v 1) % 256)
      ((if le then byteOf v 3 else byteOf v 0) % 256) = v := by
  cases le
  · simp only [host32, be32, le32, byteOf, Bool.false_eq_true, if_false]
    norm_num
    omega
  · simp only [host32, be32, le32, byteOf, if_true]
    norm_num
    omega

/-- A host-order load sees the value a host-order store put there. -/
theorem ld32_st32_same (le : Bool) (m : Mem) (a : Int) (v : Nat) (h0 : 0 ≤ a)
    (h1 : a + 4 ≤ 4096) (hv : v < 4294967296) : ld32 le (st32 le m a v) a = .ok v := by
  rw [ld32_ok le _ a h0 h1]
  have e1 : ((a + 1).toNat) = a.toNat + 1 := by omega
  have e2 : ((a + 2).toNat) = a.toNat + 2 := by omega
  have e3 : ((a + 3).toNat) = a.toNat + 3 := by omega
  have s0 := st32_at le m a v 0 h0 (by norm_num)
  have s1 := st32_at le m a v 1 h0 (by norm_num)
  have s2 := st32_at le m a v 2 h0 (by norm_num)
  have s3 := st32_at le m a v 3 h0 (by norm_num)
  rw [Nat.add_zero] at s0
  rw [e1, e2, e3, s0, s1, s2, s3]
  exact congrArg Except.ok (host32_byteOf le v hv)


theorem ld8_congr (m m' : Mem) (a : Int) (h : ∀ i : Nat, (i : Int) = a → m i = m' i) :
    ld8 m a = ld8 m' a := by
  unfold ld8
  split
  · rename_i hc
    rw [h a.toNat (by omega)]
  · rfl

theorem ld32_congr (le : Bool) (m m' : Mem) (a : Int)
    (h : ∀ i : Nat, a ≤ i → (i : Int) < a + 4 → m i = m' i) : ld32 le m a = ld32 le m' a := by
  unfold ld32
  rw [ld8_congr m m' a (fun i hi => h i (by omega) (by omega)),
    ld8_congr m m' (a + 1) (fun i hi => h i (by omega) (by omega)),
    ld8_congr m m' (a + 2) (fun i hi => h i (by omega) (by omega)),
    ld8_congr m m' (a + 3) (fun i hi => h i (by omega) (by omega))]

theorem strncmp_eq_congr (m m' : Mem) (lit : List Nat) :
    ∀ (n : Nat) (a : Int), (∀ i : Nat, a ≤ i → m i = m' i) →
      strncmp_eq m a lit n = strncmp_eq m' a lit n := by
  induction lit with
  | nil =>
    intro n a h
    cases n with
    | zero => simp [strncmp_eq]
    | succ n =>
      simp only [strncmp_eq]
      rw [ld8_congr m m' a (fun i hi => h i (by omega))]
  | cons c cs ih =>
    intro n a h
    cases n with
    | zero => simp [strncmp_eq]
    | succ n =>
      simp only [strncmp_eq]
      rw [ld8_congr m m' a (fun i hi => h i (by omega)),
        ih n (a + 1) (fun i hi => h i (by omega))]

theorem host32_eq_zero (le : Bool) (b0 b1 b2 b3 : Nat) :
    host32 le b0 b1 b2 b3 = 0 ↔ be32 b0 b1 b2 b3 = 0 := by
  cases le
  · simp only [host32, be32, le32, Bool.false_eq_true, if_false]
  · simp only [host32, be32, le32, if_true]
    omega

theorem bind_ok {α β : Type} (a : α) (f : α → Except Int β) : (Except.ok a >>= f) = f a := rfl

theorem bind_error {α β : Type} (e : Int) (f : α → Except Int β) :
    (Except.error e >>= f) = Except.error e := rfl

theorem nvp_advance_ok (le : Bool) (s : NvState) (buff : Mem) (vals : Vals) (found size : Nat)
    (h : ld32 le buff s.nvp = .ok size) :
    nvp_advance le s buff vals found = .ok (some (nvp_next s buff vals found size)) := by
  unfold nvp_advance
  rw [h]
  rfl

/-- The loop condition and the two header conversions, when the header lies inside `buff`. -/
theorem nvpair_step_header (le : Bool) (s : NvState) (hleft : s.left > 12)
    (hin : (s.nvp : Int) + 12 ≤ 4096) (hsize : be32At s.buff s.nvp ≠ 0) (hfound : s.found < 3)
    (hfit : be32At s.buff s.nvp ≤ s.left)
    (havail : 0 ≤ avail_of (be32At s.buff s.nvp) (be32At s.buff (s.nvp + 8))) :
    nvpair_step le s = nvpair_dispatch le s
      (st32 le (st32 le s.buff s.nvp (be32At s.buff s.nvp)) (s.nvp + 8)
        (be32At s.buff (s.nvp + 8)))
      (be32At s.buff (s.nvp + 8))
      (avail_of (be32At s.buff s.nvp) (be32At s.buff (s.nvp + 8))) := by
  have hn0 : (0 : Int) ≤ s.nvp := Int.natCast_nonneg _
  have hraw : host32 le (s.buff (s.nvp : Int).toNat % 256) (s.buff ((s.nvp : Int) + 1).toNat % 256)
      (s.buff ((s.nvp : Int) + 2).toNat % 256) (s.buff ((s.nvp : Int) + 3).toNat % 256) ≠ 0 := by
    rw [Ne, host32_eq_zero]
    exact hsize
  have hframe : be32At (st32 le s.buff s.nvp (be32At s.buff s.nvp)) (s.nvp + 8)
      = be32At s.buff (s.nvp + 8) := by
    unfold be32At
    rw [st32_frame, st32_frame, st32_frame, st32_frame] <;> omega
  have hfit' : ¬ (s.left < be32At s.buff s.nvp ∨
      avail_of (be32At s.buff s.nvp) (be32At s.buff (s.nvp + 8)) < 0) := by omega
  unfold nvpair_step
  simp only [SIZEOF_NVPAIR]
  rw [if_neg (by omega), ld32_ok le s.buff s.nvp hn0 (by omega), bind_ok, if_neg hraw,
    if_neg (by omega), be32_to_cpu_inplace_ok le s.buff s.nvp hn0 (by omega), bind_ok]
  simp only []
  rw [be32_to_cpu_inplace_ok le _ (s.nvp + 8) (by omega) (by omega), bind_ok]
  simp only [hframe]
  rw [if_neg hfit']

theorem ld32_st32_frame (le : Bool) (m : Mem) (x a : Int) (v : Nat) (h : a + 4 ≤ x ∨ x + 4 ≤ a) :
    ld32 le (st32 le m x v) a = ld32 le m a :=
  ld32_congr le _ _ a (fun i h1 h2 => st32_frame le m x v i (by omega))

theorem strncmp_eq_st32_frame (le : Bool) (m : Mem) (x a : Int) (v : Nat) (lit : List Nat)
    (n : Nat) (h : x + 4 ≤ a) : strncmp_eq (st32 le m x v) a lit n = strncmp_eq m a lit n :=
  strncmp_eq_congr _ _ lit n a (fun i h1 => st32_frame le m x v i (by omega))

/-- The size field read again after the two header conversions. -/
theorem ld32_header_size (le : Bool) (m : Mem) (a : Int) (n : Nat) (h0 : 0 ≤ a)
    (h1 : a + 4 ≤ 4096) :
    ld32 le (st32 le (st32 le m a (be32At m a)) (a + 8) n) a = .ok (be32At m a) := by
  rw [ld32_st32_frame le _ (a + 8) a n (by omega)]
  exact ld32_st32_same le m a _ h0 h1 (be32At_lt m a)

theorem unknown_key_step (le : Bool) (s : NvState) (hleft : s.left > 12)
    (hin : (s.nvp : Int) + 12 ≤ 4096) (hsize : be32At s.buff s.nvp ≠ 0) (hfound : s.found < 3)
    (hfit : be32At s.buff s.nvp ≤ s.left)
    (havail : 0 ≤ avail_of (be32At s.buff s.nvp) (be32At s.buff (s.nvp + 8)))
    (h1 : strncmp_eq s.buff (s.nvp + 12) (cstr "name") (be32At s.buff (s.nvp + 8)) = .ok false)
    (h2 : strncmp_eq s.buff (s.nvp + 12) (cstr "guid") (be32At s.buff (s.nvp + 8)) = .ok false)
    (h3 : strncmp_eq s.buff (s.nvp + 12) (cstr "pool_guid") (be32At s.buff (s.nvp + 8))
      = .ok false) :
    nvpair_step le s = .ok (some (nvp_next s
      (st32 le (st32 le s.buff s.nvp (be32At s.buff s.nvp)) (s.nvp + 8)
        (be32At s.buff (s.nvp + 8))) s.vals s.found (be32At s.buff s.nvp))) := by
  rw [nvpair_step_header le s hleft hin hsize hfound hfit havail]
  unfold nvpair_dispatch
  simp only []
  rw [strncmp_eq_st32_frame le _ _ _ _ _ _ (by omega),
    strncmp_eq_st32_frame le _ _ _ _ _ _ (by omega), h1, bind_ok]
  simp only [Bool.false_eq_true, if_false]
  rw [strncmp_eq_st32_frame le _ _ _ _ _ _ (by omega),
    strncmp_eq_st32_frame le _ _ _ _ _ _ (by omega), h2, bind_ok]
  simp only [Bool.false_eq_true, if_false]
  rw [strncmp_eq_st32_frame le _ _ _ _ _ _ (by omega),
    strncmp_eq_st32_frame le _ _ _ _ _ _ (by omega), h3, bind_ok]
  simp only [Bool.false_eq_true, if_false]
  exact nvp_advance_ok le s _ _ _ _
    (ld32_header_size le s.buff s.nvp _ (Int.natCast_nonneg _) (by omega))

theorem int32_of_range (z : Int) (h0 : -2147483648 ≤ z) (h1 : z < 2147483648) : int32 z = z := by
  unfold int32
  omega

theorem byteOf_zero_horner (b r : Nat) (h : b < 256) : byteOf (b + 256 * r) 0 = b := by
  simp only [byteOf, pow_zero, Nat.div_one]
  omega

theorem byteOf_succ_horner (b r k : Nat) (h : b < 256) :
    byteOf (b + 256 * r) (k + 1) = byteOf r k := by
  unfold byteOf
  rw [pow_succ', ← Nat.div_div_eq_div_mul]
  have : (b + 256 * r) / 256 = r := by omega
  rw [this]

theorem le64_horner (b : Nat → Nat) :
    le64 b = b 0 + 256 * (b 1 + 256 * (b 2 + 256 * (b 3 + 256 * (b 4 + 256 * (b 5
      + 256 * (b 6 + 256 * (b 7 + 256 * 0))))))) := by
  unfold le64
  ring

theorem le64_byteOf (b0 b1 b2 b3 b4 b5 b6 b7 : Nat) (h0 : b0 < 256) (h1 : b1 < 256)
    (h2 : b2 < 256) (h3 : b3 < 256) (h4 : b4 < 256) (h5 : b5 < 256) (h6 : b6 < 256)
    (h7 : b7 < 256) :
    swab64 (le64 (fun k => [b0, b1, b2, b3, b4, b5, b6, b7].getD k 0))
      = le64 (fun k => [b7, b6, b5, b4, b3, b2, b1, b0].getD k 0) := by
  unfold swab64
  rw [le64_horner (fun k => [b0, b1, b2, b3, b4, b5, b6, b7].getD k 0)]
  simp only [List.getD_cons_zero, List.getD_cons_succ]
  unfold le64
  simp only [List.getD_cons_zero, List.getD_cons_succ, Nat.sub_zero, Nat.reduceSub]
  rw [show (7 : Nat) = 6 + 1 from rfl, show (6 : Nat) = 5 + 1 from rfl,
    show (5 : Nat) = 4 + 1 from rfl, show (4 : Nat) = 3 + 1 from rfl,
    show (3 : Nat) = 2 + 1 from rfl, show (2 : Nat) = 1 + 1 from rfl,
    show (1 : Nat) = 0 + 1 from rfl]
  simp only [byteOf_succ_horner, byteOf_zero_horner, h0, h1, h2, h3, h4, h5, h6, h7]

theorem ld64_ok (le : Bool) (m : Mem) (a : Int) (h0 : 0 ≤ a) (h1 : a + 8 ≤ 4096) :
    ∃ raw, ld64 le m a = .ok raw ∧ be64_to_cpu le raw = be64At m a := by
  unfold ld64
  rw [ld8_ok m a h0 (by omega), ld8_ok m (a + 1) (by omega) (by omega),
    ld8_ok m (a + 2) (by omega) (by omega), ld8_ok m (a + 3) (by omega) (by omega),
    ld8_ok m (a + 4) (by omega) (by omega), ld8_ok m (a + 5) (by omega) (by omega),
    ld8_ok m (a + 6) (by omega) (by omega), ld8_ok m (a + 7) (by omega) (by omega)]
  refine ⟨_, rfl, ?_⟩
  have hb : ∀ x : Nat, x % 256 < 256 := fun x => Nat.mod_lt _ (by norm_num)
  cases le
  · simp only [be64_to_cpu, host64, Bool.false_eq_true, if_false, be64At, le64]
    norm_num
  · simp only [be64_to_cpu, host64, if_true]
    rw [le64_byteOf _ _ _ _ _ _ _ _ (hb _) (hb _) (hb _) (hb _) (hb _) (hb _) (hb _) (hb _)]
    simp only [be64At, le64]
    norm_num

theorem be32At_congr (m m' : Mem) (a : Int) (h0 : 0 ≤ a)
    (h : ∀ i : Nat, a ≤ i → (i : Int) < a + 4 → m i = m' i) : be32At m a = be32At m' a := by
  unfold be32At
  rw [h a.toNat (by omega) (by omega), h (a + 1).toNat (by omega) (by omega),
    h (a + 2).toNat (by omega) (by omega), h (a + 3).toNat (by omega) (by omega)]

theorem be32At_st32_frame (le : Bool) (m : Mem) (x a : Int) (v : Nat) (h0 : 0 ≤ a)
    (h : a + 4 ≤ x ∨ x + 4 ≤ a) : be32At (st32 le m x v) a = be32At m a :=
  be32At_congr _ _ a h0 (fun i h1 h2 => st32_frame le m x v i (by omega))

theorem ld64_congr (le : Bool) (m m' : Mem) (a : Int)
    (h : ∀ i : Nat, a ≤ i → (i : Int) < a + 8 → m i = m' i) : ld64 le m a = ld64 le m' a := by
  unfold ld64
  rw [ld8_congr m m' a (fun i hi => h i (by omega) (by omega)),
    ld8_congr m m' (a + 1) (fun i hi => h i (by omega) (by omega)),
    ld8_congr m m' (a + 2) (fun i hi => h i (by omega) (by omega)),
    ld8_congr m m' (a + 3) (fun i hi => h i (by omega) (by omega)),
    ld8_congr m m' (a + 4) (fun i hi => h i (by omega) (by omega)),
    ld8_congr m m' (a + 5) (fun i hi => h i (by omega) (by omega)),
    ld8_congr m m' (a + 6) (fun i hi => h i (by omega) (by omega)),
    ld8_congr m m' (a + 7) (fun i hi => h i (by omega) (by omega))]

theorem ld64_st32_frame (le : Bool) (m : Mem) (x a : Int) (v : Nat)
    (h : a + 8 ≤ x ∨ x + 4 ≤ a) : ld64 le (st32 le m x v) a = ld64 le m a :=
  ld64_congr le _ _ a (fun i h1 h2 => st32_frame le m x v i (by omega))

theorem ldbytes_ok (m : Mem) : ∀ (n : Nat) (a : Int), 0 ≤ a → a + n ≤ 4096 →
    ldbytes m a n = .ok (bytesAt m a n) := by
  intro n
  induction n with
  | zero => intro a _ _; rfl
  | succ n ih =>
    intro a h0 h1
    simp only [ldbytes, bytesAt]
    rw [ld8_ok m a h0 (by omega), bind_ok, ih (a + 1) (by omega) (by omega), bind_ok]
    rfl

theorem bytesAt_congr (m m' : Mem) : ∀ (n : Nat) (a : Int), 0 ≤ a →
    (∀ i : Nat, a ≤ i → (i : Int) < a + n → m i = m' i) → bytesAt m a n = bytesAt m' a n := by
  intro n
  induction n with
  | zero => intro a _ _; rfl
  | succ n ih =>
    intro a h0 h
    simp only [bytesAt]
    rw [h a.toNat (by omega) (by omega), ih (a + 1) (by omega) (fun i h1 h2 => h i (by omega)
      (by omega))]

theorem bytesAt_st32_frame (le : Bool) (m : Mem) (x a : Int) (v n : Nat) (h0 : 0 ≤ a)
    (h : a + n ≤ x ∨ x + 4 ≤ a) : bytesAt (st32 le m x v) a n = bytesAt m a n :=
  bytesAt_congr _ _ n a h0 (fun i h1 h2 => st32_frame le m x v i (by omega))

/-- The comparison succeeds when the first `n` bytes are the first `n` bytes of the literal. -/
theorem strncmp_eq_true (m : Mem) (lit : List Nat) : ∀ (n : Nat) (a : Int), 0 ≤ a →
    a + n ≤ 4096 → n ≤ lit.length → bytesAt m a n = lit.take n →
    strncmp_eq m a lit n = .ok true := by
  induction lit with
  | nil =>
    intro n a _ _ hn _
    have : n = 0 := by simpa using hn
    subst this
    rfl
  | cons c cs ih =>
    intro n a h0 h1 hn hb
    cases n with
    | zero => rfl
    | succ n =>
      simp only [bytesAt, List.take_succ_cons, List.cons.injEq] at hb
      simp only [strncmp_eq]
      rw [ld8_ok m a h0 (by omega), bind_ok, if_pos hb.1]
      exact ih n (a + 1) (by omega) (by omega) (by simpa using hn) hb.2

/-- The comparison fails when the first byte differs from the first byte of the literal. -/
theorem strncmp_eq_false (m : Mem) (c : Nat) (cs : List Nat) (n : Nat) (a : Int) (h0 : 0 ≤ a)
    (h1 : a < 4096) (hn : 0 < n) (hb : m a.toNat % 256 ≠ c) :
    strncmp_eq m a (c :: cs) n = .ok false := by
  cases n with
  | zero => omega
  | succ n =>
    simp only [strncmp_eq]
    rw [ld8_ok m a h0 h1, bind_ok, if_neg hb]
    rfl

theorem namesize_of_4 : namesize_of 4 = 4 := by decide
theorem namesize_of_9 : namesize_of 9 = 12 := by decide

theorem name_entry_step (le : Bool) (s : NvState) (str : List Nat) (hfound : s.found < 3)
    (hin : s.nvp + (28 + str.length) ≤ 4096) (hleft : 28 + str.length ≤ s.left)
    (hE : EntryAt s.buff s.nvp (.name str)) :
    ∃ B : Mem, nvpair_step le s = .ok (some (nvp_next s B (blkid_probe_set_label s.vals str)
        (s.found + 1) (28 + str.length)))
      ∧ ∀ i : Nat, s.nvp + (28 + str.length) ≤ i → B i = s.buff i := by
  have hk : (cstr "name").length = 4 := rfl
  have hp : padded 4 = 4 := rfl
  simp only [EntryAt, ValueAt, Entry.key, Entry.size, Entry.valueSize, hk, hp, SIZEOF_NVPAIR,
    SIZEOF_NVSTRING, DATA_TYPE_STRING, Nat.cast_ofNat] at hE
  obtain ⟨hsz, hnl, hkey, hty, hsl, hstr⟩ := hE
  have hsz' : be32At s.buff s.nvp = 28 + str.length := by omega
  have hav : avail_of (28 + str.length) 4 = 12 + str.length := by
    unfold avail_of
    rw [int32_of_range] <;> simp only [SIZEOF_NVPAIR] <;> omega
  rw [nvpair_step_header le s (by omega) (by omega) (by omega) hfound (by omega)
    (by rw [hsz', hnl, hav]; omega)]
  rw [hsz', hnl, hav]
  have hn0 : (0 : Int) ≤ s.nvp := Int.natCast_nonneg _
  have hcmp : strncmp_eq s.buff (s.nvp + 12) (cstr "name") 4 = .ok true :=
    strncmp_eq_true s.buff _ 4 _ (by omega) (by omega) (by decide) hkey
  unfold nvpair_dispatch
  simp only [namesize_of_4]
  rw [strncmp_eq_st32_frame le _ _ _ _ _ _ (by omega),
    strncmp_eq_st32_frame le _ _ _ _ _ _ (by omega), hcmp, bind_ok]
  simp only [if_true]
  unfold nvs_branch
  rw [be32_to_cpu_inplace_ok le _ _ (by omega) (by omega), bind_ok]
  simp only []
  rw [be32_to_cpu_inplace_ok le _ _ (by omega) (by omega), bind_ok]
  simp only []
  rw [be32At_st32_frame le _ _ _ _ (by omega) (by omega),
    be32At_st32_frame le _ _ _ _ (by omega) (by omega),
    be32At_st32_frame le _ _ _ _ (by omega) (by omega),
    be32At_st32_frame le _ _ _ _ (by omega) (by omega),
    be32At_st32_frame le _ _ _ _ (by omega) (by omega), hty, hsl]
  have hav2 : int32 (12 + (str.length : Int) - ((str.length : Int) + (SIZEOF_NVSTRING : Nat)))
      = 0 := by
    simp only [SIZEOF_NVSTRING, Nat.cast_ofNat]
    rw [int32_of_range] <;> omega
  have hc1 : ¬ str.length > UINT_MAX - SIZEOF_NVSTRING := by
    simp only [UINT_MAX, SIZEOF_NVSTRING]
    omega
  have hc2 : 9 = DATA_TYPE_STRING ∧ (0 : Int) ≥ 0 := ⟨rfl, le_refl _⟩
  rw [if_neg hc1, hav2, if_pos hc2,
    ldbytes_ok _ _ _ (by omega) (by omega), bind_ok,
    bytesAt_st32_frame le _ _ _ _ _ (by omega) (by omega),
    bytesAt_st32_frame le _ _ _ _ _ (by omega) (by omega),
    bytesAt_st32_frame le _ _ _ _ _ (by omega) (by omega),
    bytesAt_st32_frame le _ _ _ _ _ (by omega) (by omega), hstr]
  refine ⟨_, nvp_advance_ok le s _ _ _ _ ?_, ?_⟩
  · rw [ld32_st32_frame le _ _ _ _ (by omega), ld32_st32_frame le _ _ _ _ (by omega),
      ld32_st32_frame le _ _ _ _ (by omega)]
    exact ld32_st32_same le s.buff s.nvp (28 + str.length) hn0 (by omega) (by omega)
  · intro i hi
    rw [st32_frame le _ _ _ _ (by omega), st32_frame le _ _ _ _ (by omega),
      st32_frame le _ _ _ _ (by omega), st32_frame le _ _ _ _ (by omega)]

theorem be64At_congr (m m' : Mem) (a : Int) (h0 : 0 ≤ a)
    (h : ∀ i : Nat, a ≤ i → (i : Int) < a + 8 → m i = m' i) : be64At m a = be64At m' a := by
  unfold be64At le64
  simp only [Nat.sub_zero, Nat.reduceSub, Nat.cast_ofNat]
  rw [h (a + 7).toNat (by omega) (by omega), h (a + 6).toNat (by omega) (by omega),
    h (a + 5).toNat (by omega) (by omega), h (a + 4).toNat (by omega) (by omega),
    h (a + 3).toNat (by omega) (by omega), h (a + 2).toNat (by omega) (by omega),
    h (a + ((1 : Nat) : Int)).toNat (by omega) (by omega),
    h (a + ((0 : Nat) : Int)).toNat (by omega) (by omega)]

theorem be64At_st32_frame (le : Bool) (m : Mem) (x a : Int) (v : Nat) (h0 : 0 ≤ a)
    (h : a + 8 ≤ x ∨ x + 4 ≤ a) : be64At (st32 le m x v) a = be64At m a :=
  be64At_congr _ _ a h0 (fun i h1 h2 => st32_frame le m x v i (by omega))

theorem nvu_branch_ok (le : Bool) (s : NvState) (buff : Mem) (nvu : Int) (avail : Int)
    (setter : Vals → Nat → Vals) (h0 : 0 ≤ nvu) (h1 : nvu + 16 ≤ 4096)
    (hty : be32At buff nvu = 8) (ha0 : 16 ≤ avail) (ha1 : avail < 2147483648) :
    nvu_branch le s buff nvu avail setter
      = nvp_advance le s (st32 le buff nvu 8) (setter s.vals (be64At buff (nvu + 8)))
          (s.found + 1) := by
  obtain ⟨raw, hraw, hval⟩ := ld64_ok le buff (nvu + 8) (by omega) (by omega)
  have hav : int32 (avail - (SIZEOF_NVUINT64 : Nat)) = avail - 16 := by
    simp only [SIZEOF_NVUINT64, Nat.cast_ofNat]
    rw [int32_of_range] <;> omega
  have hc : 8 = DATA_TYPE_UINT64 ∧ avail - 16 ≥ 0 := ⟨rfl, by omega⟩
  unfold nvu_branch
  rw [hraw, bind_ok, be32_to_cpu_inplace_ok le _ _ h0 (by omega), bind_ok]
  simp only []
  rw [hty, hval, hav, if_pos hc]

theorem guid_entry_step (le : Bool) (s : NvState) (g : Nat) (hfound : s.found < 3)
    (hin : s.nvp + 32 ≤ 4096) (hleft : 32 ≤ s.left) (hE : EntryAt s.buff s.nvp (.guid g)) :
    ∃ B : Mem, nvpair_step le s = .ok (some (nvp_next s B
        (blkid_probe_sprintf_value_UUID_SUB s.vals g) (s.found + 1) 32))
      ∧ ∀ i : Nat, s.nvp + 32 ≤ i → B i = s.buff i := by
  have hk : (cstr "guid").length = 4 := rfl
  have hp : padded 4 = 4 := rfl
  simp only [EntryAt, ValueAt, Entry.key, Entry.size, Entry.valueSize, hk, hp, SIZEOF_NVPAIR,
    SIZEOF_NVUINT64, DATA_TYPE_UINT64, Nat.cast_ofNat, Nat.reduceAdd] at hE
  obtain ⟨hsz, hnl, hkey, hty, hval⟩ := hE
  have hav : avail_of 32 4 = 16 := by decide
  have hn0 : (0 : Int) ≤ s.nvp := Int.natCast_nonneg _
  rw [nvpair_step_header le s (by omega) (by omega) (by omega) hfound (by omega)
    (by rw [hsz, hnl, hav]; omega)]
  rw [hsz, hnl, hav]
  have hhead : s.buff ((s.nvp : Int) + 12).toNat % 256 = 103 := by
    have := congrArg List.head? hkey
    simpa [bytesAt, cstr] using this
  have hcmp1 : strncmp_eq s.buff (s.nvp + 12) (cstr "name") 4 = .ok false :=
    strncmp_eq_false s.buff 110 _ 4 _ (by omega) (by omega) (by norm_num)
      (by rw [hhead]; norm_num)
  have hcmp2 : strncmp_eq s.buff (s.nvp + 12) (cstr "guid") 4 = .ok true :=
    strncmp_eq_true s.buff _ 4 _ (by omega) (by omega) (by decide) hkey
  unfold nvpair_dispatch
  simp only [namesize_of_4]
  rw [strncmp_eq_st32_frame le _ _ _ _ _ _ (by omega),
    strncmp_eq_st32_frame le _ _ _ _ _ _ (by omega), hcmp1, bind_ok]
  simp only [Bool.false_eq_true, if_false]
  rw [strncmp_eq_st32_frame le _ _ _ _ _ _ (by omega),
    strncmp_eq_st32_frame le _ _ _ _ _ _ (by omega), hcmp2, bind_ok]
  simp only [if_true]
  rw [nvu_branch_ok le s _ _ _ _ (by omega) (by omega)
    (by rw [be32At_st32_frame le _ _ _ _ (by omega) (by omega),
      be32At_st32_frame le _ _ _ _ (by omega) (by omega), hty]) (by omega) (by omega)]
  rw [be64At_st32_frame le _ _ _ _ (by omega) (by omega),
    be64At_st32_frame le _ _ _ _ (by omega) (by omega), hval]
  refine ⟨_, nvp_advance_ok le s _ _ _ _ ?_, ?_⟩
  · rw [ld32_st32_frame le _ _ _ _ (by omega), ld32_st32_frame le _ _ _ _ (by omega)]
    exact ld32_st32_same le s.buff s.nvp 32 hn0 (by omega) (by omega)
  · intro i hi
    rw [st32_frame le _ _ _ _ (by omega), st32_frame le _ _ _ _ (by omega),
      st32_frame le _ _ _ _ (by omega)]

theorem pool_guid_entry_step (le : Bool) (s : NvState) (g : Nat) (hfound : s.found < 3)
    (hin : s.nvp + 40 ≤ 4096) (hleft : 40 ≤ s.left) (hE : EntryAt s.buff s.nvp (.pool_guid g)) :
    ∃ B : Mem, nvpair_step le s = .ok (some (nvp_next s B
        (blkid_probe_sprintf_uuid s.vals g) (s.found + 1) 40))
      ∧ ∀ i : Nat, s.nvp + 40 ≤ i → B i = s.buff i := by
  have hk : (cstr "pool_guid").length = 9 := rfl
  have hp : padded 9 = 12 := rfl
  simp only [EntryAt, ValueAt, Entry.key, Entry.size, Entry.valueSize, hk, hp, SIZEOF_NVPAIR,
    SIZEOF_NVUINT64, DATA_TYPE_UINT64, Nat.cast_ofNat, Nat.reduceAdd] at hE
  obtain ⟨hsz, hnl, hkey, hty, hval⟩ := hE
  have hav : avail_of 40 9 = 19 := by decide
  have hn0 : (0 : Int) ≤ s.nvp := Int.natCast_nonneg _
  rw [nvpair_step_header le s (by omega) (by omega) (by omega) hfound (by omega)
    (by rw [hsz, hnl, hav]; omega)]
  rw [hsz, hnl, hav]
  have hhead : s.buff ((s.nvp : Int) + 12).toNat % 256 = 112 := by
    have := congrArg List.head? hkey
    simpa [bytesAt, cstr] using this
  have hcmp1 : strncmp_eq s.buff (s.nvp + 12) (cstr "name") 9 = .ok false :=
    strncmp_eq_false s.buff 110 _ 9 _ (by omega) (by omega) (by norm_num)
      (by rw [hhead]; norm_num)
  have hcmp2 : strncmp_eq s.buff (s.nvp + 12) (cstr "guid") 9 = .ok false :=
    strncmp_eq_false s.buff 103 _ 9 _ (by omega) (by omega) (by norm_num)
      (by rw [hhead]; norm_num)
  have hcmp3 : strncmp_eq s.buff (s.nvp + 12) (cstr "pool_guid") 9 = .ok true :=
    strncmp_eq_true s.buff _ 9 _ (by omega) (by omega) (by decide) hkey
  unfold nvpair_dispatch
  simp only [namesize_of_9]
  rw [strncmp_eq_st32_frame le _ _ _ _ _ _ (by omega),
    strncmp_eq_st32_frame le _ _ _ _ _ _ (by omega), hcmp1, bind_ok]
  simp only [Bool.false_eq_true, if_false]
  rw [strncmp_eq_st32_frame le _ _ _ _ _ _ (by omega),
    strncmp_eq_st32_frame le _ _ _ _ _ _ (by omega), hcmp2, bind_ok]
  simp only [Bool.false_eq_true, if_false]
  rw [strncmp_eq_st32_frame le _ _ _ _ _ _ (by omega),
    strncmp_eq_st32_frame le _ _ _ _ _ _ (by omega), hcmp3, bind_ok]
  simp only [if_true]
  rw [nvu_branch_ok le s _ _ _ _ (by omega) (by omega)
    (by rw [be32At_st32_frame le _ _ _ _ (by omega) (by omega),
      be32At_st32_frame le _ _ _ _ (by omega) (by omega), hty]) (by omega) (by omega)]
  rw [be64At_st32_frame le _ _ _ _ (by omega) (by omega),
    be64At_st32_frame le _ _ _ _ (by omega) (by omega), hval]
  refine ⟨_, nvp_advance_ok le s _ _ _ _ ?_, ?_⟩
  · rw [ld32_st32_frame le _ _ _ _ (by omega), ld32_st32_frame le _ _ _ _ (by omega)]
    exact ld32_st32_same le s.buff s.nvp 40 hn0 (by omega) (by omega)
  · intro i hi
    rw [st32_frame le _ _ _ _ (by omega), st32_frame le _ _ _ _ (by omega),
      st32_frame le _ _ _ _ (by omega)]


theorem size_name (str : List Nat) : Entry.size (.name str) = 28 + str.length := by
  show 12 + padded 4 + (12 + str.length) = 28 + str.length
  have : padded 4 = 4 := rfl
  omega

theorem size_guid (g : Nat) : Entry.size (.guid g) = 32 := by
  show 12 + padded 4 + 16 = 32
  rfl

theorem size_pool_guid (g : Nat) : Entry.size (.pool_guid g) = 40 := by
  show 12 + padded 9 + 16 = 40
  rfl

/-- One loop step on a well-formed entry: the value is recorded, the match is counted, and the
cursor advances by the size of the entry; the bytes after the entry are untouched. -/
theorem entry_step (le : Bool) (s : NvState) (e : Entry) (hfound : s.found < 3)
    (hin : s.nvp + e.size ≤ 4096) (hleft : e.size ≤ s.left) (hE : EntryAt s.buff s.nvp e) :
    ∃ B : Mem, nvpair_step le s = .ok (some (nvp_next s B (e.record s.vals) (s.found + 1) e.size))
      ∧ ∀ i : Nat, s.nvp + e.size ≤ i → B i = s.buff i := by
  cases e with
  | name str =>
    rw [size_name] at hin hleft ⊢
    exact name_entry_step le s str hfound hin hleft hE
  | guid g =>
    rw [size_guid] at hin hleft ⊢
    exact guid_entry_step le s g hfound hin hleft hE
  | pool_guid g =>
    rw [size_pool_guid] at hin hleft ⊢
    exact pool_guid_entry_step le s g hfound hin hleft hE

theorem size_ge (e : Entry) : 28 ≤ e.size := by
  cases e with
  | name str => rw [size_name]; omega
  | guid g => rw [size_guid]; omega
  | pool_guid g => rw [size_pool_guid]; omega

theorem entryAt_congr (m m' : Mem) (a : Int) (e : Entry) (h0 : 0 ≤ a)
    (h : ∀ i : Nat, a ≤ i → m' i = m i) (hE : EntryAt m a e) : EntryAt m' a e := by
  have h32 : ∀ b : Int, a ≤ b → be32At m' b = be32At m b := fun b hb =>
    be32At_congr _ _ b (by omega) (fun i h1 _ => h i (by omega))
  have h64 : ∀ b : Int, a ≤ b → be64At m' b = be64At m b := fun b hb =>
    be64At_congr _ _ b (by omega) (fun i h1 _ => h i (by omega))
  have hby : ∀ (b : Int) (n : Nat), a ≤ b → bytesAt m' b n = bytesAt m b n := fun b n hb =>
    bytesAt_congr _ _ n b (by omega) (fun i h1 _ => h i (by omega))
  obtain ⟨h1, h2, h3, h4⟩ := hE
  refine ⟨by rw [h32 _ (by omega)]; exact h1, by rw [h32 _ (by omega)]; exact h2,
    by rw [hby _ _ (by omega)]; exact h3, ?_⟩
  cases e with
  | name str =>
    obtain ⟨h5, h6, h7⟩ := h4
    exact ⟨by rw [h32 _ (by omega)]; exact h5, by rw [h32 _ (by omega)]; exact h6,
      by rw [hby _ _ (by omega)]; exact h7⟩
  | guid g =>
    obtain ⟨h5, h6⟩ := h4
    exact ⟨by rw [h32 _ (by omega)]; exact h5, by rw [h64 _ (by omega)]; exact h6⟩
  | pool_guid g =>
    obtain ⟨h5, h6⟩ := h4
    exact ⟨by rw [h32 _ (by omega)]; exact h5, by rw [h64 _ (by omega)]; exact h6⟩

theorem layout_congr (m m' : Mem) : ∀ (es : List Entry) (a : Int), 0 ≤ a →
    (∀ i : Nat, a ≤ i → m' i = m i) → Layout m a es → Layout m' a es := by
  intro es
  induction es with
  | nil => intro a _ _ _; trivial
  | cons e es ih =>
    intro a h0 h hL
    exact ⟨entryAt_congr m m' a e h0 h hL.1,
      ih (a + e.size) (by omega) (fun i hi => h i (by omega)) hL.2⟩

theorem nvpair_loop_succ (le : Bool) (fuel : Nat) (s : NvState) :
    nvpair_loop le (fuel + 1) s = match nvpair_step le s with
      | .error a => (s.vals, some a)
      | .ok none => (s.vals, none)
      | .ok (some s') => nvpair_loop le fuel s' := rfl

/-- Running the loop over a sequence of well-formed entries laid out at the cursor. -/
theorem nvpair_loop_layout (le : Bool) : ∀ (es : List Entry) (fuel : Nat) (s : NvState),
    s.found + es.length ≤ 3 → s.nvp + totalSize es ≤ 4096 → totalSize es ≤ s.left →
    Layout s.buff s.nvp es →
    ∃ s' : NvState, nvpair_loop le (fuel + es.length) s = nvpair_loop le fuel s'
      ∧ s'.vals = es.foldl Entry.record s.vals ∧ s'.found = s.found + es.length
      ∧ s'.nvp = s.nvp + totalSize es ∧ s'.left = s.left - totalSize es
      ∧ ∀ i : Nat, s.nvp + totalSize es ≤ i → s'.buff i = s.buff i := by
  intro es
  induction es with
  | nil =>
    intro fuel s _ _ _ _
    exact ⟨s, rfl, rfl, rfl, rfl, rfl, fun _ _ => rfl⟩
  | cons e es ih =>
    intro fuel s hf hin hleft hL
    simp only [List.length_cons, totalSize] at hf hin hleft
    obtain ⟨B, hstep, hB⟩ := entry_step le s e (by omega) (by omega) (by omega) hL.1
    have hL' : Layout B ((s.nvp + e.size : Nat) : Int) es := by
      have := layout_congr s.buff B es (s.nvp + e.size) (by omega)
        (fun i hi => hB i (by omega)) hL.2
      rwa [Nat.cast_add]
    obtain ⟨s', hrun, hv, hfd, hnvp, hlf, hbuf⟩ :=
      ih fuel (nvp_next s B (e.record s.vals) (s.found + 1) e.size)
        (by simp only [nvp_next]; omega) (by simp only [nvp_next]; omega)
        (by simp only [nvp_next]; split <;> omega) hL'
    simp only [nvp_next] at hv hfd hnvp hlf hbuf
    refine ⟨s', ?_, ?_, ?_, ?_, ?_, ?_⟩
    · rw [List.length_cons, ← Nat.add_assoc, nvpair_loop_succ, hstep]
      exact hrun
    · rw [hv]; rfl
    · rw [hfd, List.length_cons]; omega
    · rw [hnvp]; simp only [totalSize]; omega
    · rw [hlf]; simp only [totalSize]; split <;> omega
    · intro i hi
      simp only [totalSize] at hi
      rw [hbuf i (by omega)]
      exact hB i (by omega)

/-- Once three matches are counted the next step ends the loop. -/
theorem nvpair_step_found3 (le : Bool) (s : NvState) (h : 3 ≤ s.found) :
    nvpair_step le s = .ok none ∨ ∃ a, nvpair_step le s = .error a := by
  unfold nvpair_step
  by_cases h1 : ¬ s.left > SIZEOF_NVPAIR
  · rw [if_pos h1]
    exact Or.inl rfl
  · rw [if_neg h1]
    cases hld : ld32 le s.buff s.nvp with
    | error a => exact Or.inr ⟨a, rfl⟩
    | ok raw =>
      rw [bind_ok]
      by_cases h2 : raw = 0
      · rw [if_pos h2]
        exact Or.inl rfl
      · rw [if_neg h2, if_pos (by omega)]
        exact Or.inl rfl

/-- Once three matches are counted the loop ends without recording anything more. -/
theorem nvpair_loop_found3 (le : Bool) (fuel : Nat) (s : NvState) (h : 3 ≤ s.found) :
    (nvpair_loop le (fuel + 1) s).1 = s.vals := by
  rw [nvpair_loop_succ]
  rcases nvpair_step_found3 le s h with h1 | ⟨a, h1⟩ <;> rw [h1]

theorem foldl_record_perm (v : Vals) (s : List Nat) (g q : Nat) (es : List Entry)
    (hperm : es.Perm [.name s, .guid g, .pool_guid q]) :
    (es.foldl Entry.record v).label = some s
      ∧ (es.foldl Entry.record v).uuid_sub = some (fmt_u64 g)
      ∧ (es.foldl Entry.record v).uuid = some (fmt_u64 q)
      ∧ (es.foldl Entry.record v).version = v.version := by
  have hlen := hperm.length_eq
  match es, hlen with
  | [e1, e2, e3], _ =>
    have m1 : e1 ∈ [Entry.name s, .guid g, .pool_guid q] := hperm.subset (by simp)
    have m2 : e2 ∈ [Entry.name s, .guid g, .pool_guid q] := hperm.subset (by simp)
    have m3 : e3 ∈ [Entry.name s, .guid g, .pool_guid q] := hperm.subset (by simp)
    have n1 : Entry.name s ∈ [e1, e2, e3] := hperm.symm.subset (by simp)
    have n2 : Entry.guid g ∈ [e1, e2, e3] := hperm.symm.subset (by simp)
    have n3 : Entry.pool_guid q ∈ [e1, e2, e3] := hperm.symm.subset (by simp)
    simp only [List.mem_cons, List.mem_singleton, List.not_mem_nil, or_false] at m1 m2 m3
    rcases m1 with rfl | rfl | rfl <;> rcases m2 with rfl | rfl | rfl <;>
      rcases m3 with rfl | rfl | rfl <;>
      first
        | exact ⟨rfl, rfl, rfl, rfl⟩
        | (exfalso; simp at n1 n2 n3)

theorem magic_ne_swab : UBERBLOCK_MAGIC ≠ swab64 UBERBLOCK_MAGIC := by decide

theorem slot_offset_succ (i : Nat) : slot_offset i + UBERBLOCK_SIZE = slot_offset (i + 1) := by
  simp only [slot_offset, UBERBLOCK_SIZE, VDEV_LABEL_UBERBLOCK]
  omega

theorem ubInv_body (le : Bool) (label : Mem) (o : Nat) (e : Int) (i : Nat) (s : UbScan)
    (h : UbInv le label o e i s) :
    UbInv le label o e (i + 1) (find_uberblocks_body le label (slot_offset i) s) := by
  obtain ⟨hc, h0, h1⟩ := h
  unfold find_uberblocks_body
  by_cases hm : label64 le label (slot_offset i) = UBERBLOCK_MAGIC
  · have hs : label64 le label (slot_offset i) ≠ swab64 UBERBLOCK_MAGIC := by
      rw [hm]; exact magic_ne_swab
    have him : is_marker le label i = true := by simp [is_marker, hm]
    simp only []
    rw [if_pos hm, if_neg hs]
    refine ⟨?_, ?_, ?_⟩
    · simp [List.range_succ, List.countP_append, him, hc]
    · intro hf; simp at hf
    · intro _
      exact ⟨i, by omega, him, fun k h1 h2 => by omega, rfl, by rw [if_neg hs]⟩
  · by_cases hs : label64 le label (slot_offset i) = swab64 UBERBLOCK_MAGIC
    · have him : is_marker le label i = true := by simp [is_marker, hs]
      simp only []
      rw [if_neg hm, if_pos hs]
      refine ⟨?_, ?_, ?_⟩
      · simp [List.range_succ, List.countP_append, him, hc]
      · intro hf; simp at hf
      · intro _
        exact ⟨i, by omega, him, fun k h1 h2 => by omega, rfl, by rw [if_pos hs]⟩
    · have him : is_marker le label i = false := by simp [is_marker, hm, hs]
      simp only []
      rw [if_neg hm, if_neg hs]
      refine ⟨?_, h0, ?_⟩
      · simp [List.range_succ, List.countP_append, him, hc]
      · intro hf
        obtain ⟨j, hj, hjm, hlast, hoff, hsw⟩ := h1 hf
        refine ⟨j, by omega, hjm, fun k hk1 hk2 => ?_, hoff, hsw⟩
        by_cases hki : k = i
        · rw [hki]; exact him
        · exact hlast k hk1 (by omega)

theorem ubInv_loop (le : Bool) (label : Mem) (o : Nat) (e : Int) :
    ∀ (n i : Nat) (s : UbScan), UbInv le label o e i s →
      UbInv le label o e (i + n) (find_uberblocks_loop le label n (slot_offset i) s) := by
  intro n
  induction n with
  | zero => intro i s h; exact h
  | succ n ih =>
    intro i s h
    simp only [find_uberblocks_loop]
    rw [slot_offset_succ, show i + (n + 1) = (i + 1) + n by omega]
    exact ih (i + 1) _ (ubInv_body le label o e i s h)

/-- What `find_uberblocks` returns and leaves in its out-parameters. -/
theorem find_uberblocks_inv (le : Bool) (label : Mem) (o : Nat) (e : Int) :
    UbInv le label o e UBERBLOCKS_COUNT (find_uberblocks le label o e) := by
  have h0 : UbInv le label o e 0 { ub_offset := o, swap_endian := e, found := 0 } :=
    ⟨rfl, fun _ => ⟨rfl, rfl⟩, fun h => absurd h (by simp)⟩
  have := ubInv_loop le label o e UBERBLOCKS_COUNT 0 _ h0
  simpa [find_uberblocks, slot_offset] using this

theorem find_uberblocks_found (le : Bool) (label : Mem) (o : Nat) (e : Int) :
    (find_uberblocks le label o e).found = marker_count le label :=
  (find_uberblocks_inv le label o e).1

theorem scan_label_found (le : Bool) (s : ScanState) (offset : Nat) (label : Mem) :
    (scan_label le s offset label).found = s.found + marker_count le label := by
  unfold scan_label
  simp only []
  rw [find_uberblocks_found]
  split
  · rfl
  · simp only []
    omega

theorem scan_label_reads (le : Bool) (s : ScanState) (offset : Nat) (label : Mem) :
    (scan_label le s offset label).reads = s.reads ++ [(offset, VDEV_LABEL_SIZE)] := by
  unfold scan_label
  simp only []
  split <;> rfl

theorem scan_label_offset (le : Bool) (s : ScanState) (offset : Nat) (label : Mem) :
    (scan_label le s offset label).offset = offset := by
  unfold scan_label
  simp only []
  split <;> rfl

/-- An iteration of the label loop that neither returns nor breaks. -/
theorem probe_scan_continue (le : Bool) (pr : Probe) (n k : Nat) (s : ScanState) (label : Mem)
    (hbuf : pr.get_buffer (label_offset pr.size s.offset k) VDEV_LABEL_SIZE = .ptr label)
    (hlt : s.found + marker_count le label < ZFS_WANT) :
    probe_scan le pr (n + 1) k s
      = probe_scan le pr n (k + 1) (scan_label le s (label_offset pr.size s.offset k) label) := by
  rw [← find_uberblocks_found le label s.ub_offset s.swab_endian] at hlt
  simp only [probe_scan, hbuf, scan_label]
  split
  · rw [if_neg (by omega)]
  · rfl

/-- The iteration of the label loop that ends it by `break`. -/
theorem probe_scan_break (le : Bool) (pr : Probe) (n k : Nat) (s : ScanState) (label : Mem)
    (hbuf : pr.get_buffer (label_offset pr.size s.offset k) VDEV_LABEL_SIZE = .ptr label)
    (hpos : 0 < marker_count le label)
    (hge : ZFS_WANT ≤ s.found + marker_count le label) :
    probe_scan le pr (n + 1) k s
      = .out (scan_label le s (label_offset pr.size s.offset k) label) := by
  rw [← find_uberblocks_found le label s.ub_offset s.swab_endian] at hge hpos
  simp only [probe_scan, hbuf, scan_label]
  rw [if_pos hpos, if_pos hge, if_pos hpos]

/-- The iteration of the label loop whose read fails. -/
theorem probe_scan_fail (le : Bool) (pr : Probe) (n k : Nat) (s : ScanState) (errno : Int)
    (hbuf : pr.get_buffer (label_offset pr.size s.offset k) VDEV_LABEL_SIZE = .null errno) :
    probe_scan le pr (n + 1) k s
      = .ret (if errno ≠ 0 then -errno else 1)
          (s.reads ++ [(label_offset pr.size s.offset k, VDEV_LABEL_SIZE)]) := by
  simp only [probe_scan, hbuf]

/-- An iteration of the label loop whose read succeeds. -/
theorem probe_scan_ptr (le : Bool) (pr : Probe) (n k : Nat) (s : ScanState) (label : Mem)
    (hbuf : pr.get_buffer (label_offset pr.size s.offset k) VDEV_LABEL_SIZE = .ptr label) :
    probe_scan le pr (n + 1) k s
      = if 0 < marker_count le label ∧ ZFS_WANT ≤ s.found + marker_count le label then
          .out (scan_label le s (label_offset pr.size s.offset k) label)
        else probe_scan le pr n (k + 1) (scan_label le s (label_offset pr.size s.offset k) label)
    := by
  by_cases h : 0 < marker_count le label ∧ ZFS_WANT ≤ s.found + marker_count le label
  · rw [if_pos h]
    exact probe_scan_break le pr n k s label hbuf h.1 h.2
  · rw [if_neg h]
    by_cases h0 : 0 < marker_count le label
    · exact probe_scan_continue le pr n k s label hbuf (by omega)
    · rw [← find_uberblocks_found le label s.ub_offset s.swab_endian] at h0
      simp only [probe_scan, hbuf, scan_label]
      rw [if_neg h0, if_neg h0]

theorem scan_label_inv (le : Bool) (s : ScanState) (offset : Nat) (label : Mem)
    (h : ScanInv le s) : ScanInv le (scan_label le s offset label) := by
  obtain ⟨hc, h0, h1⟩ := find_uberblocks_inv le label s.ub_offset s.swab_endian
  unfold scan_label
  simp only []
  split
  · rename_i hpos
    intro _
    obtain ⟨j, hj, hm, -, hoff, hsw⟩ := h1 hpos
    exact ⟨label, j, hj, by simp only [hoff], hm, hsw⟩
  · rename_i hpos
    intro hf
    obtain ⟨l, j, hj, hub, hm, hsw⟩ := h hf
    exact ⟨l, j, hj, hub, hm, by rw [(h0 (by omega)).2]; exact hsw⟩

theorem probe_scan_inv (le : Bool) (pr : Probe) : ∀ (n k : Nat) (s s' : ScanState),
    ScanInv le s → probe_scan le pr n k s = .out s' → ScanInv le s' := by
  intro n
  induction n with
  | zero =>
    intro k s s' h hs
    simp only [probe_scan, ScanEnd.out.injEq] at hs
    rw [← hs]; exact h
  | succ n ih =>
    intro k s s' h hs
    cases hbuf : pr.get_buffer (label_offset pr.size s.offset k) VDEV_LABEL_SIZE with
    | null errno =>
      rw [probe_scan_fail le pr n k s errno hbuf] at hs
      cases hs
    | ptr label =>
      rw [probe_scan_ptr le pr n k s label hbuf] at hs
      split at hs
      · simp only [ScanEnd.out.injEq] at hs
        rw [← hs]; exact scan_label_inv le s _ label h
      · exact ih (k + 1) _ s' (scan_label_inv le s _ label h) hs

theorem scan_init_inv (le : Bool) : ScanInv le scan_init := by
  intro h
  simp [scan_init] at h

theorem bind_eq_ok {α β : Type} (x : Except Int α) (f : α → Except Int β) (b : β)
    (h : (x >>= f) = .ok b) : ∃ a, x = .ok a ∧ f a = .ok b := by
  cases x with
  | error e => cases h
  | ok a => exact ⟨a, rfl, h⟩

theorem nvp_advance_vals (le : Bool) (s s' : NvState) (buff : Mem) (vals : Vals) (found : Nat)
    (h : nvp_advance le s buff vals found = .ok (some s')) :
    s'.vals = vals ∧ s'.found = found := by
  unfold nvp_advance at h
  obtain ⟨size, -, h2⟩ := bind_eq_ok _ _ _ h
  cases h2
  exact ⟨rfl, rfl⟩

theorem nvs_branch_version (le : Bool) (s s' : NvState) (buff : Mem) (nvs avail : Int)
    (h : nvs_branch le s buff nvs avail = .ok (some s')) :
    s'.vals.version = s.vals.version := by
  unfold nvs_branch at h
  obtain ⟨⟨t, b1⟩, -, h⟩ := bind_eq_ok _ _ _ h
  obtain ⟨⟨l, b2⟩, -, h⟩ := bind_eq_ok _ _ _ h
  simp only [] at h
  split at h
  · cases h
  · split at h
    · obtain ⟨bytes, -, h⟩ := bind_eq_ok _ _ _ h
      rw [(nvp_advance_vals le s s' _ _ _ h).1]
      rfl
    · rw [(nvp_advance_vals le s s' _ _ _ h).1]

theorem nvu_branch_version (le : Bool) (s s' : NvState) (buff : Mem) (nvu avail : Int)
    (setter : Vals → Nat → Vals) (hset : ∀ v x, (setter v x).version = v.version)
    (h : nvu_branch le s buff nvu avail setter = .ok (some s')) :
    s'.vals.version = s.vals.version := by
  unfold nvu_branch at h
  obtain ⟨raw, -, h⟩ := bind_eq_ok _ _ _ h
  obtain ⟨⟨t, b1⟩, -, h⟩ := bind_eq_ok _ _ _ h
  simp only [] at h
  rw [(nvp_advance_vals le s s' _ _ _ h).1]
  split
  · exact hset _ _
  · rfl

theorem nvpair_dispatch_version (le : Bool) (s s' : NvState) (buff : Mem) (namelen : Nat)
    (avail : Int) (h : nvpair_dispatch le s buff namelen avail = .ok (some s')) :
    s'.vals.version = s.vals.version := by
  unfold nvpair_dispatch at h
  simp only [] at h
  obtain ⟨c1, -, h⟩ := bind_eq_ok _ _ _ h
  split at h
  · exact nvs_branch_version le s s' _ _ _ h
  · obtain ⟨c2, -, h⟩ := bind_eq_ok _ _ _ h
    split at h
    · exact nvu_branch_version le s s' _ _ _ blkid_probe_sprintf_value_UUID_SUB
        (fun _ _ => rfl) h
    · obtain ⟨c3, -, h⟩ := bind_eq_ok _ _ _ h
      split at h
      · exact nvu_branch_version le s s' _ _ _ blkid_probe_sprintf_uuid (fun _ _ => rfl) h
      · rw [(nvp_advance_vals le s s' _ _ _ h).1]

theorem nvpair_step_version (le : Bool) (s s' : NvState)
    (h : nvpair_step le s = .ok (some s')) : s'.vals.version = s.vals.version := by
  unfold nvpair_step at h
  split at h
  · cases h
  · obtain ⟨raw, -, h⟩ := bind_eq_ok _ _ _ h
    split at h
    · cases h
    · split at h
      · cases h
      · obtain ⟨⟨sz, b1⟩, -, h⟩ := bind_eq_ok _ _ _ h
        obtain ⟨⟨nl, b2⟩, -, h⟩ := bind_eq_ok _ _ _ h
        simp only [] at h
        split at h
        · cases h
        · exact nvpair_dispatch_version le s s' _ _ _ h

/-- The decoder never touches the version. -/
theorem nvpair_loop_version (le : Bool) : ∀ (fuel : Nat) (s : NvState),
    (nvpair_loop le fuel s).1.version = s.vals.version := by
  intro fuel
  induction fuel with
  | zero => intro s; rfl
  | succ n ih =>
    intro s
    rw [nvpair_loop_succ]
    cases h : nvpair_step le s with
    | error a => rfl
    | ok r =>
      cases r with
      | none => rfl
      | some s' =>
        show (nvpair_loop le n s').1.version = s.vals.version
        rw [ih s', nvpair_step_version le s s' h]

theorem zfs_extract_of_ptr (le : Bool) (pr : Probe) (offset : Nat) (vals : Vals) (p : Mem)
    (h : pr.get_buffer (nvlist_offset offset) SIZEOF_BUFF = .ptr p) :
    zfs_extract_guid_name le pr offset vals
      = ((nvpair_loop le SIZEOF_BUFF (nv_init p vals)).1,
         (nvpair_loop le SIZEOF_BUFF (nv_init p vals)).2,
         [(nvlist_offset offset, SIZEOF_BUFF)]) := by
  unfold zfs_extract_guid_name
  simp only [h]

theorem zfs_extract_of_null (le : Bool) (pr : Probe) (offset : Nat) (vals : Vals) (e : Int)
    (h : pr.get_buffer (nvlist_offset offset) SIZEOF_BUFF = .null e) :
    zfs_extract_guid_name le pr offset vals = (vals, none, [(nvlist_offset offset, SIZEOF_BUFF)])
    := by
  unfold zfs_extract_guid_name
  simp only [h]

theorem zfs_extract_version (le : Bool) (pr : Probe) (offset : Nat) (vals : Vals) :
    (zfs_extract_guid_name le pr offset vals).1.version = vals.version := by
  cases h : pr.get_buffer (nvlist_offset offset) SIZEOF_BUFF with
  | null e => rw [zfs_extract_of_null le pr offset vals e h]
  | ptr p =>
    rw [zfs_extract_of_ptr le pr offset vals p h]
    have := nvpair_loop_version le SIZEOF_BUFF (nv_init p vals)
    rw [this]
    rfl

theorem probe_scan_ret_ne_zero (le : Bool) (pr : Probe) : ∀ (n k : Nat) (s : ScanState)
    (rc : Int) (reads : List (Nat × Nat)), probe_scan le pr n k s = .ret rc reads → rc ≠ 0 := by
  intro n
  induction n with
  | zero =>
    intro k s rc reads h
    simp only [probe_scan] at h
    cases h
  | succ n ih =>
    intro k s rc reads h
    cases hbuf : pr.get_buffer (label_offset pr.size s.offset k) VDEV_LABEL_SIZE with
    | null errno =>
      rw [probe_scan_fail le pr n k s errno hbuf] at h
      simp only [ScanEnd.ret.injEq] at h
      rw [← h.1]
      split <;> omega
    | ptr label =>
      rw [probe_scan_ptr le pr n k s label hbuf] at h
      split at h
      · cases h
      · exact ih (k + 1) _ rc reads h

theorem probe_zfs_of_out (le : Bool) (pr : Probe) (s : ScanState)
    (h : probe_scan le pr 4 0 scan_init = .out s) : probe_zfs le pr = probe_finish le pr s := by
  unfold probe_zfs
  rw [h]

theorem probe_zfs_of_ret (le : Bool) (pr : Probe) (rc : Int) (reads : List (Nat × Nat))
    (h : probe_scan le pr 4 0 scan_init = .ret rc reads) :
    probe_zfs le pr = { rc := some rc, fault := none, vals := {}, reads := reads } := by
  unfold probe_zfs
  rw [h]

theorem probe_finish_of_ub (le : Bool) (pr : Probe) (s : ScanState) (label : Mem) (off : Nat)
    (hf : ¬ s.found < ZFS_WANT) (hub : s.ub = some (label, off)) :
    probe_finish le pr s = probe_tail le pr s label off := by
  unfold probe_finish
  rw [if_neg hf, hub]

/-- Clearing the low 18 bits of a 64-bit value rounds it down to a multiple of 256 KiB. -/
theorem and_label_mask (x : Nat) (hx : x < 18446744073709551616) :
    x &&& (18446744073709551615 - (VDEV_LABEL_SIZE - 1)) = 2 ^ 18 * (x / 2 ^ 18) := by
  have hM : 18446744073709551615 - (VDEV_LABEL_SIZE - 1) = 2 ^ 64 - ((2 ^ 18 - 1) + 1) := by
    norm_num [VDEV_LABEL_SIZE]
  rw [hM]
  apply Nat.eq_of_testBit_eq
  intro i
  rw [Nat.testBit_and, Nat.testBit_two_pow_sub_succ (by norm_num) i, Nat.testBit_two_pow_sub_one,
    Nat.testBit_mul_pow_two, ← Nat.shiftRight_eq_div_pow, Nat.testBit_shiftRight]
  by_cases h18 : i < 18
  · simp [h18, Nat.not_le_of_lt h18]
  · have h18' : 18 ≤ i := by omega
    by_cases h64 : i < 64
    · simp [h18, h18', h64, Nat.add_sub_cancel' h18']
    · have hlt : x < 2 ^ i := by
        calc x < 2 ^ 64 := by norm_num; exact hx
          _ ≤ 2 ^ i := Nat.pow_le_pow_right (by norm_num) (by omega)
      simp [h64, Nat.add_sub_cancel' h18', Nat.testBit_lt_two_pow hlt]

theorem nvlist_offset_eq (x : Nat) (hx : x < 18446744073709551616) :
    nvlist_offset x = (x - x % VDEV_LABEL_SIZE + VDEV_LABEL_NVPAIR) % 18446744073709551616 := by
  unfold nvlist_offset
  rw [and_label_mask x hx]
  have : 2 ^ 18 * (x / 2 ^ 18) = x - x % VDEV_LABEL_SIZE := by
    simp only [VDEV_LABEL_SIZE]
    norm_num
    omega
  rw [this]

theorem nvlist_offset_aligned (x : Nat) (hx : x + VDEV_LABEL_SIZE ≤ 18446744073709551616)
    (ha : x % VDEV_LABEL_SIZE = 0) : nvlist_offset x = x + VDEV_LABEL_NVPAIR := by
  simp only [VDEV_LABEL_SIZE, VDEV_LABEL_NVPAIR] at *
  rw [nvlist_offset_eq x (by omega)]
  simp only [VDEV_LABEL_SIZE, VDEV_LABEL_NVPAIR]
  omega

theorem label_off_0 (size : Nat) : label_off size 0 = 0 := rfl

theorem label_off_1 (size : Nat) : label_off size 1 = VDEV_LABEL_SIZE := rfl

theorem label_off_2 (size : Nat) (h1 : 2 * VDEV_LABEL_SIZE + size % VDEV_LABEL_SIZE ≤ size)
    (h2 : size < 18446744073709551616) :
    label_off size 2 = size - size % VDEV_LABEL_SIZE - 2 * VDEV_LABEL_SIZE := by
  simp only [label_off, label_offset, VDEV_LABEL_SIZE] at *
  omega

theorem label_off_3 (size : Nat) (h1 : VDEV_LABEL_SIZE + size % VDEV_LABEL_SIZE ≤ size)
    (h2 : size < 18446744073709551616) :
    label_off size 3 = size - size % VDEV_LABEL_SIZE - VDEV_LABEL_SIZE := by
  simp only [label_off, label_offset, VDEV_LABEL_SIZE] at *
  omega

theorem image_probe_read (size : Nat) (bytes : Mem) (off len : Nat) (h0 : len ≠ 0)
    (h1 : off + len ≤ size) :
    (image_probe size bytes).get_buffer off len = .ptr (fun i => bytes (off + i)) := by
  simp only [image_probe]
  rw [if_pos ⟨h0, h1⟩]

/-- The locals after an iteration whose label holds a marker: `ub` points at the highest
matching slot of that label. -/
theorem scan_label_pos (le : Bool) (s : ScanState) (offset : Nat) (label : Mem)
    (hpos : 0 < marker_count le label) :
    ∃ j, j < UBERBLOCKS_COUNT ∧ is_marker le label j = true
      ∧ (∀ i, j < i → i < UBERBLOCKS_COUNT → is_marker le label i = false)
      ∧ (scan_label le s offset label).ub = some (label, slot_offset j)
      ∧ (scan_label le s offset label).swab_endian
          = (if label64 le label (slot_offset j) = swab64 UBERBLOCK_MAGIC then 1 else 0)
      ∧ (scan_label le s offset label).ub_offset
          = (slot_offset j + offset) % 18446744073709551616 := by
  obtain ⟨hc, -, h1⟩ := find_uberblocks_inv le label s.ub_offset s.swab_endian
  have hpos' : 0 < (find_uberblocks le label s.ub_offset s.swab_endian).found := by
    rw [find_uberblocks_found]; exact hpos
  obtain ⟨j, hj, hm, hlast, hoff, hsw⟩ := h1 hpos'
  refine ⟨j, hj, hm, hlast, ?_, ?_, ?_⟩ <;>
    (unfold scan_label; simp only []; rw [if_pos hpos'])
  · simp only [hoff]
  · exact hsw
  · simp only [hoff]

/-- The label loop of `probe_zfs` when the cumulative count reaches 4 at label `k`: the loop
ends there, after reading labels 0 to `k`, with `ub` at the highest matching slot of label
`k`. -/
theorem probe_scan_stops (le : Bool) (pr : Probe) (labels : Nat → Mem) (k : Nat) (hk : k < 4)
    (hread : ∀ j, j ≤ k → pr.get_buffer (label_off pr.size j) VDEV_LABEL_SIZE = .ptr (labels j))
    (hlt : cum_count le labels k < ZFS_WANT) (hge : ZFS_WANT ≤ cum_count le labels (k + 1)) :
    ∃ (s : ScanState) (j : Nat), probe_scan le pr 4 0 scan_init = .out s
      ∧ s.found = cum_count le labels (k + 1) ∧ s.offset = label_off pr.size k
      ∧ j < UBERBLOCKS_COUNT ∧ is_marker le (labels k) j = true
      ∧ (∀ i, j < i → i < UBERBLOCKS_COUNT → is_marker le (labels k) i = false)
      ∧ s.ub = some (labels k, slot_offset j)
      ∧ s.swab_endian
          = (if label64 le (labels k) (slot_offset j) = swab64 UBERBLOCK_MAGIC then 1 else 0)
      ∧ s.ub_offset = (slot_offset j + label_off pr.size k) % 18446744073709551616
      ∧ s.reads = (List.range (k + 1)).map (fun j => (label_off pr.size j, VDEV_LABEL_SIZE)) := by
  have hpos : 0 < marker_count le (labels k) := by
    simp only [cum_count, ZFS_WANT] at hlt hge
    omega
  have hk' : k = 0 ∨ k = 1 ∨ k = 2 ∨ k = 3 := by omega
  rcases hk' with rfl | rfl | rfl | rfl <;>
    simp only [cum_count, Nat.zero_add, ZFS_WANT] at hlt hge
  · obtain ⟨j, hj, hm, hlast, hub, hsw, hoff⟩ :=
      scan_label_pos le scan_init (label_off pr.size 0) (labels 0) hpos
    refine ⟨_, j, probe_scan_break le pr 3 0 scan_init (labels 0) (hread 0 (by norm_num)) hpos
      (by simp only [scan_init, ZFS_WANT]; omega), ?_, scan_label_offset _ _ _ _, hj, hm, hlast, hub, hsw,
      hoff, ?_⟩
    · simp only [scan_label_found, scan_init, cum_count, Nat.zero_add]
    · simp only [scan_label_reads]; rfl
  · obtain ⟨j, hj, hm, hlast, hub, hsw, hoff⟩ :=
      scan_label_pos le (scan_label le scan_init (label_off pr.size 0) (labels 0))
        (label_off pr.size 1) (labels 1) hpos
    refine ⟨_, j, ?_, ?_, scan_label_offset _ _ _ _, hj, hm, hlast, hub, hsw, hoff, ?_⟩
    · rw [probe_scan_continue le pr 3 0 scan_init (labels 0) (hread 0 (by norm_num))
        (by simp only [scan_init, ZFS_WANT]; omega)]
      exact probe_scan_break le pr 2 1 _ (labels 1) (hread 1 (by norm_num)) hpos
        (by simp only [scan_label_found, scan_init, ZFS_WANT]; omega)
    · simp only [scan_label_found, scan_init, cum_count, Nat.zero_add]
    · simp only [scan_label_reads]; rfl
  · obtain ⟨j, hj, hm, hlast, hub, hsw, hoff⟩ :=
      scan_label_pos le (scan_label le (scan_label le scan_init (label_off pr.size 0) (labels 0))
        (label_off pr.size 1) (labels 1)) (label_off pr.size 2) (labels 2) hpos
    refine ⟨_, j, ?_, ?_, scan_label_offset _ _ _ _, hj, hm, hlast, hub, hsw, hoff, ?_⟩
    · rw [probe_scan_continue le pr 3 0 scan_init (labels 0) (hread 0 (by norm_num))
          (by simp only [scan_init, ZFS_WANT]; omega),
        probe_scan_continue le pr 2 1 _ (labels 1) (hread 1 (by norm_num))
          (by simp only [scan_label_found, scan_init, ZFS_WANT]; omega)]
      exact probe_scan_break le pr 1 2 _ (labels 2) (hread 2 (by norm_num)) hpos
        (by simp only [scan_label_found, scan_init, ZFS_WANT]; omega)
    · simp only [scan_label_found, scan_init, cum_count, Nat.zero_add]
    · simp only [scan_label_reads]; rfl
  · obtain ⟨j, hj, hm, hlast, hub, hsw, hoff⟩ :=
      scan_label_pos le (scan_label le (scan_label le (scan_label le scan_init
        (label_off pr.size 0) (labels 0)) (label_off pr.size 1) (labels 1))
        (label_off pr.size 2) (labels 2)) (label_off pr.size 3) (labels 3) hpos
    refine ⟨_, j, ?_, ?_, scan_label_offset _ _ _ _, hj, hm, hlast, hub, hsw, hoff, ?_⟩
    · rw [probe_scan_continue le pr 3 0 scan_init (labels 0) (hread 0 (by norm_num))
          (by simp only [scan_init, ZFS_WANT]; omega),
        probe_scan_continue le pr 2 1 _ (labels 1) (hread 1 (by norm_num))
          (by simp only [scan_label_found, scan_init, ZFS_WANT]; omega),
        probe_scan_continue le pr 1 2 _ (labels 2) (hread 2 (by norm_num))
          (by simp only [scan_label_found, scan_init, ZFS_WANT]; omega)]
      exact probe_scan_break le pr 0 3 _ (labels 3) (hread 3 (by norm_num)) hpos
        (by simp only [scan_label_found, scan_init, ZFS_WANT]; omega)
    · simp only [scan_label_found, scan_init, cum_count, Nat.zero_add]
    · simp only [scan_label_reads]; rfl

theorem nvpair_step_found3_in (le : Bool) (s : NvState) (h : 3 ≤ s.found)
    (hin : (s.nvp : Int) + 4 ≤ 4096) : nvpair_step le s = .ok none := by
  unfold nvpair_step
  by_cases h1 : ¬ s.left > SIZEOF_NVPAIR
  · rw [if_pos h1]
  · rw [if_neg h1, ld32_ok le s.buff s.nvp (Int.natCast_nonneg _) hin, bind_ok]
    split
    · rfl
    · rw [if_pos (by omega)]

/-- The decoder on a window that holds exactly three well-formed entries, ending at least four
bytes before the end of the window. -/
theorem extract_layout (le : Bool) (pr : Probe) (offset : Nat) (vals : Vals) (p : Mem)
    (es : List Entry) (hbuf : pr.get_buffer (nvlist_offset offset) SIZEOF_BUFF = .ptr p)
    (hlen : es.length = 3) (hlay : Layout p 12 es) (hin : 12 + totalSize es + 4 ≤ 4096) :
    zfs_extract_guid_name le pr offset vals
      = (es.foldl Entry.record vals, none, [(nvlist_offset offset, SIZEOF_BUFF)]) := by
  obtain ⟨s', hrun, hv, hfd, hnvp, -, -⟩ := nvpair_loop_layout le es 4093 (nv_init p vals)
    (by simp only [nv_init]; omega) (by simp only [nv_init, OFFSETOF_NVL_NVPAIR]; omega)
    (by simp only [nv_init, SIZEOF_BUFF]; omega) hlay
  have hstep : nvpair_step le s' = .ok none :=
    nvpair_step_found3_in le s' (by rw [hfd, hlen]; simp [nv_init])
      (by rw [hnvp]; simp only [nv_init, OFFSETOF_NVL_NVPAIR]; omega)
  have hfin : nvpair_loop le SIZEOF_BUFF (nv_init p vals) = (es.foldl Entry.record vals, none) := by
    have h4096 : SIZEOF_BUFF = 4093 + es.length := by rw [hlen]
    rw [h4096, hrun, nvpair_loop_succ, hstep, hv]
    rfl
  rw [zfs_extract_of_ptr le pr offset vals p hbuf, hfin]

theorem ld8_ok_inv (m : Mem) (a : Int) (x : Nat) (h : ld8 m a = .ok x) : 0 ≤ a ∧ a < 4096 := by
  unfold ld8 at h
  split at h
  · assumption
  · cases h

theorem ld32_ok_inv (le : Bool) (m : Mem) (a : Int) (x : Nat) (h : ld32 le m a = .ok x) :
    0 ≤ a ∧ a + 4 ≤ 4096 ∧ x < 4294967296 := by
  unfold ld32 at h
  obtain ⟨b0, h0, h⟩ := bind_eq_ok _ _ _ h
  obtain ⟨b1, h1, h⟩ := bind_eq_ok _ _ _ h
  obtain ⟨b2, h2, h⟩ := bind_eq_ok _ _ _ h
  obtain ⟨b3, h3, h⟩ := bind_eq_ok _ _ _ h
  have i0 := ld8_ok_inv m a b0 h0
  have i3 := ld8_ok_inv m (a + 3) b3 h3
  refine ⟨i0.1, by omega, ?_⟩
  rw [ld8_ok m a i0.1 i0.2] at h0
  rw [ld8_ok m (a + 1) (by omega) (by omega)] at h1
  rw [ld8_ok m (a + 2) (by omega) (by omega)] at h2
  rw [ld8_ok m (a + 3) (by omega) (by omega)] at h3
  cases h0; cases h1; cases h2; cases h3; cases h
  cases le
  · simp only [host32, be32, le32, Bool.false_eq_true, if_false]
    omega
  · simp only [host32, be32, le32, if_true]
    omega

theorem be32_to_cpu_ne_zero (le : Bool) (x : Nat) (hx : x < 4294967296) (h : x ≠ 0) :
    be32_to_cpu le x ≠ 0 ∧ be32_to_cpu le x < 4294967296 := by
  cases le
  · simp only [be32_to_cpu, Bool.false_eq_true, if_false]
    exact ⟨h, hx⟩
  · simp only [be32_to_cpu, if_true, swab32, le32, byteOf]
    norm_num
    omega

/-- An in-place conversion of a field at a distance from `a` that is a multiple of 4 keeps the
field at `a` non-zero. -/
theorem inplace_sizeNonzero (le : Bool) (m m' : Mem) (a X : Int) (t : Nat)
    (h : be32_to_cpu_inplace le m X = .ok (t, m')) (hmod : (X - a) % 4 = 0)
    (hnz : SizeNonzero le m a) : SizeNonzero le m' a := by
  obtain ⟨x, hx, hx0⟩ := hnz
  unfold be32_to_cpu_inplace at h
  obtain ⟨raw, hraw, h⟩ := bind_eq_ok _ _ _ h
  simp only [pure, Except.pure, Except.ok.injEq, Prod.mk.injEq] at h
  obtain ⟨ht, hm⟩ := h
  subst hm
  by_cases hXa : X = a
  · subst hXa
    rw [hx] at hraw
    cases hraw
    obtain ⟨i0, i1, i2⟩ := ld32_ok_inv le m X x hx
    obtain ⟨n0, n1⟩ := be32_to_cpu_ne_zero le x i2 hx0
    exact ⟨be32_to_cpu le x, ld32_st32_same le m X _ i0 i1 n1, n0⟩
  · refine ⟨x, ?_, hx0⟩
    rw [ld32_st32_frame le m X a _ (by omega)]
    exact hx

theorem namesize_of_mod4 (n : Nat) : namesize_of n % 4 = 0 := by
  have h : ((n + 3) % 4294967296 &&& 4294967292) % 4 = 0 := by
    have e := Nat.and_pow_two_sub_one_eq_mod ((n + 3) % 4294967296 &&& 4294967292) 2
    have e' : (4294967292 : Nat) &&& (2 ^ 2 - 1) = 0 := by decide
    rw [Nat.and_assoc, e', Nat.and_zero] at e
    norm_num at e
    omega
  have hlt : (n + 3) % 4294967296 &&& 4294967292 < 4294967296 :=
    Nat.lt_of_le_of_lt Nat.and_le_left (Nat.mod_lt _ (by norm_num))
  unfold namesize_of int32
  omega

theorem nvp_advance_left (le : Bool) (s s' : NvState) (buff : Mem) (vals : Vals) (found : Nat)
    (h : nvp_advance le s buff vals found = .ok (some s')) (hnz : SizeNonzero le buff s.nvp)
    (hleft : 12 < s.left) : s'.left < s.left := by
  obtain ⟨x, hx, hx0⟩ := hnz
  rw [nvp_advance_ok le s buff vals found x hx] at h
  cases h
  simp only [nvp_next]
  split <;> omega

theorem nvs_branch_left (le : Bool) (s s' : NvState) (buff : Mem) (nvs avail : Int)
    (h : nvs_branch le s buff nvs avail = .ok (some s')) (hnz : SizeNonzero le buff s.nvp)
    (hmod : (nvs - s.nvp) % 4 = 0) (hleft : 12 < s.left) : s'.left < s.left := by
  unfold nvs_branch at h
  obtain ⟨⟨t, b1⟩, h1, h⟩ := bind_eq_ok _ _ _ h
  obtain ⟨⟨l, b2⟩, h2, h⟩ := bind_eq_ok _ _ _ h
  have hnz2 : SizeNonzero le b2 s.nvp :=
    inplace_sizeNonzero le b1 b2 s.nvp (nvs + 8) l h2 (by omega)
      (inplace_sizeNonzero le buff b1 s.nvp nvs t h1 hmod hnz)
  simp only [] at h
  split at h
  · cases h
  · split at h
    · obtain ⟨bytes, -, h⟩ := bind_eq_ok _ _ _ h
      exact nvp_advance_left le s s' _ _ _ h hnz2 hleft
    · exact nvp_advance_left le s s' _ _ _ h hnz2 hleft

theorem nvu_branch_left (le : Bool) (s s' : NvState) (buff : Mem) (nvu avail : Int)
    (setter : Vals → Nat → Vals)
    (h : nvu_branch le s buff nvu avail setter = .ok (some s'))
    (hnz : SizeNonzero le buff s.nvp) (hmod : (nvu - s.nvp) % 4 = 0) (hleft : 12 < s.left) :
    s'.left < s.left := by
  unfold nvu_branch at h
  obtain ⟨raw, -, h⟩ := bind_eq_ok _ _ _ h
  obtain ⟨⟨t, b1⟩, h1, h⟩ := bind_eq_ok _ _ _ h
  simp only [] at h
  exact nvp_advance_left le s s' _ _ _ h
    (inplace_sizeNonzero le buff b1 s.nvp nvu t h1 hmod hnz) hleft

theorem nvpair_dispatch_left (le : Bool) (s s' : NvState) (buff : Mem) (namelen : Nat)
    (avail : Int) (h : nvpair_dispatch le s buff namelen avail = .ok (some s'))
    (hnz : SizeNonzero le buff s.nvp) (hleft : 12 < s.left) : s'.left < s.left := by
  have hmod : ((s.nvp : Int) + 12 + namesize_of namelen - s.nvp) % 4 = 0 := by
    have := namesize_of_mod4 namelen
    omega
  unfold nvpair_dispatch at h
  simp only [] at h
  obtain ⟨c1, -, h⟩ := bind_eq_ok _ _ _ h
  split at h
  · exact nvs_branch_left le s s' _ _ _ h hnz hmod hleft
  · obtain ⟨c2, -, h⟩ := bind_eq_ok _ _ _ h
    split at h
    · exact nvu_branch_left le s s' _ _ _ _ h hnz hmod hleft
    · obtain ⟨c3, -, h⟩ := bind_eq_ok _ _ _ h
      split at h
      · exact nvu_branch_left le s s' _ _ _ _ h hnz hmod hleft
      · exact nvp_advance_left le s s' _ _ _ h hnz hleft

/-- Every step that continues the loop lowers the countdown. -/
theorem nvpair_step_left (le : Bool) (s s' : NvState)
    (h : nvpair_step le s = .ok (some s')) : s'.left < s.left := by
  unfold nvpair_step at h
  split at h
  · cases h
  · rename_i hleft
    simp only [SIZEOF_NVPAIR, not_not] at hleft
    obtain ⟨raw, hraw, h⟩ := bind_eq_ok _ _ _ h
    split at h
    · cases h
    · rename_i hraw0
      split at h
      · cases h
      · obtain ⟨⟨sz, b1⟩, h1, h⟩ := bind_eq_ok _ _ _ h
        obtain ⟨⟨nl, b2⟩, h2, h⟩ := bind_eq_ok _ _ _ h
        simp only [] at h
        split at h
        · cases h
        · have hnz : SizeNonzero le s.buff s.nvp := ⟨raw, hraw, hraw0⟩
          have hnz2 : SizeNonzero le b2 s.nvp :=
            inplace_sizeNonzero le b1 b2 s.nvp (s.nvp + 8) nl h2 (by omega)
              (inplace_sizeNonzero le s.buff b1 s.nvp s.nvp sz h1 (by omega) hnz)
          exact nvpair_dispatch_left le s s' _ _ _ h hnz2 (by omega)

/-- The loop ends within `left` steps: more fuel does not change the result. -/
theorem nvpair_loop_fuel (le : Bool) : ∀ (fuel : Nat) (s : NvState), s.left ≤ fuel →
    nvpair_loop le (fuel + 1) s = nvpair_loop le fuel s := by
  intro fuel
  induction fuel with
  | zero =>
    intro s hs
    rw [nvpair_loop_succ]
    have : nvpair_step le s = .ok none := by
      unfold nvpair_step
      rw [if_pos (by simp only [SIZEOF_NVPAIR]; omega)]
    rw [this]
    rfl
  | succ n ih =>
    intro s hs
    rw [nvpair_loop_succ le (n + 1), nvpair_loop_succ le n]
    cases h : nvpair_step le s with
    | error a => rfl
    | ok r =>
      cases r with
      | none => rfl
      | some s' =>
        have := nvpair_step_left le s s' h
        exact ih s' (by omega)

/-- The bound `sizeof(buff)` on the number of steps is enough for every window. -/
theorem nvpair_loop_total (le : Bool) (p : Mem) (vals : Vals) (n : Nat) :
    nvpair_loop le (SIZEOF_BUFF + n) (nv_init p vals)
      = nvpair_loop le SIZEOF_BUFF (nv_init p vals) := by
  induction n with
  | zero => rfl
  | succ n ih =>
    rw [← Nat.add_assoc, nvpair_loop_fuel le (SIZEOF_BUFF + n) (nv_init p vals)
      (by simp only [nv_init]; omega), ih]

/-- Once the cumulative count reaches 4 at label `k` the version is recorded, and the probe
returns 0 whenever the decoder stays inside `buff` and the signature-location write succeeds;
this covers a failed dictionary read and a dictionary without any known key. -/
theorem probe_detected_unless_fault (le : Bool) (pr : Probe) (labels : Nat → Mem) (k : Nat)
    (hk : k < 4)
    (hread : ∀ j, j ≤ k → pr.get_buffer (label_off pr.size j) VDEV_LABEL_SIZE = .ptr (labels j))
    (hlt : cum_count le labels k < ZFS_WANT) (hge : ZFS_WANT ≤ cum_count le labels (k + 1))
    (hmagic : pr.set_magic_rc = 0) :
    (∃ ver, (probe_zfs le pr).vals.version = some ver)
      ∧ ((probe_zfs le pr).fault = none → (probe_zfs le pr).rc = some 0)
      ∧ (∀ e, pr.get_buffer (nvlist_offset (label_off pr.size k)) SIZEOF_BUFF = .null e →
          (probe_zfs le pr).rc = some 0) := by
  obtain ⟨s, j, hscan, hfound, hsoff, hj, hm, -, hub, hsw, -, -⟩ :=
    probe_scan_stops le pr labels k hk hread hlt hge
  rw [probe_zfs_of_out le pr s hscan,
    probe_finish_of_ub le pr s _ _ (by rw [hfound]; exact Nat.not_lt.mpr hge) hub]
  have hver := zfs_extract_version le pr s.offset (blkid_probe_sprintf_version {}
    (if s.swab_endian ≠ 0 then swab64 (label64 le (labels k) (slot_offset j + 8))
      else label64 le (labels k) (slot_offset j + 8)))
  unfold probe_tail
  simp only []
  cases hx : (zfs_extract_guid_name le pr s.offset (blkid_probe_sprintf_version {}
    (if s.swab_endian ≠ 0 then swab64 (label64 le (labels k) (slot_offset j + 8))
      else label64 le (labels k) (slot_offset j + 8)))).2.1 with
  | some a =>
    simp only []
    refine ⟨⟨_, hver⟩, fun h => ?_, fun e he => ?_⟩
    · cases h
    · rw [zfs_extract_of_null le pr s.offset _ e (by rw [hsoff]; exact he)] at hx
      cases hx
  | none =>
    simp only []
    rw [if_neg (by rw [hmagic]; simp)]
    exact ⟨⟨_, hver⟩, fun _ => rfl, fun _ _ => rfl⟩

theorem is_marker_eq (le : Bool) (label : Mem) :
    is_marker le label = fun i => decide
      (label64 le label (VDEV_LABEL_UBERBLOCK + UBERBLOCK_SIZE * i) = UBERBLOCK_MAGIC
        ∨ label64 le label (VDEV_LABEL_UBERBLOCK + UBERBLOCK_SIZE * i) = swab64 UBERBLOCK_MAGIC) := by
  funext i
  unfold is_marker slot_offset
  by_cases h1 : label64 le label (VDEV_LABEL_UBERBLOCK + UBERBLOCK_SIZE * i) = UBERBLOCK_MAGIC
  · simp [h1]
  · by_cases h2 : label64 le label (VDEV_LABEL_UBERBLOCK + UBERBLOCK_SIZE * i)
        = swab64 UBERBLOCK_MAGIC
    · simp [h2]
    · simp [h1, h2]

theorem marker_count_le (le : Bool) (label : Mem) : marker_count le label ≤ UBERBLOCKS_COUNT := by
  unfold marker_count
  have h := List.countP_le_length (is_marker le label) (l := List.range UBERBLOCKS_COUNT)
  rwa [List.length_range] at h

theorem find_uberblocks_body_found (le : Bool) (label : Mem) (offset : Nat) (s : UbScan) :
    (find_uberblocks_body le label offset s).found
      = s.found + (if label64 le label offset = UBERBLOCK_MAGIC
          ∨ label64 le label offset = swab64 UBERBLOCK_MAGIC then 1 else 0) := by
  unfold find_uberblocks_body
  simp only []
  by_cases h1 : label64 le label offset = UBERBLOCK_MAGIC
  · have h2 : ¬ label64 le label offset = swab64 UBERBLOCK_MAGIC := by
      rw [h1]; exact magic_ne_swab
    rw [if_pos h1, if_neg h2, if_pos (Or.inl h1)]
  · by_cases h2 : label64 le label offset = swab64 UBERBLOCK_MAGIC
    · rw [if_neg h1, if_pos h2, if_pos (Or.inr h2)]
    · rw [if_neg h1, if_neg h2, if_neg (by tauto)]
      rfl

theorem label_offset_lt4 (size o k : Nat) (hk : k < 4) :
    label_offset size o k = label_off size k := by
  have : k = 0 ∨ k = 1 ∨ k = 2 ∨ k = 3 := by omega
  rcases this with rfl | rfl | rfl | rfl <;> rfl

theorem probe_scan_reads_ret (le : Bool) (pr : Probe) : ∀ (n k : Nat) (s : ScanState) (rc : Int)
    (reads : List (Nat × Nat)), k + n ≤ 4 → probe_scan le pr n k s = .ret rc reads →
    ∃ m, m < n ∧ reads = s.reads
      ++ (List.range' k (m + 1)).map (fun j => (label_off pr.size j, VDEV_LABEL_SIZE)) := by
  intro n
  induction n with
  | zero =>
    intro k s rc reads _ h
    simp only [probe_scan] at h
    cases h
  | succ n ih =>
    intro k s rc reads hk h
    have hoff := label_offset_lt4 pr.size s.offset k (by omega)
    cases hb : pr.get_buffer (label_offset pr.size s.offset k) VDEV_LABEL_SIZE with
    | null e =>
      rw [probe_scan_fail le pr n k s e hb] at h
      injection h with h1 h2
      refine ⟨0, by omega, ?_⟩
      rw [← h2, hoff]
      rfl
    | ptr label =>
      rw [probe_scan_ptr le pr n k s label hb] at h
      split at h
      · cases h
      · obtain ⟨m, hm, hr⟩ := ih (k + 1) _ rc reads (by omega) h
        refine ⟨m + 1, by omega, ?_⟩
        rw [hr, scan_label_reads, hoff, List.append_assoc]
        rfl

theorem probe_scan_out (le : Bool) (pr : Probe) : ∀ (n k : Nat) (s s' : ScanState),
    k + n ≤ 4 → probe_scan le pr n k s = .out s' →
    (∃ m, m ≤ n ∧ s'.reads = s.reads
        ++ (List.range' k m).map (fun j => (label_off pr.size j, VDEV_LABEL_SIZE)))
      ∧ (s.found < ZFS_WANT → ZFS_WANT ≤ s'.found →
          ∃ (s0 : ScanState) (label : Mem) (j : Nat), k ≤ j ∧ j < 4
            ∧ pr.get_buffer (label_off pr.size j) VDEV_LABEL_SIZE = .ptr label
            ∧ 0 < marker_count le label ∧ s0.found < ZFS_WANT
            ∧ s' = scan_label le s0 (label_off pr.size j) label
            ∧ s'.reads = s.reads ++ (List.range' k (j + 1 - k)).map
                (fun j => (label_off pr.size j, VDEV_LABEL_SIZE))) := by
  intro n
  induction n with
  | zero =>
    intro k s s' _ h
    simp only [probe_scan] at h
    injection h with h
    subst h
    refine ⟨⟨0, le_refl _, by simp⟩, ?_⟩
    intro h1 h2
    omega
  | succ n ih =>
    intro k s s' hk h
    have hoff := label_offset_lt4 pr.size s.offset k (by omega)
    cases hb : pr.get_buffer (label_offset pr.size s.offset k) VDEV_LABEL_SIZE with
    | null e =>
      rw [probe_scan_fail le pr n k s e hb] at h
      cases h
    | ptr label =>
      rw [probe_scan_ptr le pr n k s label hb] at h
      split at h
      · rename_i hc
        injection h with h
        have hr : s'.reads = s.reads ++ (List.range' k 1).map
            (fun j => (label_off pr.size j, VDEV_LABEL_SIZE)) := by
          rw [← h, scan_label_reads, hoff]
          rfl
        refine ⟨⟨1, by omega, hr⟩, ?_⟩
        intro h1 _
        refine ⟨s, label, k, le_refl _, by omega, ?_, hc.1, h1, ?_, ?_⟩
        · rw [← hoff]; exact hb
        · rw [← h, hoff]
        · rw [hr]
          have : k + 1 - k = 1 := by omega
          rw [this]
      · rename_i hc
        obtain ⟨⟨m, hm, hr⟩, hbr⟩ := ih (k + 1) _ s' (by omega) h
        have hcons : ∀ m, s.reads ++ [(label_off pr.size k, VDEV_LABEL_SIZE)]
            ++ (List.range' (k + 1) m).map (fun j => (label_off pr.size j, VDEV_LABEL_SIZE))
            = s.reads ++ (List.range' k (m + 1)).map
                (fun j => (label_off pr.size j, VDEV_LABEL_SIZE)) := by
          intro m
          rw [List.append_assoc]
          rfl
        refine ⟨⟨m + 1, by omega, ?_⟩, ?_⟩
        · rw [hr, scan_label_reads, hoff, hcons]
        · intro h1 h2
          have hf : (scan_label le s (label_offset pr.size s.offset k) label).found < ZFS_WANT := by
            rw [scan_label_found]
            simp only [ZFS_WANT] at hc h1 ⊢
            omega
          obtain ⟨s0, lab, j, hj1, hj2, hbuf, hpos, hf0, hs, hrd⟩ := hbr hf h2
          refine ⟨s0, lab, j, by omega, hj2, hbuf, hpos, hf0, hs, ?_⟩
          rw [hrd, scan_label_reads, hoff, hcons]
          have : j + 1 - (k + 1) + 1 = j + 1 - k := by omega
          rw [this]

theorem zfs_extract_reads (le : Bool) (pr : Probe) (offset : Nat) (vals : Vals) :
    (zfs_extract_guid_name le pr offset vals).2.2 = [(nvlist_offset offset, SIZEOF_BUFF)] := by
  cases hb : pr.get_buffer (nvlist_offset offset) SIZEOF_BUFF with
  | null e => rw [zfs_extract_of_null le pr offset vals e hb]
  | ptr p => rw [zfs_extract_of_ptr le pr offset vals p hb]

theorem probe_tail_reads (le : Bool) (pr : Probe) (s : ScanState) (label : Mem) (off : Nat) :
    (probe_tail le pr s label off).reads = s.reads ++ [(nvlist_offset s.offset, SIZEOF_BUFF)] := by
  unfold probe_tail
  simp only []
  split
  · simp only [zfs_extract_reads]
  · split <;> simp only [zfs_extract_reads]

theorem probe_tail_magic (le : Bool) (pr : Probe) (s : ScanState) (label : Mem) (off : Nat)
    (h : (probe_tail le pr s label off).rc = some 0) :
    (probe_tail le pr s label off).vals.magic
      = some (s.ub_offset, 8, (List.range 8).map (fun k => label (off + k) % 256)) := by
  unfold probe_tail at h ⊢
  simp only [] at h ⊢
  split
  · rename_i a hx
    rw [hx] at h
    cases h
  · rename_i hx
    rw [hx] at h
    simp only [] at h
    by_cases hrc : pr.set_magic_rc ≠ 0
    · rw [if_pos hrc] at h
      cases h
    · rw [if_neg hrc]

theorem label_off_aligned (size k : Nat) (hmin : ZFS_MINSZ ≤ size)
    (hmax : size < 18446744073709551616) (hk : k < 4) :
    label_off size k % VDEV_LABEL_SIZE = 0 ∧ label_off size k + VDEV_LABEL_SIZE ≤ size := by
  simp only [ZFS_MINSZ] at hmin
  have hm : size % VDEV_LABEL_SIZE < VDEV_LABEL_SIZE := Nat.mod_lt _ (by decide)
  have e2 : 2 * VDEV_LABEL_SIZE + size % VDEV_LABEL_SIZE ≤ size := by
    simp only [VDEV_LABEL_SIZE] at hm ⊢
    omega
  have e3 : VDEV_LABEL_SIZE + size % VDEV_LABEL_SIZE ≤ size := by
    simp only [VDEV_LABEL_SIZE] at hm ⊢
    omega
  have h2 := label_off_2 size e2 hmax
  have h3 := label_off_3 size e3 hmax
  have hk' : k = 0 ∨ k = 1 ∨ k = 2 ∨ k = 3 := by omega
  simp only [VDEV_LABEL_SIZE] at hm e2 e3 h2 h3 ⊢
  rcases hk' with rfl | rfl | rfl | rfl
  · rw [label_off_0]
    exact ⟨by norm_num, by omega⟩
  · rw [label_off_1]
    exact ⟨by norm_num, by simp only [VDEV_LABEL_SIZE]; omega⟩
  · rw [h2]
    exact ⟨by omega, by omega⟩
  · rw [h3]
    exact ⟨by omega, by omega⟩

theorem probe_zfs_reads_form (le : Bool) (pr : Probe) :
    (∃ m, m ≤ 4 ∧ (probe_zfs le pr).reads
        = (List.range m).map (fun j => (label_off pr.size j, VDEV_LABEL_SIZE)))
      ∨ (∃ k, k < 4 ∧ (probe_zfs le pr).reads
          = (List.range (k + 1)).map (fun j => (label_off pr.size j, VDEV_LABEL_SIZE))
            ++ [(nvlist_offset (label_off pr.size k), SIZEOF_BUFF)]) := by
  cases hs : probe_scan le pr 4 0 scan_init with
  | ret rc reads =>
    rw [probe_zfs_of_ret le pr rc reads hs]
    obtain ⟨m, hm, hr⟩ := probe_scan_reads_ret le pr 4 0 scan_init rc reads (by omega) hs
    left
    refine ⟨m + 1, by omega, ?_⟩
    show reads = _
    rw [hr, List.range_eq_range']
    rfl
  | out s =>
    rw [probe_zfs_of_out le pr s hs]
    obtain ⟨⟨m, hm, hr⟩, hbr⟩ := probe_scan_out le pr 4 0 scan_init s (by omega) hs
    have hr' : s.reads = (List.range m).map (fun j => (label_off pr.size j, VDEV_LABEL_SIZE)) := by
      rw [hr, List.range_eq_range']
      rfl
    unfold probe_finish
    by_cases hf : s.found < ZFS_WANT
    · rw [if_pos hf]
      exact Or.inl ⟨m, hm, hr'⟩
    · rw [if_neg hf]
      cases hub : s.ub with
      | none => exact Or.inl ⟨m, hm, hr'⟩
      | some x =>
        obtain ⟨label, off⟩ := x
        simp only []
        obtain ⟨s0, lab, j, _, hj, _, _, _, hsl, hrd⟩ :=
          hbr (by decide) (by simp only [ZFS_WANT] at hf ⊢; omega)
        right
        refine ⟨j, hj, ?_⟩
        rw [probe_tail_reads, hrd]
        have hso : s.offset = label_off pr.size j := by rw [hsl, scan_label_offset]
        rw [hso, List.range_eq_range']
        rfl

theorem nvpair_steps_succ (le : Bool) (n : Nat) (s : NvState) :
    nvpair_steps le (n + 1) s = match nvpair_step le s with
      | .ok (some s') => nvpair_steps le n s'
      | _ => none := rfl

theorem nvpair_steps_one (le : Bool) (s s' : NvState) (h : nvpair_step le s = .ok (some s')) :
    nvpair_steps le 1 s = some s' := by
  rw [nvpair_steps_succ, h]
  rfl

theorem nvpair_steps_loop (le : Bool) : ∀ (n : Nat) (s0 s : NvState),
    nvpair_steps le n s0 = some s → ∀ fuel, nvpair_loop le (n + fuel) s0 = nvpair_loop le fuel s := by
  intro n
  induction n with
  | zero =>
    intro s0 s h fuel
    simp only [nvpair_steps, Option.some.injEq] at h
    rw [h, Nat.zero_add]
  | succ n ih =>
    intro s0 s h fuel
    rw [nvpair_steps_succ] at h
    have e : n + 1 + fuel = (n + fuel) + 1 := by omega
    rw [e, nvpair_loop_succ]
    cases hs : nvpair_step le s0 with
    | error a => rw [hs] at h; cases h
    | ok r =>
      cases r with
      | none => rw [hs] at h; cases h
      | some s1 =>
        rw [hs] at h
        exact ih s1 s h fuel

theorem nvpair_steps_left (le : Bool) : ∀ (n : Nat) (s0 s : NvState),
    nvpair_steps le n s0 = some s → s.left + n ≤ s0.left := by
  intro n
  induction n with
  | zero =>
    intro s0 s h
    simp only [nvpair_steps, Option.some.injEq] at h
    rw [h]
    omega
  | succ n ih =>
    intro s0 s h
    rw [nvpair_steps_succ] at h
    cases hs : nvpair_step le s0 with
    | error a => rw [hs] at h; cases h
    | ok r =>
      cases r with
      | none => rw [hs] at h; cases h
      | some s1 =>
        rw [hs] at h
        have h1 := ih s1 s h
        have h2 := nvpair_step_left le s0 s1 hs
        omega

/-- A size field of zero inside `buff` ends the loop. -/
theorem nvpair_step_zero (le : Bool) (s : NvState) (hin : (s.nvp : Int) + 4 ≤ 4096)
    (hz : be32At s.buff s.nvp = 0) : nvpair_step le s = .ok none := by
  have hn0 : (0 : Int) ≤ s.nvp := Int.natCast_nonneg _
  unfold nvpair_step
  split
  · rfl
  · rw [ld32_ok le s.buff s.nvp hn0 hin, bind_ok, if_pos]
    rw [host32_eq_zero]
    exact hz

/-- A total size above `left`, or a negative `avail`, ends the loop when the header lies inside
`buff`. -/
theorem nvpair_step_stop (le : Bool) (s : NvState) (hin : (s.nvp : Int) + 12 ≤ 4096)
    (h : s.left < be32At s.buff s.nvp
      ∨ avail_of (be32At s.buff s.nvp) (be32At s.buff (s.nvp + 8)) < 0) :
    nvpair_step le s = .ok none := by
  have hn0 : (0 : Int) ≤ s.nvp := Int.natCast_nonneg _
  have hframe : be32At (st32 le s.buff s.nvp (be32At s.buff s.nvp)) (s.nvp + 8)
      = be32At s.buff (s.nvp + 8) :=
    be32At_st32_frame le s.buff s.nvp (s.nvp + 8) _ (by omega) (by omega)
  unfold nvpair_step
  split
  · rfl
  · rw [ld32_ok le s.buff s.nvp hn0 (by omega), bind_ok]
    split
    · rfl
    · split
      · rfl
      · rw [be32_to_cpu_inplace_ok le s.buff s.nvp hn0 (by omega), bind_ok]
        simp only []
        rw [be32_to_cpu_inplace_ok le _ (s.nvp + 8) (by omega) (by omega), bind_ok]
        simp only [hframe]
        rw [if_pos h]

theorem nvpair_loop_of_steps (le : Bool) (p : Mem) (vals : Vals) (n : Nat) (s : NvState)
    (hreach : nvpair_steps le n (nv_init p vals) = some s) (hend : nvpair_step le s = .ok none) :
    nvpair_loop le SIZEOF_BUFF (nv_init p vals) = (s.vals, none) := by
  rw [← nvpair_loop_total le p vals (n + 1)]
  have e : SIZEOF_BUFF + (n + 1) = n + (SIZEOF_BUFF + 1) := by omega
  rw [e, nvpair_steps_loop le n _ s hreach, nvpair_loop_succ, hend]

theorem nvpair_step_enters (le : Bool) (s s' : NvState)
    (h : nvpair_step le s = .ok (some s')) : enters_body le s = true := by
  unfold nvpair_step at h
  unfold enters_body
  split at h
  · cases h
  · rename_i hleft
    obtain ⟨raw, hraw, h⟩ := bind_eq_ok _ _ _ h
    rw [hraw]
    split at h
    · cases h
    · rename_i hraw0
      split at h
      · cases h
      · rename_i hf
        simp only [not_not] at hleft hf
        simp only [hleft, hraw0, hf, decide_True, decide_not, Bool.and_self, ne_eq,
          not_false_eq_true, decide_False, Bool.not_false]

theorem body_runs_le (le : Bool) : ∀ (fuel : Nat) (s : NvState),
    body_runs le fuel s ≤ s.left - SIZEOF_NVPAIR := by
  intro fuel
  induction fuel with
  | zero => intro s; simp only [body_runs]; omega
  | succ n ih =>
    intro s
    simp only [body_runs]
    split
    · rename_i hb
      have hleft : s.left > SIZEOF_NVPAIR := by
        unfold enters_body at hb
        simp only [Bool.and_eq_true, decide_eq_true_eq] at hb
        exact hb.1
      simp only [SIZEOF_NVPAIR] at hleft ⊢
      split
      · rename_i s' hs
        have h1 := ih s'
        have h2 := nvpair_step_left le s s' hs
        simp only [SIZEOF_NVPAIR] at h1
        omega
      · omega
    · omega

theorem nvp_advance_next (le : Bool) (s s' : NvState) (buff : Mem) (vals : Vals) (found : Nat)
    (h : nvp_advance le s buff vals found = .ok (some s')) (hnz : SizeNonzero le buff s.nvp) :
    ∃ size, size ≠ 0 ∧ ld32 le s'.buff s.nvp = .ok size ∧ s'.nvp = s.nvp + size
      ∧ s'.left = if s.left > size then s.left - size else 0 := by
  obtain ⟨x, hx, hx0⟩ := hnz
  rw [nvp_advance_ok le s buff vals found x hx] at h
  cases h
  exact ⟨x, hx0, hx, rfl, rfl⟩

theorem nvs_branch_next (le : Bool) (s s' : NvState) (buff : Mem) (nvs avail : Int)
    (h : nvs_branch le s buff nvs avail = .ok (some s')) (hnz : SizeNonzero le buff s.nvp)
    (hmod : (nvs - s.nvp) % 4 = 0) :
    (∃ size, size ≠ 0 ∧ ld32 le s'.buff s.nvp = .ok size ∧ s'.nvp = s.nvp + size
      ∧ s'.left = if s.left > size then s.left - size else 0)
      ∧ s'.found = s.found + 1 := by
  unfold nvs_branch at h
  obtain ⟨⟨t, b1⟩, h1, h⟩ := bind_eq_ok _ _ _ h
  obtain ⟨⟨l, b2⟩, h2, h⟩ := bind_eq_ok _ _ _ h
  have hnz2 : SizeNonzero le b2 s.nvp :=
    inplace_sizeNonzero le b1 b2 s.nvp (nvs + 8) l h2 (by omega)
      (inplace_sizeNonzero le buff b1 s.nvp nvs t h1 hmod hnz)
  simp only [] at h
  split at h
  · cases h
  · split at h
    · obtain ⟨bytes, -, h⟩ := bind_eq_ok _ _ _ h
      exact ⟨nvp_advance_next le s s' _ _ _ h hnz2, (nvp_advance_vals le s s' _ _ _ h).2⟩
    · exact ⟨nvp_advance_next le s s' _ _ _ h hnz2, (nvp_advance_vals le s s' _ _ _ h).2⟩

theorem nvu_branch_next (le : Bool) (s s' : NvState) (buff : Mem) (nvu avail : Int)
    (setter : Vals → Nat → Vals)
    (h : nvu_branch le s buff nvu avail setter = .ok (some s'))
    (hnz : SizeNonzero le buff s.nvp) (hmod : (nvu - s.nvp) % 4 = 0) :
    (∃ size, size ≠ 0 ∧ ld32 le s'.buff s.nvp = .ok size ∧ s'.nvp = s.nvp + size
      ∧ s'.left = if s.left > size then s.left - size else 0)
      ∧ s'.found = s.found + 1 := by
  unfold nvu_branch at h
  obtain ⟨raw, -, h⟩ := bind_eq_ok _ _ _ h
  obtain ⟨⟨t, b1⟩, h1, h⟩ := bind_eq_ok _ _ _ h
  simp only [] at h
  exact ⟨nvp_advance_next le s s' _ _ _ h
    (inplace_sizeNonzero le buff b1 s.nvp nvu t h1 hmod hnz), (nvp_advance_vals le s s' _ _ _ h).2⟩

/-- What a step that continues the loop does to cursor, countdown and counter, in terms of the
buffer after the two header conversions. -/
theorem nvpair_dispatch_next (le : Bool) (s s' : NvState) (buff : Mem) (namelen : Nat)
    (avail : Int) (h : nvpair_dispatch le s buff namelen avail = .ok (some s'))
    (hnz : SizeNonzero le buff s.nvp) :
    (∃ size, size ≠ 0 ∧ ld32 le s'.buff s.nvp = .ok size ∧ s'.nvp = s.nvp + size
      ∧ s'.left = if s.left > size then s.left - size else 0)
      ∧ ((strncmp_eq buff (s.nvp + 12) (cstr "name") namelen = .ok true
            ∨ strncmp_eq buff (s.nvp + 12) (cstr "guid") namelen = .ok true
            ∨ strncmp_eq buff (s.nvp + 12) (cstr "pool_guid") namelen = .ok true) →
          s'.found = s.found + 1)
      ∧ (¬ (strncmp_eq buff (s.nvp + 12) (cstr "name") namelen = .ok true
            ∨ strncmp_eq buff (s.nvp + 12) (cstr "guid") namelen = .ok true
            ∨ strncmp_eq buff (s.nvp + 12) (cstr "pool_guid") namelen = .ok true) →
          s'.found = s.found ∧ s'.vals = s.vals) := by
  have hmod : ((s.nvp : Int) + 12 + namesize_of namelen - s.nvp) % 4 = 0 := by
    have := namesize_of_mod4 namelen
    omega
  unfold nvpair_dispatch at h
  simp only [] at h
  obtain ⟨c1, hc1, h⟩ := bind_eq_ok _ _ _ h
  split at h
  · rename_i hc
    subst hc
    obtain ⟨hn, hf⟩ := nvs_branch_next le s s' _ _ _ h hnz hmod
    exact ⟨hn, fun _ => hf, fun hno => absurd (Or.inl hc1) hno⟩
  · rename_i hc
    obtain ⟨c2, hc2, h⟩ := bind_eq_ok _ _ _ h
    split at h
    · rename_i hc'
      subst hc'
      obtain ⟨hn, hf⟩ := nvu_branch_next le s s' _ _ _ _ h hnz hmod
      exact ⟨hn, fun _ => hf, fun hno => absurd (Or.inr (Or.inl hc2)) hno⟩
    · rename_i hc'
      obtain ⟨c3, hc3, h⟩ := bind_eq_ok _ _ _ h
      split at h
      · rename_i hc''
        subst hc''
        obtain ⟨hn, hf⟩ := nvu_branch_next le s s' _ _ _ _ h hnz hmod
        exact ⟨hn, fun _ => hf, fun hno => absurd (Or.inr (Or.inr hc3)) hno⟩
      · rename_i hc''
        refine ⟨nvp_advance_next le s s' _ _ _ h hnz, ?_, fun _ => ?_⟩
        · intro hk
          exfalso
          rw [hc1, hc2, hc3] at hk
          simp only [Except.ok.injEq] at hk
          rcases hk with hk | hk | hk
          · exact hc hk
          · exact hc' hk
          · exact hc'' hk
        · have := nvp_advance_vals le s s' _ _ _ h
          exact ⟨this.2, this.1⟩

theorem nvpair_step_next (le : Bool) (s s' : NvState)
    (h : nvpair_step le s = .ok (some s')) :
    (∃ size, size ≠ 0 ∧ ld32 le s'.buff s.nvp = .ok size ∧ s'.nvp = s.nvp + size
      ∧ s'.left = if s.left > size then s.left - size else 0)
      ∧ (known_key s → s'.found = s.found + 1)
      ∧ (¬ known_key s → s'.found = s.found ∧ s'.vals = s.vals) := by
  have hn0 : (0 : Int) ≤ s.nvp := Int.natCast_nonneg _
  unfold nvpair_step at h
  split at h
  · cases h
  · obtain ⟨raw, hraw, h⟩ := bind_eq_ok _ _ _ h
    split at h
    · cases h
    · rename_i hraw0
      split at h
      · cases h
      · obtain ⟨⟨sz, b1⟩, h1, h⟩ := bind_eq_ok _ _ _ h
        obtain ⟨⟨nl, b2⟩, h2, h⟩ := bind_eq_ok _ _ _ h
        simp only [] at h
        split at h
        · cases h
        · have hnz : SizeNonzero le s.buff s.nvp := ⟨raw, hraw, hraw0⟩
          have hnz2 : SizeNonzero le b2 s.nvp :=
            inplace_sizeNonzero le b1 b2 s.nvp (s.nvp + 8) nl h2 (by omega)
              (inplace_sizeNonzero le s.buff b1 s.nvp s.nvp sz h1 (by omega) hnz)
          obtain ⟨i0, i1, -⟩ := ld32_ok_inv le s.buff s.nvp raw hraw
          rw [be32_to_cpu_inplace_ok le s.buff s.nvp hn0 i1] at h1
          simp only [Except.ok.injEq, Prod.mk.injEq] at h1
          obtain ⟨hsz, hb1⟩ := h1
          have h2' := h2
          unfold be32_to_cpu_inplace at h2'
          obtain ⟨raw2, hraw2, -⟩ := bind_eq_ok _ _ _ h2'
          obtain ⟨j0, j1, -⟩ := ld32_ok_inv le b1 (s.nvp + 8) raw2 hraw2
          rw [be32_to_cpu_inplace_ok le b1 (s.nvp + 8) j0 j1] at h2
          simp only [Except.ok.injEq, Prod.mk.injEq] at h2
          obtain ⟨hnl, hb2⟩ := h2
          have hnl' : nl = be32At s.buff (s.nvp + 8) := by
            rw [← hnl, ← hb1]
            exact be32At_st32_frame le s.buff s.nvp (s.nvp + 8) _ (by omega) (by omega)
          have hcmp : ∀ lit, strncmp_eq b2 (s.nvp + 12) lit nl
              = strncmp_eq s.buff (s.nvp + 12) lit (be32At s.buff (s.nvp + 8)) := by
            intro lit
            rw [← hb2, ← hb1, strncmp_eq_st32_frame le _ (s.nvp + 8) (s.nvp + 12) _ lit nl
              (by omega), strncmp_eq_st32_frame le _ s.nvp (s.nvp + 12) _ lit nl (by omega),
              hnl']
          have := nvpair_dispatch_next le s s' b2 nl _ h hnz2
          simp only [hcmp] at this
          exact this

theorem nameEntryAt_congr (m m' : Mem) (a : Int) (z : Nat) (str : List Nat) (h0 : 0 ≤ a)
    (h : ∀ i : Nat, a ≤ i → m' i = m i) (hE : NameEntryAt m a z str) :
    NameEntryAt m' a z str := by
  obtain ⟨h1, h2, h3, h4, h5, h6⟩ := hE
  refine ⟨?_, ?_, ?_, ?_, ?_, ?_⟩
  · exact (be32At_congr m' m a h0 (fun i hi _ => h i hi)).trans h1
  · exact (be32At_congr m' m (a + 8) (by omega) (fun i hi _ => h i (by omega))).trans h2
  · exact (bytesAt_congr m' m 4 (a + 12) (by omega) (fun i hi _ => h i (by omega))).trans h3
  · exact (be32At_congr m' m (a + 16) (by omega) (fun i hi _ => h i (by omega))).trans h4
  · exact (be32At_congr m' m (a + 24) (by omega) (fun i hi _ => h i (by omega))).trans h5
  · exact (bytesAt_congr m' m str.length (a + 28) (by omega)
      (fun i hi _ => h i (by omega))).trans h6

/-- The step on a string entry keyed "name" whose declared total size `z` covers header, key,
value header and string. -/
theorem name_entry_step_sized (le : Bool) (s : NvState) (z : Nat) (str : List Nat)
    (hfound : s.found < 3) (hz : 28 + str.length ≤ z) (hin : s.nvp + z ≤ 4096)
    (hleft : z ≤ s.left) (hE : NameEntryAt s.buff s.nvp z str) :
    ∃ B : Mem, nvpair_step le s = .ok (some (nvp_next s B (blkid_probe_set_label s.vals str)
        (s.found + 1) z))
      ∧ ∀ i : Nat, s.nvp + (28 + str.length) ≤ i → B i = s.buff i := by
  simp only [NameEntryAt, DATA_TYPE_STRING] at hE
  obtain ⟨hsz, hnl, hkey, hty, hsl, hstr⟩ := hE
  have hty' : be32At s.buff ((s.nvp : Int) + 12 + 4) = 9 := by
    have e : (s.nvp : Int) + 12 + 4 = s.nvp + 16 := by omega
    rw [e]; exact hty
  have hsl' : be32At s.buff ((s.nvp : Int) + 12 + 4 + 8) = str.length := by
    have e : (s.nvp : Int) + 12 + 4 + 8 = s.nvp + 24 := by omega
    rw [e]; exact hsl
  have hstr' : bytesAt s.buff ((s.nvp : Int) + 12 + 4 + 12) str.length = str := by
    have e : (s.nvp : Int) + 12 + 4 + 12 = s.nvp + 28 := by omega
    rw [e]; exact hstr
  have hav : avail_of z 4 = (z : Int) - 16 := by
    unfold avail_of
    rw [int32_of_range] <;> simp only [SIZEOF_NVPAIR] <;> omega
  rw [nvpair_step_header le s (by omega) (by omega) (by omega) hfound (by omega)
    (by rw [hsz, hnl, hav]; omega)]
  rw [hsz, hnl, hav]
  have hn0 : (0 : Int) ≤ s.nvp := Int.natCast_nonneg _
  have hcmp : strncmp_eq s.buff (s.nvp + 12) (cstr "name") 4 = .ok true :=
    strncmp_eq_true s.buff _ 4 _ (by omega) (by omega) (by decide) hkey
  unfold nvpair_dispatch
  simp only [namesize_of_4]
  rw [strncmp_eq_st32_frame le _ _ _ _ _ _ (by omega),
    strncmp_eq_st32_frame le _ _ _ _ _ _ (by omega), hcmp, bind_ok]
  simp only [if_true]
  unfold nvs_branch
  rw [be32_to_cpu_inplace_ok le _ _ (by omega) (by omega), bind_ok]
  simp only []
  rw [be32_to_cpu_inplace_ok le _ _ (by omega) (by omega), bind_ok]
  simp only []
  rw [be32At_st32_frame le _ _ _ _ (by omega) (by omega),
    be32At_st32_frame le _ _ _ _ (by omega) (by omega),
    be32At_st32_frame le _ _ _ _ (by omega) (by omega),
    be32At_st32_frame le _ _ _ _ (by omega) (by omega),
    be32At_st32_frame le _ _ _ _ (by omega) (by omega), hty', hsl']
  have hav2 : int32 ((z : Int) - 16 - ((str.length : Int) + (SIZEOF_NVSTRING : Nat)))
      = (z : Int) - 28 - str.length := by
    simp only [SIZEOF_NVSTRING, Nat.cast_ofNat]
    rw [int32_of_range] <;> omega
  have hc1 : ¬ str.length > UINT_MAX - SIZEOF_NVSTRING := by
    simp only [UINT_MAX, SIZEOF_NVSTRING]
    omega
  have hc2 : 9 = DATA_TYPE_STRING ∧ (z : Int) - 28 - str.length ≥ 0 := ⟨rfl, by omega⟩
  rw [if_neg hc1, hav2, if_pos hc2,
    ldbytes_ok _ _ _ (by omega) (by omega), bind_ok,
    bytesAt_st32_frame le _ _ _ _ _ (by omega) (by omega),
    bytesAt_st32_frame le _ _ _ _ _ (by omega) (by omega),
    bytesAt_st32_frame le _ _ _ _ _ (by omega) (by omega),
    bytesAt_st32_frame le _ _ _ _ _ (by omega) (by omega), hstr']
  refine ⟨_, nvp_advance_ok le s _ _ _ _ ?_, ?_⟩
  · rw [ld32_st32_frame le _ _ _ _ (by omega), ld32_st32_frame le _ _ _ _ (by omega),
      ld32_st32_frame le _ _ _ _ (by omega)]
    exact ld32_st32_same le s.buff s.nvp z hn0 (by omega) (by omega)
  · intro i hi
    rw [st32_frame le _ _ _ _ (by omega), st32_frame le _ _ _ _ (by omega),
      st32_frame le _ _ _ _ (by omega), st32_frame le _ _ _ _ (by omega)]

/-- What the loop condition and the size checks have established when a step continues. -/
theorem nvpair_step_continue_inv (le : Bool) (s s' : NvState)
    (h : nvpair_step le s = .ok (some s')) :
    (s.nvp : Int) + 12 ≤ 4096 ∧ 12 < s.left ∧ s.found < 3 ∧ be32At s.buff s.nvp ≠ 0
      ∧ be32At s.buff s.nvp ≤ s.left
      ∧ 0 ≤ avail_of (be32At s.buff s.nvp) (be32At s.buff (s.nvp + 8)) := by
  have hn0 : (0 : Int) ≤ s.nvp := Int.natCast_nonneg _
  unfold nvpair_step at h
  split at h
  · cases h
  · rename_i hleft
    obtain ⟨raw, hraw, h⟩ := bind_eq_ok _ _ _ h
    split at h
    · cases h
    · rename_i hraw0
      split at h
      · cases h
      · rename_i hf
        obtain ⟨⟨sz, b1⟩, h1, h⟩ := bind_eq_ok _ _ _ h
        obtain ⟨⟨nl, b2⟩, h2, h⟩ := bind_eq_ok _ _ _ h
        simp only [] at h
        split at h
        · cases h
        · rename_i hc
          obtain ⟨i0, i1, -⟩ := ld32_ok_inv le s.buff s.nvp raw hraw
          have hraw' := hraw
          rw [ld32_ok le s.buff s.nvp hn0 i1] at hraw'
          simp only [Except.ok.injEq] at hraw'
          have hsz0 : be32At s.buff s.nvp ≠ 0 := by
            intro hz
            apply hraw0
            rw [← hraw', host32_eq_zero]
            exact hz
          rw [be32_to_cpu_inplace_ok le s.buff s.nvp hn0 i1] at h1
          simp only [Except.ok.injEq, Prod.mk.injEq] at h1
          obtain ⟨hsz, hb1⟩ := h1
          have h2' := h2
          unfold be32_to_cpu_inplace at h2'
          obtain ⟨raw2, hraw2, -⟩ := bind_eq_ok _ _ _ h2'
          obtain ⟨j0, j1, -⟩ := ld32_ok_inv le b1 (s.nvp + 8) raw2 hraw2
          rw [be32_to_cpu_inplace_ok le b1 (s.nvp + 8) j0 j1] at h2
          simp only [Except.ok.injEq, Prod.mk.injEq] at h2
          obtain ⟨hnl, hb2⟩ := h2
          have hnl' : nl = be32At s.buff (s.nvp + 8) := by
            rw [← hnl, ← hb1]
            exact be32At_st32_frame le s.buff s.nvp (s.nvp + 8) _ (by omega) (by omega)
          rw [← hsz, hnl'] at hc
          simp only [SIZEOF_NVPAIR, not_not] at hleft hf
          refine ⟨by omega, hleft, hf, hsz0, ?_, ?_⟩
          · by_contra hlt
            exact hc (Or.inl (by omega))
          · by_contra hlt
            exact hc (Or.inr (by omega))

/-- A step that does not continue ends the run with the values recorded so far. -/
theorem nvpair_loop_of_steps_end (le : Bool) (p : Mem) (vals : Vals) (n : Nat) (s : NvState)
    (hreach : nvpair_steps le n (nv_init p vals) = some s)
    (hend : ∀ s', nvpair_step le s ≠ .ok (some s')) :
    (nvpair_loop le SIZEOF_BUFF (nv_init p vals)).1 = s.vals := by
  rw [← nvpair_loop_total le p vals (n + 1)]
  have e : SIZEOF_BUFF + (n + 1) = n + (SIZEOF_BUFF + 1) := by omega
  rw [e, nvpair_steps_loop le n _ s hreach, nvpair_loop_succ]
  cases hs : nvpair_step le s with
  | error a => rfl
  | ok r =>
    cases r with
    | none => rfl
    | some s' => exact absurd hs (hend s')

/-- Let the decoder reach, after `n` iterations on the window `p`, an entry whose total size
field is zero, or exceeds the countdown `left`, or exceeds 4096, or whose header gives a
negative `avail`.  Then no iteration continues from this entry and the values recorded by
`zfs_extract_guid_name` are exactly those recorded by the `n` iterations before it.  When the
header of the entry (for a zero size, its size field) lies inside `buff`, the loop ends
without an access outside `buff`. -/
theorem inconsistent_entry_ends_decode (le : Bool) (pr : Probe) (offset : Nat) (vals : Vals)
    (p : Mem) (n : Nat) (s : NvState)
    (hbuf : pr.get_buffer (nvlist_offset offset) SIZEOF_BUFF = .ptr p)
    (hreach : nvpair_steps le n (nv_init p vals) = some s)
    (hcase : be32At s.buff s.nvp = 0 ∨ s.left < be32At s.buff s.nvp
      ∨ SIZEOF_BUFF < be32At s.buff s.nvp
      ∨ avail_of (be32At s.buff s.nvp) (be32At s.buff (s.nvp + 8)) < 0) :
    (∀ s', nvpair_step le s ≠ .ok (some s'))
      ∧ (zfs_extract_guid_name le pr offset vals).1 = s.vals
      ∧ ((s.nvp : Int) + SIZEOF_NVPAIR ≤ SIZEOF_BUFF
          ∨ ((s.nvp : Int) + 4 ≤ SIZEOF_BUFF ∧ be32At s.buff s.nvp = 0) →
          nvpair_step le s = .ok none
          ∧ zfs_extract_guid_name le pr offset vals
              = (s.vals, none, [(nvlist_offset offset, SIZEOF_BUFF)])) := by
  have hleft : s.left ≤ SIZEOF_BUFF := by
    have := nvpair_steps_left le n _ s hreach
    simp only [nv_init] at this
    omega
  simp only [SIZEOF_BUFF, SIZEOF_NVPAIR, Nat.cast_ofNat] at hcase hleft ⊢
  have hno : ∀ s', nvpair_step le s ≠ .ok (some s') := by
    intro s' h
    obtain ⟨-, -, -, h0, h1, h2⟩ := nvpair_step_continue_inv le s s' h
    rcases hcase with hc | hc | hc | hc <;> omega
  refine ⟨hno, ?_, ?_⟩
  · have h := nvpair_loop_of_steps_end le p vals n s hreach hno
    rw [zfs_extract_of_ptr le pr offset vals p hbuf]
    dsimp only
    exact h
  · intro hin
    have hend : nvpair_step le s = .ok none := by
      rcases hin with hin | ⟨hin, hz⟩
      · rcases hcase with hc | hc | hc | hc
        · exact nvpair_step_zero le s (by omega) hc
        · exact nvpair_step_stop le s hin (Or.inl hc)
        · exact nvpair_step_stop le s hin (Or.inl (by omega))
        · exact nvpair_step_stop le s hin (Or.inr hc)
      · exact nvpair_step_zero le s hin hz
    refine ⟨hend, ?_⟩
    rw [zfs_extract_of_ptr le pr offset vals p hbuf,
      nvpair_loop_of_steps le p vals n s hreach hend]

set_option maxRecDepth 100000 in
/-- An instance of `inconsistent_entry_ends_decode`: after the entry keyed "foo" of
`window_foo` the size field is zero. -/
theorem inconsistent_entry_ends_decode_witness :
    zfs_extract_guid_name true (window_probe window_foo) 0 {}
      = ({}, none, [(nvlist_offset 0, SIZEOF_BUFF)]) :=
  ((inconsistent_entry_ends_decode true (window_probe window_foo) 0 {} (mem_of window_foo) 1
    (nvp_next (nv_init (mem_of window_foo) {})
      (st32 true (st32 true (mem_of window_foo) 12 32) 20 3) {} 0 32)
    rfl
    (nvpair_steps_one true _ _
      (unknown_key_step true (nv_init (mem_of window_foo) {}) (by decide) (by decide)
        (by decide) (by decide) (by decide) (by decide) rfl rfl rfl))
    (Or.inl (by decide))).2.2 (Or.inl (by decide))).2

/-! ## The properties of the specification, by claim -/

/-! ### C1 -/

/-- C1. When all four label reads succeed and fewer than 4 marker slots match in total
(0 and 3 included), `probe_zfs` returns 1 and records no value. -/
theorem probe_below_threshold (le : Bool) (pr : Probe) (labels : Nat → Mem)
    (hread : ∀ k, k < 4 → pr.get_buffer (label_off pr.size k) VDEV_LABEL_SIZE = .ptr (labels k))
    (hcount : cum_count le labels 4 < ZFS_WANT) :
    (probe_zfs le pr).rc = some 1 ∧ (probe_zfs le pr).fault = none
      ∧ (probe_zfs le pr).vals = {} := by
  simp only [cum_count, Nat.zero_add] at hcount
  have h0 := hread 0 (by norm_num)
  have h1 := hread 1 (by norm_num)
  have h2 := hread 2 (by norm_num)
  have h3 := hread 3 (by norm_num)
  have e : probe_scan le pr 4 0 scan_init = .out
      (scan_label le (scan_label le (scan_label le (scan_label le scan_init
        (label_off pr.size 0) (labels 0)) (label_off pr.size 1) (labels 1))
        (label_off pr.size 2) (labels 2)) (label_off pr.size 3) (labels 3)) := by
    rw [probe_scan_continue le pr 3 0 scan_init (labels 0) h0
        (by simp only [scan_init]; omega),
      probe_scan_continue le pr 2 1 _ (labels 1) h1
        (by simp only [scan_label_found, scan_init]; omega),
      probe_scan_continue le pr 1 2 _ (labels 2) h2
        (by simp only [scan_label_found, scan_init]; omega),
      probe_scan_continue le pr 0 3 _ (labels 3) h3
        (by simp only [scan_label_found, scan_init]; omega)]
    rfl
  have hf : (scan_label le (scan_label le (scan_label le (scan_label le scan_init
        (label_off pr.size 0) (labels 0)) (label_off pr.size 1) (labels 1))
        (label_off pr.size 2) (labels 2)) (label_off pr.size 3) (labels 3)).found < ZFS_WANT := by
    simp only [scan_label_found, scan_init]
    omega
  unfold probe_zfs
  rw [e]
  simp only [probe_finish, if_pos hf, and_self]

set_option maxRecDepth 100000 in
/-- An instance of `probe_below_threshold`: an image with exactly three markers. -/
theorem probe_below_threshold_witness :
    cum_count true (image_labels 67108864 image_three_markers) 4 = 3
      ∧ (probe_zfs true (image_probe 67108864 image_three_markers)).rc = some 1
      ∧ (probe_zfs true (image_probe 67108864 image_three_markers)).fault = none
      ∧ (probe_zfs true (image_probe 67108864 image_three_markers)).vals = {} := by
  have h0 : marker_count true (image_labels 67108864 image_three_markers 0) = 2 := by
    rw [← find_uberblocks_found true _ 0 0]; decide!
  have h1 : marker_count true (image_labels 67108864 image_three_markers 1) = 0 := by
    rw [← find_uberblocks_found true _ 0 0]; decide!
  have h2 : marker_count true (image_labels 67108864 image_three_markers 2) = 0 := by
    rw [← find_uberblocks_found true _ 0 0]; decide!
  have h3 : marker_count true (image_labels 67108864 image_three_markers 3) = 1 := by
    rw [← find_uberblocks_found true _ 0 0]; decide!
  have h : cum_count true (image_labels 67108864 image_three_markers) 4 = 3 := by
    simp only [cum_count, h0, h1, h2, h3]
  exact ⟨h, probe_below_threshold true (image_probe 67108864 image_three_markers)
    (image_labels 67108864 image_three_markers)
    (fun k hk => by
      have hk' : k = 0 ∨ k = 1 ∨ k = 2 ∨ k = 3 := by omega
      rcases hk' with rfl | rfl | rfl | rfl <;> rfl)
    (by rw [h]; decide)⟩

/-! ### C2 -/

set_option maxRecDepth 100000 in
/-- C2: with four markers in label 0 the version is recorded, but in the dictionary window the
first entry of total size 4076 leaves the cursor at index 4088 with a countdown of 20, so the
loop body runs on a header of which only the size field lies inside `buff`: the statement
`nvp->nvp_namelen = be32_to_cpu(nvp->nvp_namelen)` of line 101 loads and stores
`buff[4096..4099]`.  The run leaves the array at index 4096 and `probe_zfs` does not get to
return 0. -/
theorem probe_faults_in_header :
    step_view true (nv_init (mem_of window_cut_header) {}) = some (4088, 20, 0, {})
      ∧ be32At (mem_of window_cut_header) 4088 = 32
      ∧ probe_zfs true (image_probe 67108864 image_cut_header)
        = { rc := none, fault := some 4096, vals := { version := some "5000" },
            reads := [(0, 262144), (16384, 4096)] } := by
  decide

/-! ### C3 -/

set_option maxRecDepth 100000 in
/-- C3: after an entry of size 4083 the countdown is 13 and the cursor is at index 4095, so
the loop condition loads `nvp->nvp_size` from `buff[4095..4098]`: the run leaves the array at
index 4096. -/
theorem header_read_past_window :
    step_view true (nv_init (mem_of window_tail) {}) = some (4095, 13, 0, {})
      ∧ (zfs_extract_guid_name true (window_probe window_tail) 0 {}).2.1 = some 4096
      ∧ (zfs_extract_guid_name false (window_probe window_tail) 0 {}).2.1 = some 4096 := by
  decide

/-! ### C4 -/

set_option maxRecDepth 100000 in
/-- C4: an entry with name length `0xfffffff8` and total size 32 passes the check on `avail`
(the subtraction wraps) and its bytes are recorded as the sub-identifier. -/
theorem namelen_wrap_records :
    be32At (mem_of window_namelen_wrap) 12 = 32
      ∧ be32At (mem_of window_namelen_wrap) 20 = 4294967288
      ∧ avail_of 32 4294967288 = 28
      ∧ step_view true (nv_init (mem_of window_namelen_wrap) {})
          = some (44, 4064, 1, { uuid_sub := some "7454980636399370240" })
      ∧ (zfs_extract_guid_name true (window_probe window_namelen_wrap) 0 {}).1.uuid_sub
          = some "7454980636399370240" := by
  decide

/-! ### C5 -/

set_option maxRecDepth 100000 in
/-- C5, as stated, fails: with one marker in each label the count reaches 4 at label 3, whose
dictionary is decoded; the dictionary at label 0 + 16 KiB is never read and no name or
identifier is recorded. -/
theorem dictionary_of_label0_ignored :
    Layout (fun i => image_one_marker_each 16384 (16384 + i)) 12 tank_entries
      ∧ (∀ k, k < 4 → is_marker true (image_labels 67108864 (image_one_marker_each 16384) k) 0
          = true)
      ∧ probe_zfs true (image_probe 67108864 (image_one_marker_each 16384))
        = { rc := some 0, fault := none,
            vals := { version := some "5000",
                      magic := some (66977792, 8, [12, 177, 186, 0, 0, 0, 0, 0]) },
            reads := [(0, 262144), (262144, 262144), (66584576, 262144), (66846720, 262144),
                      (66863104, 4096)] } := by
  decide!

/-- C5, amended. On a device image whose size is a multiple of 256 KiB and at least 64 MiB,
with at least one marker in each of the four labels, and with the entries
`name` = "tank", `guid` = 123456789, `pool_guid` = 987654321 in the dictionary of the label `k`
at which the cumulative marker count reaches 4 (at offset 16 KiB of that label), the markers
of that label being in native order, `probe_zfs` returns 0 and records the name "tank", the
sub-identifier "123456789", the pool identifier "987654321" and the version of a native-order
marker of label `k`. -/
theorem probe_detects_tank (le : Bool) (size : Nat) (bytes : Mem) (k : Nat)
    (hs1 : size % VDEV_LABEL_SIZE = 0) (hs2 : ZFS_MINSZ ≤ size)
    (hs3 : size < 18446744073709551616)
    (hnative : ∀ i, i < UBERBLOCKS_COUNT →
      label64 le (image_labels size bytes k) (slot_offset i) ≠ swab64 UBERBLOCK_MAGIC)
    (_hmark : ∀ j, j < 4 → 1 ≤ marker_count le (image_labels size bytes j))
    (hk : k < 4) (hlt : cum_count le (image_labels size bytes) k < ZFS_WANT)
    (hge : ZFS_WANT ≤ cum_count le (image_labels size bytes) (k + 1))
    (hdict : Layout (fun i => bytes (label_off size k + VDEV_LABEL_NVPAIR + i)) 12 tank_entries) :
    (probe_zfs le (image_probe size bytes)).rc = some 0
      ∧ (probe_zfs le (image_probe size bytes)).vals.label = some (cstr "tank")
      ∧ (probe_zfs le (image_probe size bytes)).vals.uuid_sub = some "123456789"
      ∧ (probe_zfs le (image_probe size bytes)).vals.uuid = some "987654321"
      ∧ ∃ i, i < UBERBLOCKS_COUNT
        ∧ label64 le (image_labels size bytes k) (slot_offset i) = UBERBLOCK_MAGIC
        ∧ (probe_zfs le (image_probe size bytes)).vals.version
            = some (fmt_u64 (label64 le (image_labels size bytes k) (slot_offset i + 8))) := by
  simp only [VDEV_LABEL_SIZE, ZFS_MINSZ] at hs1 hs2
  -- the four label offsets lie on the 256 KiB grid, inside the image
  have hoff : ∀ j, j < 4 → label_off size j % 262144 = 0 ∧ label_off size j + 262144 ≤ size := by
    intro j hj
    have hj' : j = 0 ∨ j = 1 ∨ j = 2 ∨ j = 3 := by omega
    rcases hj' with rfl | rfl | rfl | rfl
    · rw [label_off_0]; omega
    · rw [label_off_1]
      exact ⟨by norm_num, by simp only [VDEV_LABEL_SIZE]; omega⟩
    · rw [label_off_2 size (by simp only [VDEV_LABEL_SIZE]; omega) hs3]
      simp only [VDEV_LABEL_SIZE]; omega
    · rw [label_off_3 size (by simp only [VDEV_LABEL_SIZE]; omega) hs3]
      simp only [VDEV_LABEL_SIZE]; omega
  have hread : ∀ j, j ≤ k → (image_probe size bytes).get_buffer
      (label_off (image_probe size bytes).size j) VDEV_LABEL_SIZE
        = .ptr (image_labels size bytes j) := by
    intro j hj
    exact image_probe_read size bytes _ _ (by norm_num) (hoff j (by omega)).2
  obtain ⟨s, i, hscan, hfound, hsoff, hi, hm, -, hub, hsw, -, -⟩ :=
    probe_scan_stops le (image_probe size bytes) (image_labels size bytes) k hk hread hlt hge
  have hsoff' : s.offset = label_off size k := hsoff
  -- the reported marker is in native order
  have hmagic : label64 le (image_labels size bytes k) (slot_offset i) = UBERBLOCK_MAGIC := by
    have hne := hnative i hi
    simp only [is_marker, Bool.or_eq_true, beq_iff_eq] at hm
    rcases hm with h | h
    · exact h
    · exact absurd h hne
  rw [if_neg (hnative i hi)] at hsw
  -- the decoder reads the dictionary of label `k`
  have hnv : nvlist_offset s.offset = label_off size k + VDEV_LABEL_NVPAIR := by
    rw [hsoff']
    exact nvlist_offset_aligned _ (by simp only [VDEV_LABEL_SIZE]; have := hoff k hk; omega)
      (hoff k hk).1
  have hbuf : (image_probe size bytes).get_buffer (nvlist_offset s.offset) SIZEOF_BUFF
      = .ptr (fun i => bytes (label_off size k + VDEV_LABEL_NVPAIR + i)) := by
    rw [hnv]
    exact image_probe_read size bytes _ _ (by norm_num)
      (by simp only [VDEV_LABEL_NVPAIR, SIZEOF_BUFF]; have := hoff k hk; omega)
  have hx := fun v => extract_layout le (image_probe size bytes) s.offset v _ tank_entries hbuf
    rfl hdict (by decide)
  rw [probe_zfs_of_out le _ s hscan,
    probe_finish_of_ub le _ s _ _ (by rw [hfound]; exact Nat.not_lt.mpr hge) hub]
  unfold probe_tail
  simp only [hx, hsw]
  refine ⟨rfl, rfl, rfl, rfl, i, hi, hmagic, rfl⟩

set_option maxRecDepth 100000 in
set_option maxHeartbeats 1000000 in
/-- An instance of `probe_detects_tank`: one marker in each label, the dictionary in label 3,
where the count reaches 4. -/
theorem probe_detects_tank_witness :
    (probe_zfs true (image_probe 67108864 (image_one_marker_each 66863104))).rc = some 0
      ∧ (probe_zfs true (image_probe 67108864 (image_one_marker_each 66863104))).vals.label
          = some (cstr "tank")
      ∧ (probe_zfs true (image_probe 67108864 (image_one_marker_each 66863104))).vals.uuid_sub
          = some "123456789"
      ∧ (probe_zfs true (image_probe 67108864 (image_one_marker_each 66863104))).vals.uuid
          = some "987654321"
      ∧ ∃ i, i < UBERBLOCKS_COUNT
        ∧ label64 true (image_labels 67108864 (image_one_marker_each 66863104) 3) (slot_offset i)
            = UBERBLOCK_MAGIC
        ∧ (probe_zfs true (image_probe 67108864 (image_one_marker_each 66863104))).vals.version
            = some (fmt_u64 (label64 true
                (image_labels 67108864 (image_one_marker_each 66863104) 3) (slot_offset i + 8)))
    := by
  have hcount : ∀ j, j < 4 →
      marker_count true (image_labels 67108864 (image_one_marker_each 66863104) j) = 1 := by
    intro j hj
    rw [← find_uberblocks_found true _ 0 0]
    have hj' : j = 0 ∨ j = 1 ∨ j = 2 ∨ j = 3 := by omega
    rcases hj' with rfl | rfl | rfl | rfl <;> decide!
  have h0 := hcount 0 (by norm_num)
  have h1 := hcount 1 (by norm_num)
  have h2 := hcount 2 (by norm_num)
  have h3 := hcount 3 (by norm_num)
  exact probe_detects_tank true 67108864 (image_one_marker_each 66863104) 3 (by decide)
    (by decide) (by decide) (by decide) (fun j hj => by rw [hcount j hj])
    (by decide) (by simp only [cum_count, h0, h1, h2]; decide)
    (by simp only [cum_count, h0, h1, h2, h3]; decide) (by decide)

/-! ### C6 -/

/-- C6. When the window holds, from byte 12 on, three contiguous well-formed entries keyed
"name" (string `s`), "guid" (value `g`) and "pool_guid" (value `q`), in any order and all
inside the window, `zfs_extract_guid_name` records the volume name `s`, the sub-identifier
`g` in decimal and the pool identifier `q` in decimal. -/
theorem extract_three_entries (le : Bool) (pr : Probe) (offset : Nat) (vals : Vals) (p : Mem)
    (s : List Nat) (g q : Nat) (es : List Entry)
    (hbuf : pr.get_buffer (nvlist_offset offset) SIZEOF_BUFF = .ptr p)
    (hperm : es.Perm [.name s, .guid g, .pool_guid q])
    (hlay : Layout p 12 es) (hin : 12 + totalSize es ≤ 4096) :
    (zfs_extract_guid_name le pr offset vals).1.label = some s
      ∧ (zfs_extract_guid_name le pr offset vals).1.uuid_sub = some (fmt_u64 g)
      ∧ (zfs_extract_guid_name le pr offset vals).1.uuid = some (fmt_u64 q) := by
  have hlen : es.length = 3 := hperm.length_eq
  obtain ⟨s', hrun, hv, hfd, -, -, -⟩ := nvpair_loop_layout le es 4093 (nv_init p vals)
    (by simp only [nv_init]; omega) (by simp only [nv_init, OFFSETOF_NVL_NVPAIR]; omega)
    (by simp only [nv_init, SIZEOF_BUFF]; omega) hlay
  have hfin : (nvpair_loop le SIZEOF_BUFF (nv_init p vals)).1
      = es.foldl Entry.record vals := by
    have h4096 : SIZEOF_BUFF = 4093 + es.length := by rw [hlen]
    rw [h4096, hrun, nvpair_loop_found3 le 4092 s' (by rw [hfd, hlen]; simp [nv_init]), hv]
    rfl
  have hres : (zfs_extract_guid_name le pr offset vals).1 = es.foldl Entry.record vals := by
    unfold zfs_extract_guid_name
    simp only [hbuf]
    exact hfin
  obtain ⟨h1, h2, h3, -⟩ := foldl_record_perm vals s g q es hperm
  rw [hres]
  exact ⟨h1, h2, h3⟩

set_option maxRecDepth 100000 in
/-- An instance of `extract_three_entries`: the entries in the order "guid", "pool_guid",
"name". -/
theorem extract_three_entries_witness :
    (zfs_extract_guid_name true (window_probe window_three) 0 {}).1.label
        = some [116, 97, 110, 107]
      ∧ (zfs_extract_guid_name true (window_probe window_three) 0 {}).1.uuid_sub
        = some "123456789"
      ∧ (zfs_extract_guid_name true (window_probe window_three) 0 {}).1.uuid
        = some "987654321" :=
  extract_three_entries true (window_probe window_three) 0 {} (fun i => window_three.getD i 0)
    [116, 97, 110, 107] 123456789 987654321
    [.guid 123456789, .pool_guid 987654321, .name [116, 97, 110, 107]] rfl (by decide)
    (by decide) (by decide)

/-! ### C7 -/

/-- C7, as stated, fails: a read that fails with `errno` 0 makes `probe_zfs` return 1, the
value it returns for a format mismatch. -/
theorem read_failure_errno_zero : (probe_zfs true (failing_probe 0)).rc = some 1 := by
  decide

/-- C7, amended. When the read of label `k` fails, `probe_zfs` returns at once: the reads
issued are those of labels 0 to `k`, nothing is recorded, and the result is `-errno` when
`errno` is not zero and 1 when it is zero; for a positive `errno` the result differs from the
value 1 of a format mismatch. -/
theorem probe_read_failure (le : Bool) (pr : Probe) (labels : Nat → Mem) (k : Nat) (errno : Int)
    (hk : k < 4)
    (hread : ∀ j, j < k → pr.get_buffer (label_off pr.size j) VDEV_LABEL_SIZE = .ptr (labels j))
    (hcount : cum_count le labels k < ZFS_WANT)
    (hfail : pr.get_buffer (label_off pr.size k) VDEV_LABEL_SIZE = .null errno) :
    (probe_zfs le pr).rc = some (if errno ≠ 0 then -errno else 1)
      ∧ (probe_zfs le pr).fault = none
      ∧ (probe_zfs le pr).vals = {}
      ∧ (probe_zfs le pr).reads
          = (List.range (k + 1)).map (fun j => (label_off pr.size j, VDEV_LABEL_SIZE))
      ∧ (0 < errno → (probe_zfs le pr).rc ≠ some 1) := by
  have hneg : 0 < errno → some (if errno ≠ 0 then -errno else 1) ≠ some (1 : Int) := by
    intro h
    rw [if_pos (by omega)]
    simp only [ne_eq, Option.some.injEq]
    omega
  have hk' : k = 0 ∨ k = 1 ∨ k = 2 ∨ k = 3 := by omega
  unfold probe_zfs
  rcases hk' with rfl | rfl | rfl | rfl
  · rw [probe_scan_fail le pr 3 0 scan_init errno hfail]
    exact ⟨rfl, rfl, rfl, rfl, fun h => hneg h⟩
  · simp only [cum_count, Nat.zero_add] at hcount
    rw [probe_scan_continue le pr 3 0 scan_init (labels 0) (hread 0 (by norm_num))
        (by simp only [scan_init]; omega),
      probe_scan_fail le pr 2 1 _ errno hfail]
    exact ⟨rfl, rfl, rfl, by simp only [scan_label_reads]; rfl, fun h => hneg h⟩
  · simp only [cum_count, Nat.zero_add] at hcount
    rw [probe_scan_continue le pr 3 0 scan_init (labels 0) (hread 0 (by norm_num))
        (by simp only [scan_init]; omega),
      probe_scan_continue le pr 2 1 _ (labels 1) (hread 1 (by norm_num))
        (by simp only [scan_label_found, scan_init]; omega),
      probe_scan_fail le pr 1 2 _ errno hfail]
    exact ⟨rfl, rfl, rfl, by simp only [scan_label_reads]; rfl, fun h => hneg h⟩
  · simp only [cum_count, Nat.zero_add] at hcount
    rw [probe_scan_continue le pr 3 0 scan_init (labels 0) (hread 0 (by norm_num))
        (by simp only [scan_init]; omega),
      probe_scan_continue le pr 2 1 _ (labels 1) (hread 1 (by norm_num))
        (by simp only [scan_label_found, scan_init]; omega),
      probe_scan_continue le pr 1 2 _ (labels 2) (hread 2 (by norm_num))
        (by simp only [scan_label_found, scan_init]; omega),
      probe_scan_fail le pr 0 3 _ errno hfail]
    exact ⟨rfl, rfl, rfl, by simp only [scan_label_reads]; rfl, fun h => hneg h⟩

set_option maxRecDepth 100000 in
/-- An instance of `probe_read_failure`: the read of label 2 fails with `errno` 5. -/
theorem probe_read_failure_witness :
    (probe_zfs true probe_fail_at_two).rc = some (-5)
      ∧ (probe_zfs true probe_fail_at_two).fault = none
      ∧ (probe_zfs true probe_fail_at_two).vals = {}
      ∧ (probe_zfs true probe_fail_at_two).reads
          = [(0, 262144), (262144, 262144), (66584576, 262144)]
      ∧ ((0 : Int) < 5 → (probe_zfs true probe_fail_at_two).rc ≠ some 1) :=
  probe_read_failure true probe_fail_at_two (fun _ _ => 0) 2 5 (by decide)
    (fun j hj => by
      have hj' : j = 0 ∨ j = 1 := by omega
      rcases hj' with rfl | rfl <;> rfl)
    (by decide) rfl

/-! ### C8 -/

/-- C8. On a successful probe the marker that is reported (the slot `ub` points at, whose
magic bytes and offset are recorded) decides the byte-order flag and the version: a
byte-swapped magic gives `swab_endian` = 1 and the version rendered from the swapped
`ub_version`; the magic verbatim gives `swab_endian` = 0 and the version as read. -/
theorem reported_marker_byte_order (le : Bool) (pr : Probe)
    (h : (probe_zfs le pr).rc = some 0) :
    ∃ (s : ScanState) (label : Mem) (j : Nat),
      probe_scan le pr 4 0 scan_init = .out s ∧ j < UBERBLOCKS_COUNT
      ∧ s.ub = some (label, slot_offset j)
      ∧ (probe_zfs le pr).vals.magic
          = some (s.ub_offset, 8, (List.range 8).map (fun k => label (slot_offset j + k) % 256))
      ∧ is_marker le label j = true
      ∧ (label64 le label (slot_offset j) = swab64 UBERBLOCK_MAGIC →
          s.swab_endian = 1 ∧ (probe_zfs le pr).vals.version
            = some (fmt_u64 (swab64 (label64 le label (slot_offset j + 8)))))
      ∧ (label64 le label (slot_offset j) = UBERBLOCK_MAGIC →
          s.swab_endian = 0 ∧ (probe_zfs le pr).vals.version
            = some (fmt_u64 (label64 le label (slot_offset j + 8)))) := by
  cases hscan : probe_scan le pr 4 0 scan_init with
  | ret rc reads =>
    rw [probe_zfs_of_ret le pr rc reads hscan] at h
    simp only [Option.some.injEq] at h
    exact absurd h (probe_scan_ret_ne_zero le pr 4 0 scan_init rc reads hscan)
  | out s =>
    rw [probe_zfs_of_out le pr s hscan] at h ⊢
    have hinv := probe_scan_inv le pr 4 0 scan_init s (scan_init_inv le) hscan
    by_cases hf : s.found < ZFS_WANT
    · rw [probe_finish, if_pos hf] at h
      cases h
    · obtain ⟨label, j, hj, hub, hm, hsw⟩ := hinv (by simp only [ZFS_WANT] at hf; omega)
      rw [probe_finish_of_ub le pr s label _ hf hub] at h ⊢
      have hver := zfs_extract_version le pr s.offset (blkid_probe_sprintf_version {}
        (if s.swab_endian ≠ 0 then swab64 (label64 le label (slot_offset j + 8))
          else label64 le label (slot_offset j + 8)))
      unfold probe_tail at h ⊢
      simp only [] at h ⊢
      cases hx : (zfs_extract_guid_name le pr s.offset (blkid_probe_sprintf_version {}
        (if s.swab_endian ≠ 0 then swab64 (label64 le label (slot_offset j + 8))
          else label64 le label (slot_offset j + 8)))).2.1 with
      | some a =>
        rw [hx] at h
        cases h
      | none =>
        rw [hx] at h
        simp only [] at h ⊢
        by_cases hrc : pr.set_magic_rc ≠ 0
        · rw [if_pos hrc] at h
          cases h
        · rw [if_neg hrc]
          refine ⟨s, label, j, rfl, hj, hub, rfl, hm, ?_, ?_⟩
          · intro hs
            rw [if_pos hs] at hsw
            refine ⟨hsw, ?_⟩
            simp only [hver]
            rw [hsw]
            rfl
          · intro hs
            have hne : label64 le label (slot_offset j) ≠ swab64 UBERBLOCK_MAGIC := by
              rw [hs]; exact magic_ne_swab
            rw [if_neg hne] at hsw
            refine ⟨hsw, ?_⟩
            simp only [hver]
            rw [hsw]
            rfl

set_option maxRecDepth 100000 in
/-- An instance of `reported_marker_byte_order`: four byte-swapped markers in label 0. -/
theorem reported_marker_byte_order_witness :
    ∃ (s : ScanState) (label : Mem) (j : Nat),
      probe_scan true (image_probe 67108864 image_swapped) 4 0 scan_init = .out s
      ∧ j < UBERBLOCKS_COUNT ∧ s.ub = some (label, slot_offset j)
      ∧ (probe_zfs true (image_probe 67108864 image_swapped)).vals.magic
          = some (s.ub_offset, 8, (List.range 8).map (fun k => label (slot_offset j + k) % 256))
      ∧ is_marker true label j = true
      ∧ (label64 true label (slot_offset j) = swab64 UBERBLOCK_MAGIC →
          s.swab_endian = 1 ∧ (probe_zfs true (image_probe 67108864 image_swapped)).vals.version
            = some (fmt_u64 (swab64 (label64 true label (slot_offset j + 8)))))
      ∧ (label64 true label (slot_offset j) = UBERBLOCK_MAGIC →
          s.swab_endian = 0 ∧ (probe_zfs true (image_probe 67108864 image_swapped)).vals.version
            = some (fmt_u64 (label64 true label (slot_offset j + 8)))) :=
  reported_marker_byte_order true (image_probe 67108864 image_swapped) (by decide)

/-! ### C9 -/

set_option maxRecDepth 100000 in
/-- C9: an entry keyed "pool_guid" that declares the total size 37, less than
12 + 12 + 16 = 40, has its value recorded as the pool identifier. -/
theorem short_entry_records :
    be32At (mem_of window_short_size) 12 = 37
      ∧ 37 < SIZEOF_NVPAIR + padded 9 + SIZEOF_NVUINT64
      ∧ step_view true (nv_init (mem_of window_short_size) {})
          = some (49, 4059, 1, { uuid := some "77" })
      ∧ (zfs_extract_guid_name true (window_probe window_short_size) 0 {}).1.uuid
          = some "77" := by
  decide

/-! ### C10 -/

set_option maxRecDepth 100000 in
/-- C10, as stated, fails: the one-byte name "g" is none of the three literals, yet the entry
is counted and its value recorded as the sub-identifier. -/
theorem prefix_key_records :
    bytesAt (mem_of window_prefix_key) 24 (be32At (mem_of window_prefix_key) 20) = [103]
      ∧ [103] ≠ cstr "name" ∧ [103] ≠ cstr "guid" ∧ [103] ≠ cstr "pool_guid"
      ∧ step_view true (nv_init (mem_of window_prefix_key) {})
          = some (44, 4064, 1, { uuid_sub := some "5" }) := by
  decide

/-- C10, amended. An entry that the decoder reaches, that passes the size checks, and whose
name compares unequal to each of the three literals under `strncmp` limited to the name length
is not counted and leaves no value: the step only advances the cursor by the total size of the
entry and lowers the countdown by the same amount. -/
theorem unmatched_key_skipped (le : Bool) (s : NvState) (hleft : s.left > SIZEOF_NVPAIR)
    (hin : (s.nvp : Int) + SIZEOF_NVPAIR ≤ SIZEOF_BUFF)
    (hsize : be32At s.buff s.nvp ≠ 0) (hfound : s.found < 3)
    (hfit : be32At s.buff s.nvp ≤ s.left)
    (havail : 0 ≤ avail_of (be32At s.buff s.nvp) (be32At s.buff (s.nvp + 8)))
    (h1 : strncmp_eq s.buff (s.nvp + 12) (cstr "name") (be32At s.buff (s.nvp + 8)) = .ok false)
    (h2 : strncmp_eq s.buff (s.nvp + 12) (cstr "guid") (be32At s.buff (s.nvp + 8)) = .ok false)
    (h3 : strncmp_eq s.buff (s.nvp + 12) (cstr "pool_guid") (be32At s.buff (s.nvp + 8))
      = .ok false) :
    ∃ s' : NvState, nvpair_step le s = .ok (some s') ∧ s'.vals = s.vals ∧ s'.found = s.found
      ∧ s'.nvp = s.nvp + be32At s.buff s.nvp ∧ s'.left = s.left - be32At s.buff s.nvp := by
  simp only [SIZEOF_NVPAIR, SIZEOF_BUFF, Nat.cast_ofNat] at hleft hin
  refine ⟨_, unknown_key_step le s hleft hin hsize hfound hfit havail h1 h2 h3, rfl, rfl, rfl, ?_⟩
  simp only [nvp_next]
  split <;> omega

set_option maxRecDepth 100000 in
/-- An instance of `unmatched_key_skipped`: an entry keyed "foo". -/
theorem unmatched_key_skipped_witness :
    ∃ s' : NvState, nvpair_step true (nv_init (mem_of window_foo) {}) = .ok (some s')
      ∧ s'.vals = {} ∧ s'.found = 0 ∧ s'.nvp = 12 + 32 ∧ s'.left = 4096 - 32 :=
  unmatched_key_skipped true (nv_init (mem_of window_foo) {}) (by decide) (by decide)
    (by decide) (by decide) (by decide) (by decide) rfl rfl rfl

/-! ### C11 -/

/-- C11. Let the first entry of the window (at byte 12) be keyed "foo", with name length 3 and
a declared total size `t` of at least 15 (header and name), and let a string entry keyed
"name" with string `str` and a declared total size `z` that covers it start at byte 12 + `t`
and end inside the window; the other bytes of the first entry are arbitrary.  Then the first
iteration records nothing and moves the cursor to byte 12 + `t`, and the second iteration
records the volume name `str`.  The result of `zfs_extract_guid_name` is that of the loop
continued from there, and when the size field after the "name" entry is zero the function
returns with the volume name `str` as the only value recorded. -/
theorem unknown_entry_skipped_by_size (le : Bool) (pr : Probe) (offset : Nat) (vals : Vals)
    (p : Mem) (t z : Nat) (str : List Nat)
    (hbuf : pr.get_buffer (nvlist_offset offset) SIZEOF_BUFF = .ptr p)
    (hsize : be32At p 12 = t) (hnamelen : be32At p 20 = 3)
    (hkey : bytesAt p 24 3 = cstr "foo") (hcover : SIZEOF_NVPAIR + 3 ≤ t)
    (hname : NameEntryAt p ((12 + t : Nat) : Int) z str) (hz : 28 + str.length ≤ z)
    (hin : 12 + t + z ≤ SIZEOF_BUFF) :
    ∃ s1 s2 : NvState,
      nvpair_step le (nv_init p vals) = .ok (some s1)
      ∧ s1.nvp = 12 + t ∧ s1.left = SIZEOF_BUFF - t ∧ s1.found = 0 ∧ s1.vals = vals
      ∧ nvpair_step le s1 = .ok (some s2)
      ∧ s2.nvp = 12 + t + z ∧ s2.found = 1
      ∧ s2.vals = blkid_probe_set_label vals str
      ∧ zfs_extract_guid_name le pr offset vals
          = ((nvpair_loop le (SIZEOF_BUFF - 2) s2).1, (nvpair_loop le (SIZEOF_BUFF - 2) s2).2,
             [(nvlist_offset offset, SIZEOF_BUFF)])
      ∧ (12 + t + z + 4 ≤ SIZEOF_BUFF → be32At p ((12 + t + z : Nat) : Int) = 0 →
          zfs_extract_guid_name le pr offset vals
            = (blkid_probe_set_label vals str, none, [(nvlist_offset offset, SIZEOF_BUFF)])) := by
  simp only [SIZEOF_BUFF, SIZEOF_NVPAIR] at hcover hin ⊢
  have hb0 : p (24 : Int).toNat % 256 = 102 := by
    have := congrArg List.head? hkey
    simpa [bytesAt, cstr] using this
  have hnm : cstr "name" = 110 :: [97, 109, 101] := by decide
  have hgd : cstr "guid" = 103 :: [117, 105, 100] := by decide
  have hpg : cstr "pool_guid" = 112 :: [111, 111, 108, 95, 103, 117, 105, 100] := by decide
  have hf1 : strncmp_eq p 24 (cstr "name") 3 = .ok false := by
    rw [hnm]
    exact strncmp_eq_false p 110 _ 3 24 (by norm_num) (by norm_num) (by norm_num)
      (by rw [hb0]; decide)
  have hf2 : strncmp_eq p 24 (cstr "guid") 3 = .ok false := by
    rw [hgd]
    exact strncmp_eq_false p 103 _ 3 24 (by norm_num) (by norm_num) (by norm_num)
      (by rw [hb0]; decide)
  have hf3 : strncmp_eq p 24 (cstr "pool_guid") 3 = .ok false := by
    rw [hpg]
    exact strncmp_eq_false p 112 _ 3 24 (by norm_num) (by norm_num) (by norm_num)
      (by rw [hb0]; decide)
  have a1 : (nv_init p vals).left > 12 := by
    show (4096 : Nat) > 12
    norm_num
  have a2 : (((nv_init p vals).nvp : Nat) : Int) + 12 ≤ 4096 := by
    show ((12 : Nat) : Int) + 12 ≤ 4096
    norm_num
  have a3 : be32At (nv_init p vals).buff (nv_init p vals).nvp ≠ 0 := by
    show be32At p 12 ≠ 0
    omega
  have a4 : (nv_init p vals).found < 3 := by
    show (0 : Nat) < 3
    norm_num
  have a5 : be32At (nv_init p vals).buff (nv_init p vals).nvp ≤ (nv_init p vals).left := by
    show be32At p 12 ≤ 4096
    omega
  have a6 : 0 ≤ avail_of (be32At (nv_init p vals).buff (nv_init p vals).nvp)
      (be32At (nv_init p vals).buff ((nv_init p vals).nvp + 8)) := by
    show 0 ≤ avail_of (be32At p 12) (be32At p 20)
    rw [hsize, hnamelen]
    unfold avail_of
    simp only [SIZEOF_NVPAIR]
    rw [int32_of_range] <;> omega
  have a7 : strncmp_eq (nv_init p vals).buff ((nv_init p vals).nvp + 12) (cstr "name")
      (be32At (nv_init p vals).buff ((nv_init p vals).nvp + 8)) = .ok false := by
    show strncmp_eq p 24 (cstr "name") (be32At p 20) = .ok false
    rw [hnamelen]
    exact hf1
  have a8 : strncmp_eq (nv_init p vals).buff ((nv_init p vals).nvp + 12) (cstr "guid")
      (be32At (nv_init p vals).buff ((nv_init p vals).nvp + 8)) = .ok false := by
    show strncmp_eq p 24 (cstr "guid") (be32At p 20) = .ok false
    rw [hnamelen]
    exact hf2
  have a9 : strncmp_eq (nv_init p vals).buff ((nv_init p vals).nvp + 12) (cstr "pool_guid")
      (be32At (nv_init p vals).buff ((nv_init p vals).nvp + 8)) = .ok false := by
    show strncmp_eq p 24 (cstr "pool_guid") (be32At p 20) = .ok false
    rw [hnamelen]
    exact hf3
  have hstep1 : nvpair_step le (nv_init p vals) = .ok (some (nvp_next (nv_init p vals)
      (st32 le (st32 le p 12 t) 20 3) (nv_init p vals).vals (nv_init p vals).found t)) := by
    have h := unknown_key_step le (nv_init p vals) a1 a2 a3 a4 a5 a6 a7 a8 a9
    rw [h]
    show Except.ok (some (nvp_next (nv_init p vals)
      (st32 le (st32 le p 12 (be32At p 12)) 20 (be32At p 20)) _ _ (be32At p 12))) = _
    rw [hsize, hnamelen]
  generalize hs1 : nvp_next (nv_init p vals) (st32 le (st32 le p 12 t) 20 3)
    (nv_init p vals).vals (nv_init p vals).found t = s1 at hstep1
  have hs1nvp : s1.nvp = 12 + t := by rw [← hs1]; rfl
  have hs1left : s1.left = 4096 - t := by
    rw [← hs1]
    show (if 4096 > t then 4096 - t else 0) = 4096 - t
    rw [if_pos (by omega)]
  have hs1found : s1.found = 0 := by rw [← hs1]; rfl
  have hs1vals : s1.vals = vals := by rw [← hs1]; rfl
  have hs1buff : ∀ i : Nat, 24 ≤ i → s1.buff i = p i := by
    intro i hi
    rw [← hs1]
    show st32 le (st32 le p 12 t) 20 3 i = p i
    rw [st32_frame le _ 20 3 i (by omega), st32_frame le _ 12 t i (by omega)]
  have hE : NameEntryAt s1.buff s1.nvp z str := by
    rw [hs1nvp]
    exact nameEntryAt_congr p s1.buff _ z str (by omega) (fun i hi => hs1buff i (by omega)) hname
  obtain ⟨B, hstep2, hB⟩ := name_entry_step_sized le s1 z str (by omega) hz (by omega)
    (by omega) hE
  generalize hs2 : nvp_next s1 B (blkid_probe_set_label s1.vals str) (s1.found + 1) z = s2
    at hstep2
  have hs2nvp : s2.nvp = 12 + t + z := by rw [← hs2, ← hs1nvp]; rfl
  have hs2found : s2.found = 1 := by rw [← hs2]; show s1.found + 1 = 1; rw [hs1found]
  have hs2vals : s2.vals = blkid_probe_set_label vals str := by rw [← hs2, ← hs1vals]; rfl
  have hs2buff : ∀ i : Nat, 12 + t + z ≤ i → s2.buff i = p i := by
    intro i hi
    rw [← hs2]
    show B i = p i
    rw [hB i (by omega), hs1buff i (by omega)]
  have hsteps : nvpair_steps le 2 (nv_init p vals) = some s2 := by
    rw [nvpair_steps_succ, hstep1]
    exact nvpair_steps_one le s1 s2 hstep2
  have hloop : nvpair_loop le 4096 (nv_init p vals) = nvpair_loop le (4096 - 2) s2 :=
    nvpair_steps_loop le 2 _ s2 hsteps 4094
  refine ⟨s1, s2, hstep1, hs1nvp, hs1left, hs1found, hs1vals, hstep2, hs2nvp, hs2found, hs2vals,
    ?_, ?_⟩
  · rw [zfs_extract_of_ptr le pr offset vals p hbuf]
    show (_, _, _) = _
    rw [hloop]
  · intro hfit hzero
    have hend : nvpair_step le s2 = .ok none := by
      apply nvpair_step_zero le s2 (by omega)
      rw [← hzero, hs2nvp]
      exact be32At_congr _ _ _ (by omega) (fun i h1 _ => hs2buff i (by omega))
    rw [zfs_extract_of_ptr le pr offset vals p hbuf,
      nvpair_loop_of_steps le p vals 2 s2 hsteps hend, hs2vals]

set_option maxRecDepth 100000 in
/-- An instance of `unknown_entry_skipped_by_size`: an entry keyed "foo" of total size 32 with
sixteen value bytes 255, followed by the entry "name" = "zroot" of total size 36 and a zero
size field. -/
theorem unknown_entry_skipped_by_size_witness :
    zfs_extract_guid_name true (window_probe window_foo_name) 0 {}
      = (blkid_probe_set_label {} (cstr "zroot"), none, [(nvlist_offset 0, SIZEOF_BUFF)]) := by
  obtain ⟨s1, s2, -, -, -, -, -, -, -, -, -, -, h⟩ :=
    unknown_entry_skipped_by_size true (window_probe window_foo_name) 0 {}
      (mem_of window_foo_name) 32 36 (cstr "zroot") rfl (by decide) (by decide) (by decide)
      (by decide) (by decide) (by decide) (by decide)
  exact h (by decide) (by decide)

/-! ### C12 -/

set_option maxRecDepth 100000 in
/-- C12: after an entry of total size 4080 the cursor is at index 4092 and the countdown is
16; the size field there, the last four bytes of the window, declares 4096, above the
countdown and above the window.  The loop does not end at the checks of line 105 without
error: before them, line 101 loads and stores `nvp->nvp_namelen` at `buff[4100..4103]`, so
the run leaves the array at index 4100, on either host byte order. -/
theorem oversize_header_past_window :
    step_view true (nv_init (mem_of window_oversize_at_end) {}) = some (4092, 16, 0, {})
      ∧ be32At (mem_of window_oversize_at_end) 4092 = 4096
      ∧ zfs_extract_guid_name true (window_probe window_oversize_at_end) 0 {}
          = ({}, some 4100, [(16384, 4096)])
      ∧ zfs_extract_guid_name false (window_probe window_oversize_at_end) 0 {}
          = ({}, some 4100, [(16384, 4096)]) := by
  decide

/-! ### C13 -/

/-- C13. For every device, the reads issued by `probe_zfs` are the reads of labels 0, 1, ... in
this order, each of 256 KiB at the offset of its label, up to some label, followed by at most
one read of 4096 bytes, the dictionary read of the decoder: at most 5 reads in all.  When the
reads of labels 0 to `k` succeed and the cumulative number of matching slots first reaches 4
at label `k`, the reads are exactly those of labels 0 to `k` and the dictionary read at label
`k`: no later label is read. -/
theorem probe_reads_in_order (le : Bool) (pr : Probe) :
    ((∃ m, m ≤ 4 ∧ (probe_zfs le pr).reads
          = (List.range m).map (fun j => (label_off pr.size j, VDEV_LABEL_SIZE)))
        ∨ (∃ k, k < 4 ∧ (probe_zfs le pr).reads
            = (List.range (k + 1)).map (fun j => (label_off pr.size j, VDEV_LABEL_SIZE))
              ++ [(nvlist_offset (label_off pr.size k), SIZEOF_BUFF)]))
      ∧ (probe_zfs le pr).reads.length ≤ 5
      ∧ (∀ (labels : Nat → Mem) (k : Nat), k < 4 →
          (∀ j, j ≤ k → pr.get_buffer (label_off pr.size j) VDEV_LABEL_SIZE = .ptr (labels j)) →
          cum_count le labels k < ZFS_WANT → ZFS_WANT ≤ cum_count le labels (k + 1) →
          (probe_zfs le pr).reads
            = (List.range (k + 1)).map (fun j => (label_off pr.size j, VDEV_LABEL_SIZE))
              ++ [(nvlist_offset (label_off pr.size k), SIZEOF_BUFF)]) := by
  refine ⟨probe_zfs_reads_form le pr, ?_, ?_⟩
  · rcases probe_zfs_reads_form le pr with ⟨m, hm, h⟩ | ⟨k, hk, h⟩
    · rw [h, List.length_map, List.length_range]
      omega
    · rw [h, List.length_append, List.length_map, List.length_range]
      simp only [List.length_singleton]
      omega
  · intro labels k hk hread hlt hge
    obtain ⟨s, j, hs, hfound, hoff, _, _, _, hub, _, _, hreads⟩ :=
      probe_scan_stops le pr labels k hk hread hlt hge
    have hf : ¬ s.found < ZFS_WANT := by rw [hfound]; omega
    rw [probe_zfs_of_out le pr s hs, probe_finish_of_ub le pr s _ _ hf hub, probe_tail_reads,
      hreads, hoff]

set_option maxRecDepth 100000 in
/-- An instance of `probe_reads_in_order`: with four markers in label 0, that label and its
dictionary are the only reads. -/
theorem probe_reads_in_order_witness :
    (probe_zfs true (image_probe 67108864 image_swapped)).reads
      = [(0, 256 * 1024), (16 * 1024, 4096)] := by
  have h0 : marker_count true (image_labels 67108864 image_swapped 0) = 4 := by
    rw [← find_uberblocks_found true _ 0 0]; decide!
  exact (probe_reads_in_order true (image_probe 67108864 image_swapped)).2.2
    (image_labels 67108864 image_swapped) 0 (by decide)
    (fun j hj => by
      have hj' : j = 0 := by omega
      subst hj'
      rfl)
    (by decide) (by simp only [cum_count, h0]; decide)

/-! ### C14 -/

/-- C14. Whenever the label loop of `probe_zfs` ends with a cumulative count of at least 4, it
ended by the `break` in the iteration for some label `k`, the last label read, which holds at
least one matching slot and at which the count passed from below 4 to 4 or more.  The pointer
`ub` is assigned and refers to slot `i` of that label, the highest slot whose magic is
`0x00bab10c` in one of the two byte orders, and `ub_offset` is the offset `L` of label `k` plus
128 KiB + 1024 * `i` (in 64-bit arithmetic, and exactly so when `L` + 256 KiB does not exceed
2^64).  When the probe returns 0, the signature location recorded is the 8 bytes of that
magic field at `ub_offset`. -/
theorem threshold_passed_by_break (le : Bool) (pr : Probe) (s : ScanState)
    (hscan : probe_scan le pr 4 0 scan_init = .out s) (hwant : ZFS_WANT ≤ s.found) :
    ∃ (k : Nat) (label : Mem) (i : Nat) (s0 : ScanState), k < 4
      ∧ pr.get_buffer (label_off pr.size k) VDEV_LABEL_SIZE = .ptr label
      ∧ s.reads = (List.range (k + 1)).map (fun j => (label_off pr.size j, VDEV_LABEL_SIZE))
      ∧ s = scan_label le s0 (label_off pr.size k) label
      ∧ s0.found < ZFS_WANT ∧ 0 < marker_count le label
      ∧ s.offset = label_off pr.size k
      ∧ i < UBERBLOCKS_COUNT
      ∧ s.ub = some (label, VDEV_LABEL_UBERBLOCK + UBERBLOCK_SIZE * i)
      ∧ (label64 le label (VDEV_LABEL_UBERBLOCK + UBERBLOCK_SIZE * i) = UBERBLOCK_MAGIC
          ∨ label64 le label (VDEV_LABEL_UBERBLOCK + UBERBLOCK_SIZE * i)
              = swab64 UBERBLOCK_MAGIC)
      ∧ (∀ j, i < j → j < UBERBLOCKS_COUNT →
          ¬ (label64 le label (VDEV_LABEL_UBERBLOCK + UBERBLOCK_SIZE * j) = UBERBLOCK_MAGIC
            ∨ label64 le label (VDEV_LABEL_UBERBLOCK + UBERBLOCK_SIZE * j)
                = swab64 UBERBLOCK_MAGIC))
      ∧ s.ub_offset = (label_off pr.size k + VDEV_LABEL_UBERBLOCK + UBERBLOCK_SIZE * i)
          % 18446744073709551616
      ∧ (label_off pr.size k + VDEV_LABEL_SIZE ≤ 18446744073709551616 →
          s.ub_offset = label_off pr.size k + VDEV_LABEL_UBERBLOCK + UBERBLOCK_SIZE * i)
      ∧ ((probe_zfs le pr).rc = some 0 → (probe_zfs le pr).vals.magic
          = some (s.ub_offset, 8, (List.range 8).map
              (fun n => label (VDEV_LABEL_UBERBLOCK + UBERBLOCK_SIZE * i + n) % 256))) := by
  obtain ⟨_, hbr⟩ := probe_scan_out le pr 4 0 scan_init s (by omega) hscan
  obtain ⟨s0, label, k, _, hk, hbuf, hpos, hf0, hsl, hrd⟩ := hbr (by decide) hwant
  obtain ⟨i, hi, hm, hlast, hub, _, huo⟩ := scan_label_pos le s0 (label_off pr.size k) label hpos
  rw [← hsl] at hub huo
  have hdec := is_marker_eq le label
  have hub' : s.ub = some (label, VDEV_LABEL_UBERBLOCK + UBERBLOCK_SIZE * i) := hub
  have huo' : s.ub_offset = (label_off pr.size k + VDEV_LABEL_UBERBLOCK + UBERBLOCK_SIZE * i)
      % 18446744073709551616 := by
    rw [huo, slot_offset]
    congr 1
    omega
  refine ⟨k, label, i, s0, hk, hbuf, ?_, hsl, hf0, hpos, ?_, hi, hub', ?_, ?_, huo', ?_, ?_⟩
  · rw [hrd, List.range_eq_range']
    have : k + 1 - 0 = k + 1 := by omega
    rw [this]
    rfl
  · rw [hsl, scan_label_offset]
  · rw [hdec] at hm
    exact of_decide_eq_true hm
  · intro j hij hj
    have := hlast j hij hj
    rw [hdec] at this
    exact of_decide_eq_false this
  · intro hfit
    rw [huo']
    apply Nat.mod_eq_of_lt
    have : i < 128 := hi
    simp only [VDEV_LABEL_UBERBLOCK, UBERBLOCK_SIZE, VDEV_LABEL_SIZE] at hfit ⊢
    omega
  · intro hrc
    have hf : ¬ s.found < ZFS_WANT := by omega
    rw [probe_zfs_of_out le pr s hscan, probe_finish_of_ub le pr s _ _ hf hub'] at hrc ⊢
    exact probe_tail_magic le pr s label _ hrc

set_option maxRecDepth 100000 in
/-- An instance of `threshold_passed_by_break`: one marker in slot 0 of each label of a 64 MiB
image, so that the count reaches 4 at label 3. -/
theorem threshold_passed_by_break_witness :
    ∃ (s : ScanState) (k : Nat) (label : Mem) (i : Nat),
      probe_scan true (image_probe 67108864 (image_one_marker_each 66863104)) 4 0 scan_init
        = .out s
      ∧ ZFS_WANT ≤ s.found ∧ k < 4
      ∧ (image_probe 67108864 (image_one_marker_each 66863104)).get_buffer
          (label_off 67108864 k) VDEV_LABEL_SIZE = .ptr label
      ∧ s.offset = label_off 67108864 k
      ∧ s.ub = some (label, VDEV_LABEL_UBERBLOCK + UBERBLOCK_SIZE * i)
      ∧ s.ub_offset = label_off 67108864 k + VDEV_LABEL_UBERBLOCK + UBERBLOCK_SIZE * i := by
  have hcount : ∀ j, j < 4 →
      marker_count true (image_labels 67108864 (image_one_marker_each 66863104) j) = 1 := by
    intro j hj
    rw [← find_uberblocks_found true _ 0 0]
    have hj' : j = 0 ∨ j = 1 ∨ j = 2 ∨ j = 3 := by omega
    rcases hj' with rfl | rfl | rfl | rfl <;> decide!
  have h0 := hcount 0 (by norm_num)
  have h1 := hcount 1 (by norm_num)
  have h2 := hcount 2 (by norm_num)
  have h3 := hcount 3 (by norm_num)
  obtain ⟨s, j, hs, hfound, _⟩ :=
    probe_scan_stops true (image_probe 67108864 (image_one_marker_each 66863104))
      (image_labels 67108864 (image_one_marker_each 66863104)) 3 (by decide)
      (fun j hj => by
        have hj' : j = 0 ∨ j = 1 ∨ j = 2 ∨ j = 3 := by omega
        rcases hj' with rfl | rfl | rfl | rfl <;> rfl)
      (by simp only [cum_count, h0, h1, h2]; decide)
      (by simp only [cum_count, h0, h1, h2, h3]; decide)
  have hwant : ZFS_WANT ≤ s.found := by
    rw [hfound]; simp only [cum_count, h0, h1, h2, h3]; decide
  obtain ⟨k, label, i, s0, hk, hbuf, _, _, _, _, hso, _, hub, _, _, _, hex, _⟩ :=
    threshold_passed_by_break true (image_probe 67108864 (image_one_marker_each 66863104)) s hs
      hwant
  exact ⟨s, k, label, i, hs, hwant, hk, hbuf, hso, hub,
    hex (le_trans (label_off_aligned 67108864 k (by decide) (by decide) hk).2 (by decide))⟩

/-! ### C15 -/

/-- C15. For every probe with return value 0 of a device of at least 64 MiB (a `uint64_t` size),
the label loop ended at some label `k`, the label in which the count reached 4 and in which the
reported marker lies.  The reads of the probe are those of labels 0 to `k` followed by the one
read of the decoder, of 4096 bytes at the offset of label `k` plus 16 KiB.  The offset of
label `k` is a multiple of 256 KiB, so masking it with `~(VDEV_LABEL_SIZE - 1)` leaves it
unchanged. -/
theorem dictionary_read_location (le : Bool) (pr : Probe) (hmin : ZFS_MINSZ ≤ pr.size)
    (hmax : pr.size < 18446744073709551616) (hrc : (probe_zfs le pr).rc = some 0) :
    ∃ (s s0 : ScanState) (k : Nat) (label : Mem) (i : Nat),
      probe_scan le pr 4 0 scan_init = .out s ∧ k < 4
      ∧ pr.get_buffer (label_off pr.size k) VDEV_LABEL_SIZE = .ptr label
      ∧ s = scan_label le s0 (label_off pr.size k) label
      ∧ s0.found < ZFS_WANT ∧ ZFS_WANT ≤ s0.found + marker_count le label
      ∧ i < UBERBLOCKS_COUNT ∧ s.ub = some (label, slot_offset i)
      ∧ (probe_zfs le pr).vals.magic = some (label_off pr.size k + slot_offset i, 8,
          (List.range 8).map (fun n => label (slot_offset i + n) % 256))
      ∧ (∀ vals, (zfs_extract_guid_name le pr s.offset vals).2.2
          = [(label_off pr.size k + VDEV_LABEL_NVPAIR, SIZEOF_BUFF)])
      ∧ (probe_zfs le pr).reads
          = (List.range (k + 1)).map (fun j => (label_off pr.size j, VDEV_LABEL_SIZE))
            ++ [(label_off pr.size k + VDEV_LABEL_NVPAIR, SIZEOF_BUFF)]
      ∧ label_off pr.size k % VDEV_LABEL_SIZE = 0
      ∧ label_off pr.size k &&& (18446744073709551615 - (VDEV_LABEL_SIZE - 1))
          = label_off pr.size k := by
  cases hs : probe_scan le pr 4 0 scan_init with
  | ret rc reads =>
    rw [probe_zfs_of_ret le pr rc reads hs] at hrc
    have hne := probe_scan_ret_ne_zero le pr 4 0 scan_init rc reads hs
    injection hrc with hrc
    exact absurd hrc hne
  | out s =>
    have hrc0 := hrc
    rw [probe_zfs_of_out le pr s hs] at hrc
    have hf : ¬ s.found < ZFS_WANT := by
      intro hf
      unfold probe_finish at hrc
      rw [if_pos hf] at hrc
      cases hrc
    obtain ⟨_, hbr⟩ := probe_scan_out le pr 4 0 scan_init s (by omega) hs
    obtain ⟨s0, label, k, _, hk, hbuf, hpos, hf0, hsl, hrd⟩ :=
      hbr (by decide) (by simp only [ZFS_WANT] at hf ⊢; omega)
    obtain ⟨i, hi, _, _, hub, _, huo⟩ := scan_label_pos le s0 (label_off pr.size k) label hpos
    rw [← hsl] at hub huo
    have hso : s.offset = label_off pr.size k := by rw [hsl, scan_label_offset]
    obtain ⟨hal, hfit⟩ := label_off_aligned pr.size k hmin hmax hk
    have hfit64 : label_off pr.size k + VDEV_LABEL_SIZE ≤ 18446744073709551616 := by omega
    have hnv : nvlist_offset (label_off pr.size k) = label_off pr.size k + VDEV_LABEL_NVPAIR :=
      nvlist_offset_aligned _ hfit64 hal
    have hge : ZFS_WANT ≤ s0.found + marker_count le label := by
      have : s.found = s0.found + marker_count le label := by rw [hsl, scan_label_found]
      simp only [ZFS_WANT] at hf ⊢
      omega
    have huo' : s.ub_offset = label_off pr.size k + slot_offset i := by
      rw [huo]
      have : i < 128 := hi
      rw [Nat.mod_eq_of_lt]
      · omega
      · simp only [slot_offset, VDEV_LABEL_UBERBLOCK, UBERBLOCK_SIZE, VDEV_LABEL_SIZE] at hfit64 ⊢
        omega
    refine ⟨s, s0, k, label, i, rfl, hk, hbuf, hsl, hf0, hge, hi, hub, ?_, ?_, ?_, hal, ?_⟩
    · rw [probe_finish_of_ub le pr s _ _ hf hub] at hrc
      rw [probe_zfs_of_out le pr s hs, probe_finish_of_ub le pr s _ _ hf hub,
        probe_tail_magic le pr s label _ hrc, huo']
    · intro vals
      rw [zfs_extract_reads, hso, hnv]
    · rw [probe_zfs_of_out le pr s hs, probe_finish_of_ub le pr s _ _ hf hub, probe_tail_reads,
        hso, hnv, hrd, List.range_eq_range']
      have : k + 1 - 0 = k + 1 := by omega
      rw [this]
      rfl
    · rw [and_label_mask _ (by omega)]
      simp only [VDEV_LABEL_SIZE] at hal
      omega

set_option maxRecDepth 100000 in
set_option maxHeartbeats 1000000 in
/-- An instance of `dictionary_read_location`: four byte-swapped markers in label 0 of a 64 MiB
image; the decoder reads 4096 bytes at offset 16 KiB. -/
theorem dictionary_read_location_witness :
    ∃ (s : ScanState) (k : Nat),
      probe_scan true (image_probe 67108864 image_swapped) 4 0 scan_init = .out s ∧ k < 4
      ∧ (probe_zfs true (image_probe 67108864 image_swapped)).reads
          = (List.range (k + 1)).map (fun j => (label_off 67108864 j, VDEV_LABEL_SIZE))
            ++ [(label_off 67108864 k + VDEV_LABEL_NVPAIR, SIZEOF_BUFF)]
      ∧ label_off 67108864 k % VDEV_LABEL_SIZE = 0 := by
  obtain ⟨s, s0, k, label, i, hs, hk, _, _, _, _, _, _, _, _, hreads, hal, _⟩ :=
    dictionary_read_location true (image_probe 67108864 image_swapped) (by decide) (by decide)
      (by decide!)
  exact ⟨s, k, hs, hk, hreads, hal⟩

/-! ### C16 -/

/-- C16. For every device size `size` with 64 MiB ≤ `size` < 2^63 (and whatever value the
variable `offset` held before), the `switch` of `probe_zfs` computes the label offsets 0,
256 KiB, `size` - (`size` mod 256 KiB) - 512 KiB and `size` - (`size` mod 256 KiB) - 256 KiB,
the subtractions taken in the integers.  Each is a multiple of 256 KiB whose 256 KiB window
ends at or before `size`, and each window ends at or before the start of the next. -/
theorem label_offsets_layout (size o : Nat) (hmin : ZFS_MINSZ ≤ size)
    (hmax : size < 9223372036854775808) :
    label_offset size o 0 = 0
      ∧ label_offset size o 1 = 256 * 1024
      ∧ ((label_offset size o 2 : Nat) : Int)
          = (size : Int) - ((size % (256 * 1024) : Nat) : Int) - 512 * 1024
      ∧ ((label_offset size o 3 : Nat) : Int)
          = (size : Int) - ((size % (256 * 1024) : Nat) : Int) - 256 * 1024
      ∧ (∀ k, k < 4 → label_offset size o k % (256 * 1024) = 0
          ∧ label_offset size o k + VDEV_LABEL_SIZE ≤ size)
      ∧ (∀ j k, j < k → k < 4 →
          label_offset size o j + VDEV_LABEL_SIZE ≤ label_offset size o k) := by
  simp only [ZFS_MINSZ] at hmin
  have h0 : label_offset size o 0 = 0 := rfl
  have h1 : label_offset size o 1 = 262144 := rfl
  have h2 : label_offset size o 2 = size - size % 262144 - 524288 := by
    show (size + 18446744073709551616 - 2 * VDEV_LABEL_SIZE - size % (256 * 1024))
      % 18446744073709551616 = _
    simp only [VDEV_LABEL_SIZE]
    omega
  have h3 : label_offset size o 3 = size - size % 262144 - 262144 := by
    show (size + 18446744073709551616 - VDEV_LABEL_SIZE - size % (256 * 1024))
      % 18446744073709551616 = _
    simp only [VDEV_LABEL_SIZE]
    omega
  simp only [VDEV_LABEL_SIZE]
  refine ⟨h0, h1, ?_, ?_, ?_, ?_⟩
  · rw [h2]; omega
  · rw [h3]; omega
  · intro k hk
    have : k = 0 ∨ k = 1 ∨ k = 2 ∨ k = 3 := by omega
    rcases this with rfl | rfl | rfl | rfl
    · rw [h0]; omega
    · rw [h1]; omega
    · rw [h2]; omega
    · rw [h3]; omega
  · intro j k hjk hk
    have hk' : k = 1 ∨ k = 2 ∨ k = 3 := by omega
    rcases hk' with rfl | rfl | rfl
    · have : j = 0 := by omega
      subst this; rw [h0, h1]
    · have : j = 0 ∨ j = 1 := by omega
      rcases this with rfl | rfl
      · rw [h0, h2]; omega
      · rw [h1, h2]; omega
    · have : j = 0 ∨ j = 1 ∨ j = 2 := by omega
      rcases this with rfl | rfl | rfl
      · rw [h0, h3]; omega
      · rw [h1, h3]; omega
      · rw [h2, h3]; omega

/-- An instance of `label_offsets_layout`: a device of 100000000 bytes, whose size is 123136
bytes above a multiple of 256 KiB. -/
theorem label_offsets_layout_witness :
    ((label_offset 100000000 0 2 : Nat) : Int) = 100000000 - 123136 - 512 * 1024
      ∧ ((label_offset 100000000 0 3 : Nat) : Int) = 100000000 - 123136 - 256 * 1024
      ∧ label_offset 100000000 0 3 + VDEV_LABEL_SIZE ≤ 100000000 :=
  ⟨(label_offsets_layout 100000000 0 (by decide) (by decide)).2.2.1,
    (label_offsets_layout 100000000 0 (by decide) (by decide)).2.2.2.1,
    ((label_offsets_layout 100000000 0 (by decide) (by decide)).2.2.2.2.1 3 (by decide)).2⟩

/-! ### C17 -/

/-- C17. In every iteration that continues the decode loop, an entry whose name compares equal
to one of the three keys raises the counter `found` by one, whether or not a value is
recorded.  Once the counter has reached 3 no further iteration runs and nothing more is
recorded.  So when three well-formed string entries keyed "name" are followed by a
well-formed "guid" entry, all inside the window, the function returns with the last of the
three names as the only value recorded: no sub-identifier. -/
theorem known_key_counted_up_to_three (le : Bool) :
    (∀ s s', nvpair_step le s = .ok (some s') → known_key s → s'.found = s.found + 1)
      ∧ (∀ s, 3 ≤ s.found →
          (∀ s', nvpair_step le s ≠ .ok (some s')) ∧ ∀ fuel, (nvpair_loop le fuel s).1 = s.vals)
      ∧ (∀ (pr : Probe) (offset : Nat) (vals : Vals) (p : Mem) (a b c : List Nat) (g : Nat),
          pr.get_buffer (nvlist_offset offset) SIZEOF_BUFF = .ptr p →
          Layout p 12 [.name a, .name b, .name c, .guid g] →
          12 + totalSize [.name a, .name b, .name c, .guid g] ≤ SIZEOF_BUFF →
          (zfs_extract_guid_name le pr offset vals).1 = blkid_probe_set_label vals c
            ∧ (zfs_extract_guid_name le pr offset vals).1.uuid_sub = vals.uuid_sub) := by
  refine ⟨fun s s' h => (nvpair_step_next le s s' h).2.1, ?_, ?_⟩
  · intro s hs
    refine ⟨?_, ?_⟩
    · intro s' h
      rcases nvpair_step_found3 le s hs with h' | ⟨a, h'⟩ <;> rw [h'] at h <;> cases h
    · intro fuel
      cases fuel with
      | zero => rfl
      | succ n => exact nvpair_loop_found3 le n s hs
  · intro pr offset vals p a b c g hbuf hlay hin
    have hlay3 : Layout (nv_init p vals).buff (nv_init p vals).nvp [.name a, .name b, .name c] := by
      obtain ⟨h1, h2, h3, -⟩ := hlay
      exact ⟨h1, h2, h3, trivial⟩
    have hsz := size_ge (.guid g)
    have hts : totalSize [.name a, .name b, .name c, .guid g]
        = totalSize [.name a, .name b, .name c] + Entry.size (.guid g) := by
      simp only [totalSize]
      omega
    rw [hts] at hin
    simp only [SIZEOF_BUFF] at hin
    obtain ⟨s', hloop, hvals, hfound, -⟩ := nvpair_loop_layout le [.name a, .name b, .name c]
      4093 (nv_init p vals) (by show 0 + 3 ≤ 3; norm_num)
      (by show 12 + totalSize [.name a, .name b, .name c] ≤ 4096; omega)
      (by show totalSize [.name a, .name b, .name c] ≤ 4096; omega) hlay3
    have hf3 : 3 ≤ s'.found := by rw [hfound]; show 3 ≤ 0 + 3; norm_num
    have hloop' : nvpair_loop le 4096 (nv_init p vals) = nvpair_loop le 4093 s' := hloop
    have hres : (nvpair_loop le SIZEOF_BUFF (nv_init p vals)).1 = blkid_probe_set_label vals c := by
      simp only [SIZEOF_BUFF]
      rw [hloop', nvpair_loop_found3 le 4092 s' hf3, hvals]
      rfl
    rw [zfs_extract_of_ptr le pr offset vals p hbuf]
    dsimp only
    rw [hres]
    exact ⟨rfl, rfl⟩

set_option maxRecDepth 100000 in
/-- An instance of `known_key_counted_up_to_three`: after three entries keyed "name" the
entry keyed "guid" leaves no sub-identifier; and an entry keyed "guid" with the type tag of a
string is counted without a value, so that after three of them a valid "guid" entry leaves
no sub-identifier either. -/
theorem known_key_counted_up_to_three_witness :
    ((zfs_extract_guid_name true (window_probe window_three_names) 0 {}).1
        = blkid_probe_set_label {} [99]
      ∧ (zfs_extract_guid_name true (window_probe window_three_names) 0 {}).1.uuid_sub = none)
      ∧ step_view true (nv_init (mem_of window_wrong_tags) {}) = some (44, 4064, 1, {})
      ∧ (zfs_extract_guid_name true (window_probe window_wrong_tags) 0 {}).1 = {} :=
  ⟨(known_key_counted_up_to_three true).2.2 (window_probe window_three_names) 0 {}
      (mem_of window_three_names) [97] [98] [99] 5 rfl (by decide) (by decide),
    by decide, by decide⟩

/-! ### C18 -/

/-- C18. For every label buffer, `find_uberblocks` returns the number of slot indices `i`
below 128 for which the eight bytes at label offset 128 KiB + 1024 * `i`, read in host order,
equal `0x00bab10c` or its 64-bit byte swap.  The two constants differ, an iteration adds one for
a matching slot and nothing otherwise, and the result is at most 128. -/
theorem find_uberblocks_counts (le : Bool) (label : Mem) (o : Nat) (e : Int) :
    (find_uberblocks le label o e).found
        = (List.range UBERBLOCKS_COUNT).countP (fun i => decide
            (label64 le label (VDEV_LABEL_UBERBLOCK + UBERBLOCK_SIZE * i) = UBERBLOCK_MAGIC
              ∨ label64 le label (VDEV_LABEL_UBERBLOCK + UBERBLOCK_SIZE * i)
                  = swab64 UBERBLOCK_MAGIC))
      ∧ UBERBLOCK_MAGIC ≠ swab64 UBERBLOCK_MAGIC
      ∧ (∀ (offset : Nat) (s : UbScan),
          (find_uberblocks_body le label offset s).found
            = s.found + (if label64 le label offset = UBERBLOCK_MAGIC
                ∨ label64 le label offset = swab64 UBERBLOCK_MAGIC then 1 else 0))
      ∧ (find_uberblocks le label o e).found ≤ 128 := by
  refine ⟨?_, magic_ne_swab, find_uberblocks_body_found le label, ?_⟩
  · rw [find_uberblocks_found, marker_count, is_marker_eq]
  · rw [find_uberblocks_found]
    exact marker_count_le le label

/-! ### C19 -/

/-- C19. For every window the decode loop of `zfs_extract_guid_name` terminates: the result of
the run does not change when more than `sizeof(buff)` evaluations of the loop condition are
allowed, and the loop body is executed at most 4084 times, fewer than 4096.  Every iteration
that continues the loop entered the body, and with `size` the value of `nvp->nvp_size` read at
lines 160-163, which is non-zero, it moves the cursor by `size` and lowers `left` by `size`,
or sets it to 0 when `left` is not above `size`; in both cases `left` becomes smaller. -/
theorem decode_loop_terminates (le : Bool) (p : Mem) (vals : Vals) :
    (∀ n, nvpair_loop le (SIZEOF_BUFF + n) (nv_init p vals)
        = nvpair_loop le SIZEOF_BUFF (nv_init p vals))
      ∧ (∀ fuel, body_runs le fuel (nv_init p vals) ≤ 4084)
      ∧ (∀ s s', nvpair_step le s = .ok (some s') →
          enters_body le s = true
          ∧ ∃ size, size ≠ 0 ∧ ld32 le s'.buff s.nvp = .ok size ∧ s'.nvp = s.nvp + size
            ∧ s'.left = (if s.left > size then s.left - size else 0)
            ∧ s'.left < s.left) := by
  refine ⟨nvpair_loop_total le p vals, ?_, ?_⟩
  · intro fuel
    have h := body_runs_le le fuel (nv_init p vals)
    have hl : (nv_init p vals).left = 4096 := rfl
    rw [hl] at h
    exact h
  · intro s s' h
    obtain ⟨⟨size, h0, h1, h2, h3⟩, -, -⟩ := nvpair_step_next le s s' h
    exact ⟨nvpair_step_enters le s s' h, size, h0, h1, h2, h3, nvpair_step_left le s s' h⟩

set_option maxRecDepth 100000 in
/-- An instance of `decode_loop_terminates`: on `window_tank` the loop body runs three
times. -/
theorem decode_loop_terminates_witness :
    body_runs true 4096 (nv_init (mem_of window_tank) {}) ≤ 4084
      ∧ body_runs true 4096 (nv_init (mem_of window_tank) {}) = 3 :=
  ⟨(decode_loop_terminates true (mem_of window_tank) {}).2.1 4096, by decide⟩

end Zfs
